import Mathlib

/-!
Verification of the svdtools SVD patch engine (src/svdtools/patch.py).

The development shallowly embeds the data model (YAML patch documents,
lxml element trees) and the patch operations of patch.py, and proves or
refutes the specification claims about them.  Python exceptions are
modelled with `Except`; mutation of the element tree is modelled by
state passing, with errors carrying the tree state at raise time.
-/

set_option maxHeartbeats 1000000

namespace Svdtools

/-- YAML values as loaded by the patch loader (mappings keep insertion order,
duplicate keys are rejected at load time, so maps are association lists). -/
inductive Yaml where
  | ynull : Yaml
  | ystr : String → Yaml
  | yint : Int → Yaml
  | ylist : List Yaml → Yaml
  | ymap : List (String × Yaml) → Yaml
deriving Repr

/-- XML tags: named elements, or comment nodes (lxml models comments as
children whose tag is the Comment function object). -/
inductive XTag where
  | nm : String → XTag
  | comment : XTag
deriving DecidableEq, Repr

/-- lxml element: tag, attribute map, text, ordered children.  Tails and
formatting whitespace are irrelevant to every claim and are not modelled. -/
inductive XElem where
  | mk : XTag → List (String × String) → Option String → List XElem → XElem
deriving Repr

mutual

def XElem.beq : XElem → XElem → Bool
  | .mk t1 a1 x1 c1, .mk t2 a2 x2 c2 =>
    t1 == t2 && a1 == a2 && x1 == x2 && XElem.beqList c1 c2

def XElem.beqList : List XElem → List XElem → Bool
  | [], [] => true
  | x :: xs, y :: ys => XElem.beq x y && XElem.beqList xs ys
  | _, _ => false

end

mutual

theorem XElem.beqIffEq : ∀ a b : XElem, XElem.beq a b = true ↔ a = b
  | .mk t1 a1 x1 c1, .mk t2 a2 x2 c2 => by
    simp only [XElem.beq, Bool.and_eq_true, beq_iff_eq, XElem.mk.injEq]
    rw [XElem.beqListIffEq c1 c2]
    tauto

theorem XElem.beqListIffEq : ∀ a b : List XElem, XElem.beqList a b = true ↔ a = b
  | [], [] => by simp [XElem.beqList]
  | [], _ :: _ => by simp [XElem.beqList]
  | _ :: _, [] => by simp [XElem.beqList]
  | x :: xs, y :: ys => by
    simp only [XElem.beqList, Bool.and_eq_true, List.cons.injEq]
    rw [XElem.beqIffEq x y, XElem.beqListIffEq xs ys]

end

instance : DecidableEq XElem := fun a b =>
  decidable_of_iff (XElem.beq a b = true) (XElem.beqIffEq a b)

instance : BEq XElem := ⟨XElem.beq⟩

mutual

def Yaml.beq : Yaml → Yaml → Bool
  | .ynull, .ynull => true
  | .ystr s, .ystr t => s == t
  | .yint m, .yint n => m == n
  | .ylist l, .ylist m => Yaml.beqList l m
  | .ymap l, .ymap m => Yaml.beqMap l m
  | _, _ => false

def Yaml.beqList : List Yaml → List Yaml → Bool
  | [], [] => true
  | x :: xs, y :: ys => Yaml.beq x y && Yaml.beqList xs ys
  | _, _ => false

def Yaml.beqMap : List (String × Yaml) → List (String × Yaml) → Bool
  | [], [] => true
  | (k, x) :: xs, (l, y) :: ys => k == l && Yaml.beq x y && Yaml.beqMap xs ys
  | _, _ => false

end

mutual

theorem Yaml.beq_iff : ∀ a b : Yaml, Yaml.beq a b = true ↔ a = b
  | .ynull, .ynull => by simp [Yaml.beq]
  | .ynull, .ystr _ | .ynull, .yint _ | .ynull, .ylist _ | .ynull, .ymap _ => by
    simp [Yaml.beq]
  | .ystr _, .ynull | .ystr _, .yint _ | .ystr _, .ylist _ | .ystr _, .ymap _ => by
    simp [Yaml.beq]
  | .ystr s, .ystr t => by simp [Yaml.beq]
  | .yint _, .ynull | .yint _, .ystr _ | .yint _, .ylist _ | .yint _, .ymap _ => by
    simp [Yaml.beq]
  | .yint m, .yint n => by simp [Yaml.beq]
  | .ylist _, .ynull | .ylist _, .ystr _ | .ylist _, .yint _ | .ylist _, .ymap _ => by
    simp [Yaml.beq]
  | .ylist l, .ylist m => by
    simp only [Yaml.beq, Yaml.ylist.injEq]
    rw [Yaml.beqList_iff l m]
  | .ymap _, .ynull | .ymap _, .ystr _ | .ymap _, .yint _ | .ymap _, .ylist _ => by
    simp [Yaml.beq]
  | .ymap l, .ymap m => by
    simp only [Yaml.beq, Yaml.ymap.injEq]
    rw [Yaml.beqMap_iff l m]

theorem Yaml.beqList_iff : ∀ a b : List Yaml, Yaml.beqList a b = true ↔ a = b
  | [], [] => by simp [Yaml.beqList]
  | [], _ :: _ => by simp [Yaml.beqList]
  | _ :: _, [] => by simp [Yaml.beqList]
  | x :: xs, y :: ys => by
    simp only [Yaml.beqList, Bool.and_eq_true, List.cons.injEq]
    rw [Yaml.beq_iff x y, Yaml.beqList_iff xs ys]

theorem Yaml.beqMap_iff : ∀ a b : List (String × Yaml), Yaml.beqMap a b = true ↔ a = b
  | [], [] => by simp [Yaml.beqMap]
  | [], _ :: _ => by simp [Yaml.beqMap]
  | _ :: _, [] => by simp [Yaml.beqMap]
  | (k, x) :: xs, (l, y) :: ys => by
    simp only [Yaml.beqMap, Bool.and_eq_true, List.cons.injEq, Prod.mk.injEq, beq_iff_eq]
    rw [Yaml.beq_iff x y, Yaml.beqMap_iff xs ys]

end

instance : DecidableEq Yaml := fun a b =>
  decidable_of_iff (Yaml.beq a b = true) (Yaml.beq_iff a b)

instance : BEq Yaml := ⟨Yaml.beq⟩

def XElem.tag : XElem → XTag
  | .mk t _ _ _ => t

def XElem.attrib : XElem → List (String × String)
  | .mk _ a _ _ => a

def XElem.text : XElem → Option String
  | .mk _ _ tx _ => tx

def XElem.children : XElem → List XElem
  | .mk _ _ _ ch => ch

/-- Python exceptions raised (directly or indirectly) by patch.py. -/
inductive PErr where
  | attrError : PErr
  | typeError : PErr
  | valueError : PErr
  | keyError : PErr
  | nameError : PErr
  | svdError : PErr
  | mergeError : PErr
  | missingRegister : PErr
  | missingField : PErr
  | missingPeripheral : PErr
  | fieldsNotFound : PErr
  | fieldsShape : PErr
  | regsNotFound : PErr
  | unknownTag : PErr
  | notImplemented : PErr
deriving DecidableEq, Repr

def XElem.setChildren : XElem → List XElem → XElem
  | .mk t a tx _, ch => .mk t a tx ch

def XElem.setText : XElem → Option String → XElem
  | .mk t a _ ch, tx => .mk t a tx ch

/-- lxml find with a plain tag name: first direct child with that tag. -/
def XElem.find (e : XElem) (t : String) : Option XElem :=
  e.children.find? (fun c => c.tag == XTag.nm t)

/-- lxml findtext: text of the first matching direct child; an element with
no text yields the empty string, a missing element yields none. -/
def XElem.findtext (e : XElem) (t : String) : Option String :=
  (e.find t).map (fun c => c.text.getD "")

/-- Does the element carry the attribute (Python: key in elem.attrib)? -/
def XElem.hasAttr (e : XElem) (k : String) : Bool :=
  e.attrib.any (fun a => a.1 == k)

mutual

/-- lxml elem.iter(tag): the element itself and all descendants with the
given tag, in document (preorder) order. -/
def iterTag (t : String) : XElem → List XElem
  | .mk tg a tx ch =>
    (if tg = XTag.nm t then [XElem.mk tg a tx ch] else []) ++ iterTagL t ch

def iterTagL (t : String) : List XElem → List XElem
  | [] => []
  | c :: rest => iterTag t c ++ iterTagL t rest

end

/-- Replace the first direct child with the given tag by a new element. -/
def replaceChildTag (e : XElem) (t : String) (nw : XElem) : XElem :=
  XElem.setChildren e (go e.children)
where
  go : List XElem → List XElem
    | [] => []
    | c :: rest => if c.tag == XTag.nm t then nw :: rest else c :: go rest

/-- Python list.remove, by identity in the source; modelled as removal of
the first structurally equal element (entity names are unique within a
parent, per the data-model invariants). -/
def removeFirst (l : List XElem) (x : XElem) : Option (List XElem) :=
  match l with
  | [] => none
  | y :: rest => if y = x then some rest else (removeFirst rest x).map (y :: ·)

/-! ## Python value helpers -/

/-- Python str() of the YAML scalars that reach element text.  The repr of
lists and mappings is abstracted: well-formed patches never stringify
those, and no claim touches the rendering. -/
def pyStr : Yaml → String
  | .ynull => "None"
  | .ystr s => s
  | .yint n => toString n
  | .ylist _ => "[...]"
  | .ymap _ => "dict(...)"

/-- Python truthiness of an optional YAML value. -/
def truthy : Option Yaml → Bool
  | none => false
  | some .ynull => false
  | some (.ystr s) => !s.toList.isEmpty
  | some (.yint n) => n != 0
  | some (.ylist l) => !l.isEmpty
  | some (.ymap m) => !m.isEmpty

/-- dict lookup (first binding; the YAML loader rejects duplicate keys). -/
def pyGet (m : List (String × Yaml)) (k : String) : Option Yaml :=
  (m.find? (fun e => e.1 == k)).map (·.2)

/-- dict.get with default. -/
def pyGetD (m : List (String × Yaml)) (k : String) (d : Yaml) : Yaml :=
  (pyGet m k).getD d

def digitVal (base : Nat) (c : Char) : Option Nat :=
  let v :=
    if '0' ≤ c ∧ c ≤ '9' then some (c.toNat - '0'.toNat)
    else if 'a' ≤ c ∧ c ≤ 'f' then some (c.toNat - 'a'.toNat + 10)
    else if 'A' ≤ c ∧ c ≤ 'F' then some (c.toNat - 'A'.toNat + 10)
    else none
  match v with
  | some n => if n < base then some n else none
  | none => none

def parseDigits (base : Nat) (l : List Char) : Option Nat :=
  if l.isEmpty then none
  else
    l.foldl
      (fun acc c =>
        match acc, digitVal base c with
        | some a, some d => some (a * base + d)
        | _, _ => none)
      (some 0)

def pyInt0Mag : List Char → Option Nat
  | '0' :: 'x' :: rest => parseDigits 16 rest
  | '0' :: 'X' :: rest => parseDigits 16 rest
  | '0' :: 'b' :: rest => parseDigits 2 rest
  | '0' :: 'B' :: rest => parseDigits 2 rest
  | '0' :: 'o' :: rest => parseDigits 8 rest
  | '0' :: 'O' :: rest => parseDigits 8 rest
  | '0' :: rest => if rest.all (· == '0') then some 0 else none
  | l => parseDigits 10 l

/-- Python int(s, 0): sign, then hex/binary/octal prefix or decimal without
leading zeroes; raises ValueError otherwise. -/
def pyInt0 (s : Option String) : Except PErr Int :=
  match s with
  | none => .error .typeError
  | some s =>
    let (sgn, mag) :=
      match s.toList with
      | '-' :: r => (true, r)
      | '+' :: r => (false, r)
      | r => (false, r)
    match pyInt0Mag mag with
    | some n => .ok (if sgn then -(n : Int) else (n : Int))
    | none => .error .valueError

/-- Python hex() with lowercase digits. -/
def pyHex (n : Int) : String :=
  if n < 0 then "-0x" ++ (Nat.toDigits 16 (-n).toNat).asString
  else "0x" ++ (Nat.toDigits 16 n.toNat).asString

/-- Python slice s[a:b] with clamping, a and b both non-negative. -/
def pySlice (l : List Char) (a b : Nat) : List Char :=
  (l.drop a).take (b - a)

/-- Stable insertion sort by an integer key (Python sorted is stable; a
stable sort by a fixed key has a unique result). -/
def insSorted {α : Type} (key : α → Int) (x : α) : List α → List α
  | [] => [x]
  | y :: ys => if key y < key x then y :: insSorted key x ys else x :: y :: ys

def stableSortBy {α : Type} (key : α → Int) : List α → List α
  | [] => []
  | x :: xs => insSorted key x (stableSortBy key xs)

/-- List-based counterparts of the string operations the source uses;
the library versions are compiled by well-founded recursion and do not
reduce inside the kernel. -/
def pyStartsWith (s pre : String) : Bool :=
  pre.toList.isPrefixOf s.toList

def splitOnCharL (sep : Char) : List Char → List (List Char)
  | [] => [[]]
  | c :: rest =>
    let r := splitOnCharL sep rest
    if c = sep then [] :: r
    else
      match r with
      | [] => [[c]]
      | h :: t => (c :: h) :: t

/-- Python str.split on a one-character separator. -/
def pySplitChar (s : String) (sep : Char) : List String :=
  (splitOnCharL sep s.toList).map (fun l => String.mk l)

def replaceGoF (p0 : Char) (prest sub : List Char) : Nat → List Char → List Char
  | _, [] => []
  | 0, l => l
  | fuel + 1, c :: rest =>
    if (p0 :: prest).isPrefixOf (c :: rest) then
      sub ++ replaceGoF p0 prest sub fuel (rest.drop prest.length)
    else c :: replaceGoF p0 prest sub fuel rest

/-- Python str.replace: all non-overlapping occurrences, left to right;
the empty pattern inserts the replacement around every character. -/
def pyReplace (s pat sub : String) : String :=
  match pat.toList with
  | [] => String.mk (sub.toList ++ s.toList.flatMap (fun c => c :: sub.toList))
  | p0 :: prest => String.mk (replaceGoF p0 prest sub.toList s.toList.length s.toList)

/-- ",".join. -/
def joinComma : List String → String
  | [] => ""
  | [s] => s
  | s :: rest => s ++ "," ++ joinComma rest

/-! ## Name matcher (patch.py matchname / fnmatchcase / braceexpand) -/

/-- Contents of a glob bracket class up to the closing bracket. -/
def findClose : List Char → Option (List Char × List Char)
  | [] => none
  | ']' :: rest => some ([], rest)
  | c :: rest => (findClose rest).map (fun ab => (c :: ab.1, ab.2))

/-- Parse a glob class body (the characters after the opening bracket):
negation flag, class characters, remainder of the pattern.  A leading
exclamation mark negates; a bracket right after it (or first) is literal. -/
def splitClass (p : List Char) : Option (Bool × List Char × List Char) :=
  match p with
  | '!' :: ']' :: r => (findClose r).map (fun ab => (true, ']' :: ab.1, ab.2))
  | '!' :: q => (findClose q).map (fun ab => (true, ab.1, ab.2))
  | ']' :: r => (findClose r).map (fun ab => (false, ']' :: ab.1, ab.2))
  | q => (findClose q).map (fun ab => (false, ab.1, ab.2))

/-- Does a bracket class body contain the character (with dash ranges)? -/
def classHas : List Char → Char → Bool
  | [], _ => false
  | a :: '-' :: b :: rest, c => (a ≤ c && c ≤ b) || classHas rest c
  | a :: rest, c => a == c || classHas rest c

/-- Shell-glob matching, fuelled: every recursive call shrinks pattern
plus string, so pattern length plus string length plus one always
suffices (the zero case is unreachable from globMatch). -/
def globMatchF : Nat → List Char → List Char → Bool
  | 0, _, _ => false
  | fuel + 1, p, s =>
    match p, s with
    | [], s => s.isEmpty
    | '*' :: p, s =>
        globMatchF fuel p s ||
          (match s with
           | [] => false
           | _ :: s' => globMatchF fuel ('*' :: p) s')
    | '?' :: p, s =>
        (match s with
         | [] => false
         | _ :: s' => globMatchF fuel p s')
    | '[' :: p, s =>
        (match splitClass p with
         | none =>
           (match s with
            | [] => false
            | c :: s' => c == '[' && globMatchF fuel p s')
         | some (neg, cls, rest) =>
           (match s with
            | [] => false
            | c :: s' => (classHas cls c != neg) && globMatchF fuel rest s'))
    | c :: p, s =>
        (match s with
         | [] => false
         | d :: s' => c == d && globMatchF fuel p s')

/-- Shell-glob matching on character lists: star, question mark and
bracket classes, case sensitive, anchored at both ends (fnmatch compiles
the pattern with a trailing end-of-input anchor and uses re.match). -/
def globMatch (p s : List Char) : Bool :=
  globMatchF (p.length + s.length + 1) p s

/-- Python fnmatch.fnmatchcase on the pattern sublanguage used by specs. -/
def fnmatchcase (name pat : String) : Bool :=
  globMatch pat.toList name.toList

/-- Chars up to the matching close brace at the given nesting depth,
plus the remainder after it. -/
def matchBrace : Nat → List Char → Option (List Char × List Char)
  | _, [] => none
  | 0, '}' :: rest => some ([], rest)
  | d + 1, '}' :: rest => (matchBrace d rest).map (fun ab => ('}' :: ab.1, ab.2))
  | d, '{' :: rest => (matchBrace (d + 1) rest).map (fun ab => ('{' :: ab.1, ab.2))
  | d, c :: rest => (matchBrace d rest).map (fun ab => (c :: ab.1, ab.2))

/-- Split on commas at nesting depth zero. -/
def splitTop : Nat → List Char → List (List Char)
  | _, [] => [[]]
  | 0, ',' :: rest => [] :: splitTop 0 rest
  | d, '{' :: rest =>
      match splitTop (d + 1) rest with
      | [] => [['{']]
      | h :: t => ('{' :: h) :: t
  | d + 1, '}' :: rest =>
      match splitTop d rest with
      | [] => [['}']]
      | h :: t => ('}' :: h) :: t
  | d, c :: rest =>
      match splitTop d rest with
      | [] => [[c]]
      | h :: t => (c :: h) :: t

/-- Modelled from the spec: the braceexpand library used by matchname is not
part of this repository; the spec describes alternation expansion
("A{B,C}D" expands to ABD and ACD), applied recursively for nesting.
Unbalanced braces are kept literal.  Fuel bounds the recursion; every
recursive call is on a strictly shorter character list, so an initial fuel
of length + 1 always suffices. -/
def braceexpandF : Nat → List Char → List (List Char)
  | 0, s => [s]
  | fuel + 1, s =>
    match s with
    | [] => [[]]
    | '{' :: rest =>
      (match matchBrace 0 rest with
       | none => (braceexpandF fuel rest).map (fun t => '{' :: t)
       | some (inside, after) =>
         let alts := splitTop 0 inside
         let tails := braceexpandF fuel after
         (alts.flatMap (fun a => braceexpandF fuel a)).flatMap
           (fun aexp => tails.map (fun t => aexp ++ t)))
    | c :: rest => (braceexpandF fuel rest).map (fun t => c :: t)

def braceexpand (s : String) : List String :=
  (braceexpandF (s.length + 1) s.toList).map (fun l => String.mk l)

/-- patch.py matchname: check if name matches against a specification. -/
def matchname (name spec : String) : Bool :=
  if pyStartsWith spec "_" then false
  else if spec.toList.contains '{' then
    (braceexpand spec).any (fun subspec => fnmatchcase name subspec)
  else
    (pySplitChar spec ',').any (fun subspec => fnmatchcase name subspec)

/-! ## Spec index finder (patch.py spec_ind) -/

/-- Python str.find on a character: index of first occurrence, or -1. -/
def pyFindChar (s : List Char) (c : Char) : Int :=
  match s.findIdx? (· == c) with
  | some i => (i : Int)
  | none => -1

/-- patch.py spec_ind: left and right indices of the enumeration token. -/
def spec_ind (spec : String) : Option Nat × Option Nat :=
  let l := spec.toList
  let li1 := pyFindChar l '*'
  let li2 := pyFindChar l '?'
  let li3 := pyFindChar l '['
  let li : Option Nat :=
    if li1 > -1 then some li1.toNat
    else if li2 > -1 then some li2.toNat
    else if li3 > -1 then some li3.toNat
    else none
  let r := l.reverse
  let ri1 := pyFindChar r '*'
  let ri2 := pyFindChar r '?'
  let ri3 := pyFindChar r ']'
  let ri : Option Nat :=
    if ri1 > -1 then some ri1.toNat
    else if ri2 > -1 then some ri2.toNat
    else if ri3 > -1 then some ri3.toNat
    else none
  (li, ri)

/-- matchname applied to a possibly missing name text: Python touches the
name only after the underscore test on the spec, so a missing text raises
only when glob matching is attempted. -/
def matchnameOpt (name : Option String) (spec : String) : Except PErr Bool :=
  if pyStartsWith spec "_" then .ok false
  else
    match name with
    | none => .error .typeError
    | some n => .ok (matchname n spec)

/-- Filter elements by the name spec, reading each find("name").text the
way the iter_registers / iter_interrupts / iter_peripherals generators do. -/
def filterMatched (spec : String) : List XElem → Except PErr (List XElem)
  | [] => .ok []
  | e :: rest =>
    match e.find "name" with
    | none => .error .attrError
    | some n =>
      match matchnameOpt n.text spec with
      | .error er => .error er
      | .ok b =>
        match filterMatched spec rest with
        | .error er => .error er
        | .ok r => .ok (if b then e :: r else r)

/-- All descendants with the given tag whose name matches the spec. -/
def matchedElems (t : String) (spec : String) (root : XElem) : Except PErr (List XElem) :=
  filterMatched spec (iterTag t root)

/-! ## Mutating traversal -/

mutual

/-- Apply a node action over the tree in document order, modelled postorder:
children first, then the node itself.  Errors carry the partially
transformed tree, matching in-place mutation up to the raise. -/
def travNode (act : XElem → Except (PErr × XElem) XElem) : XElem → Except (PErr × XElem) XElem
  | .mk tg a tx ch =>
    match travChildren act ch with
    | .error (er, ch') => .error (er, XElem.mk tg a tx ch')
    | .ok ch' => act (XElem.mk tg a tx ch')

def travChildren (act : XElem → Except (PErr × XElem) XElem) :
    List XElem → Except (PErr × List XElem) (List XElem)
  | [] => .ok []
  | c :: rest =>
    match travNode act c with
    | .error (er, c') => .error (er, c' :: rest)
    | .ok c' =>
      match travChildren act rest with
      | .error (er, rest') => .error (er, c' :: rest')
      | .ok rest' => .ok (c' :: rest')

end

/-! ## YAML access the way Python uses it -/

/-- Python iteration over a YAML value: lists yield elements, mappings
yield their keys, strings yield their characters; scalars raise. -/
def yIterElems : Yaml → Except PErr (List Yaml)
  | .ylist l => .ok l
  | .ymap m => .ok (m.map (fun kv => Yaml.ystr kv.1))
  | .ystr s => .ok (s.toList.map (fun c => Yaml.ystr (String.mk [c])))
  | _ => .error .typeError

/-- Python container[key] (only the dict/str form is exercised). -/
def yIndex : Yaml → Yaml → Except PErr Yaml
  | .ymap m, .ystr k =>
    (match pyGet m k with
     | some v => .ok v
     | none => .error .keyError)
  | .ymap _, _ => .error .keyError
  | _, _ => .error .typeError

/-- Places where Python requires a str (glob matching, startswith). -/
def asStrA : Yaml → Except PErr String
  | .ystr s => .ok s
  | _ => .error .attrError

/-- Places where Python calls .items() on a value. -/
def asMapA : Yaml → Except PErr (List (String × Yaml))
  | .ymap m => .ok m
  | _ => .error .attrError

/-! ## Offset and bitmask checks (patch.py check_offsets / check_bitmasks) -/

def check_offsets (offsets : List Int) (dimIncrement : Int) : Bool :=
  (offsets.zip (offsets.drop 1)).all (fun o => o.2 - o.1 == dimIncrement)

def check_bitmasks (masks : List Int) (mask : Int) : Bool :=
  masks.all (· == mask)

/-! ## Interrupt operations (patch.py Peripheral) -/

def mkTextElem (t : String) (txt : String) : XElem :=
  .mk (XTag.nm t) [] (some txt) []

/-- Set the text of the first direct child with the given tag. -/
def setFirstTagText : List XElem → String → String → List XElem
  | [], _, _ => []
  | c :: rest, k, txt =>
    if c.tag == XTag.nm k then c.setText (some txt) :: rest
    else c :: setFirstTagText rest k txt

/-- The inner loop of modify_interrupt over one matched interrupt: an empty
value removes the child (raising if it is absent), any other value
stringifies into the text of the existing child. -/
def applyIMod : List (String × Yaml) → XElem → Except (PErr × XElem) XElem
  | [], it => .ok it
  | (k, v) :: rest, it =>
    match it.find k with
    | none =>
      if v == Yaml.ystr "" then .error (.typeError, it)
      else .error (.attrError, it)
    | some tagEl =>
      if v == Yaml.ystr "" then
        match removeFirst it.children tagEl with
        | none => .error (.valueError, it)
        | some ch => applyIMod rest (it.setChildren ch)
      else
        applyIMod rest (it.setChildren (setFirstTagText it.children k (pyStr v)))

/-- Per-node action of modify_interrupt: modify each interrupt whose name
matches; the spec and mods are only inspected when an interrupt is met,
as in the lazy generator. -/
def actInterrupt (ispec : Yaml) (imod : Yaml) (e : XElem) : Except (PErr × XElem) XElem :=
  if e.tag = XTag.nm "interrupt" then
    match asStrA ispec with
    | .error er => .error (er, e)
    | .ok s =>
      match e.find "name" with
      | none => .error (.attrError, e)
      | some n =>
        match matchnameOpt n.text s with
        | .error er => .error (er, e)
        | .ok b =>
          if b then
            match asMapA imod with
            | .error er => .error (er, e)
            | .ok entries => applyIMod entries e
          else .ok e
  else .ok e

/-- Peripheral.modify_interrupt. -/
def modify_interrupt (ptag : XElem) (ispec : Yaml) (imod : Yaml) :
    Except (PErr × XElem) XElem :=
  travNode (actInterrupt ispec imod) ptag

def delInterruptGo : List XElem → XElem → Except (PErr × XElem) XElem
  | [], p => .ok p
  | i :: rest, p =>
    match removeFirst p.children i with
    | none => .error (.valueError, p)
    | some ch => delInterruptGo rest (p.setChildren ch)

/-- Peripheral.delete_interrupt: snapshot the matched interrupts, then
remove each from the peripheral element (ValueError if one is not a
direct child). -/
def delete_interrupt (ptag : XElem) (ispec : String) : Except (PErr × XElem) XElem :=
  match matchedElems "interrupt" ispec ptag with
  | .error e => .error (e, ptag)
  | .ok matched => delInterruptGo matched ptag

/-- The duplicate scan of add_interrupt (a missing text or a non-string
name never compares equal to an existing text). -/
def interruptDup (iname : Yaml) : List XElem → Except PErr Bool
  | [] => .ok false
  | it :: rest =>
    match it.find "name" with
    | none => .error .attrError
    | some n =>
      match iname with
      | .ystr s => if n.text == some s then .ok true else interruptDup iname rest
      | _ => interruptDup iname rest

/-- Peripheral.add_interrupt: refuse duplicates, then append a new
interrupt child built from the name and the given mapping. -/
def add_interrupt (ptag : XElem) (iname : Yaml) (iadd : Yaml) :
    Except (PErr × XElem) XElem :=
  match interruptDup iname (iterTag "interrupt" ptag) with
  | .error e => .error (e, ptag)
  | .ok true => .error (.svdError, ptag)
  | .ok false =>
    match iname with
    | .ystr s =>
      let base := XElem.mk (XTag.nm "interrupt") [] none [mkTextElem "name" s]
      (match iadd with
       | .ymap entries =>
         let inew := base.setChildren
           (base.children ++ entries.map (fun kv => mkTextElem kv.1 (pyStr kv.2)))
         .ok (ptag.setChildren (ptag.children ++ [inew]))
       | _ => .error (.attrError, ptag.setChildren (ptag.children ++ [base])))
    | _ =>
      let base := XElem.mk (XTag.nm "interrupt") [] none [XElem.mk (XTag.nm "name") [] none []]
      .error (.typeError, ptag.setChildren (ptag.children ++ [base]))

/-! ## Register and peripheral deletion -/

def delRegisterGo : List XElem → XElem → Except (PErr × XElem) XElem
  | [], p => .ok p
  | r :: rest, p =>
    match p.find "registers" with
    | none => .error (.attrError, p)
    | some regs =>
      match removeFirst regs.children r with
      | none => .error (.valueError, p)
      | some ch => delRegisterGo rest (replaceChildTag p "registers" (regs.setChildren ch))

/-- Peripheral.delete_register: snapshot the matched registers, then remove
each from the registers container. -/
def delete_register (ptag : XElem) (rspec : String) : Except (PErr × XElem) XElem :=
  match matchedElems "register" rspec ptag with
  | .error e => .error (e, ptag)
  | .ok matched => delRegisterGo matched ptag

def delPeriphGo : List XElem → XElem → Except (PErr × XElem) XElem
  | [], d => .ok d
  | p :: rest, d =>
    match d.find "peripherals" with
    | none => .error (.attrError, d)
    | some pers =>
      match removeFirst pers.children p with
      | none => .error (.valueError, d)
      | some ch => delPeriphGo rest (replaceChildTag d "peripherals" (pers.setChildren ch))

/-- Device.delete_peripheral (check_derived is off): snapshot the matched
peripherals, then remove each from the peripherals container. -/
def delete_peripheral (dev : XElem) (pspec : String) : Except (PErr × XElem) XElem :=
  match matchedElems "peripheral" pspec dev with
  | .error e => .error (e, dev)
  | .ok matched => delPeriphGo matched dev

/-! ## The derivedFrom branch of Device.process_peripheral -/

def derivedDelSpecs : List Yaml → XElem → Except (PErr × XElem) XElem
  | [], p => .ok p
  | sv :: rest, p =>
    match asStrA sv with
    | .error e => .error (e, p)
    | .ok s =>
      match delete_interrupt p s with
      | .error ep => .error ep
      | .ok p' => derivedDelSpecs rest p'

/-- _delete on a derived peripheral: only a mapping is examined and only
its _interrupts entry acts. -/
def derivedDeleteEntries : List (String × Yaml) → XElem → Except (PErr × XElem) XElem
  | [], p => .ok p
  | (k, dv) :: rest, p =>
    if k = "_interrupts" then
      match yIterElems dv with
      | .error e => .error (e, p)
      | .ok specs =>
        match derivedDelSpecs specs p with
        | .error ep => .error ep
        | .ok p' => derivedDeleteEntries rest p'
    else derivedDeleteEntries rest p

def derivedModIspecs : Yaml → List Yaml → XElem → Except (PErr × XElem) XElem
  | _, [], p => .ok p
  | rmod, iv :: rest, p =>
    match yIndex rmod iv with
    | .error e => .error (e, p)
    | .ok imod =>
      match modify_interrupt p iv imod with
      | .error ep => .error ep
      | .ok p' => derivedModIspecs rmod rest p'

/-- One _modify key on a derived peripheral: only _interrupts acts. -/
def derivedModOne (mval : Yaml) (rv : Yaml) (p : XElem) : Except (PErr × XElem) XElem :=
  if rv = Yaml.ystr "_interrupts" then
    match yIndex mval rv with
    | .error e => .error (e, p)
    | .ok rmod =>
      match yIterElems rmod with
      | .error e => .error (e, p)
      | .ok ispecs => derivedModIspecs rmod ispecs p
  else .ok p

def derivedModEntries : Yaml → List Yaml → XElem → Except (PErr × XElem) XElem
  | _, [], p => .ok p
  | mval, rv :: rest, p =>
    match derivedModOne mval rv p with
    | .error ep => .error ep
    | .ok p' => derivedModEntries mval rest p'

def derivedAddInames : Yaml → List Yaml → XElem → Except (PErr × XElem) XElem
  | _, [], p => .ok p
  | radd, iv :: rest, p =>
    match yIndex radd iv with
    | .error e => .error (e, p)
    | .ok iadd =>
      match add_interrupt p iv iadd with
      | .error ep => .error ep
      | .ok p' => derivedAddInames radd rest p'

/-- One _add key on a derived peripheral: only _interrupts acts. -/
def derivedAddOne (aval : Yaml) (rv : Yaml) (p : XElem) : Except (PErr × XElem) XElem :=
  if rv = Yaml.ystr "_interrupts" then
    match yIndex aval rv with
    | .error e => .error (e, p)
    | .ok radd =>
      match yIterElems radd with
      | .error e => .error (e, p)
      | .ok inames => derivedAddInames radd inames p
  else .ok p

def derivedAddEntries : Yaml → List Yaml → XElem → Except (PErr × XElem) XElem
  | _, [], p => .ok p
  | aval, rv :: rest, p =>
    match derivedAddOne aval rv p with
    | .error ep => .error ep
    | .ok p' => derivedAddEntries aval rest p'

/-- The _delete pass of the derived branch: only a mapping is examined. -/
def derivedDeletePhase (peripheral : List (String × Yaml)) (ptag : XElem) :
    Except (PErr × XElem) XElem :=
  match pyGetD peripheral "_delete" (Yaml.ylist []) with
  | .ymap entries => derivedDeleteEntries entries ptag
  | _ => .ok ptag

def derivedModPhase (peripheral : List (String × Yaml)) (p1 : XElem) :
    Except (PErr × XElem) XElem :=
  let mval := pyGetD peripheral "_modify" (Yaml.ymap [])
  match yIterElems mval with
  | .error e => .error (e, p1)
  | .ok rvs => derivedModEntries mval rvs p1

def derivedAddPhase (peripheral : List (String × Yaml)) (p2 : XElem) :
    Except (PErr × XElem) XElem :=
  let aval := pyGetD peripheral "_add" (Yaml.ymap [])
  match yIterElems aval with
  | .error e => .error (e, p2)
  | .ok avs => derivedAddEntries aval avs p2

/-- Device.process_peripheral, the branch taken for one matched peripheral
that carries a derivedFrom attribute: only the _interrupts sub-directives
of _delete, _modify and _add run, then processing of this peripheral
stops (the code continues to the next match). -/
def processDerived (peripheral : List (String × Yaml)) (ptag : XElem) :
    Except (PErr × XElem) XElem :=
  match derivedDeletePhase peripheral ptag with
  | .error ep => .error ep
  | .ok p1 =>
    match derivedModPhase peripheral p1 with
    | .error ep => .error ep
    | .ok p2 => derivedAddPhase peripheral p2


/-! ## Field geometry and bitmasks (patch.py get_field_offset_width etc.) -/

/-- patch.py get_field_offset_width: bitOffset+bitWidth, or a bitRange tag,
or lsb/msb.  The lsb branch of the source assigns a misspelled local and
returns an unbound name, and the fall-through leaves both names unbound,
so both raise; the parses inside the lsb branch still run first. -/
def get_field_offset_width (ftag : XElem) : Except PErr (Int × Int) :=
  match ftag.findtext "bitOffset" with
  | some ot =>
    (match pyInt0 (some ot) with
     | .error e => .error e
     | .ok off =>
       match pyInt0 (ftag.findtext "bitWidth") with
       | .error e => .error e
       | .ok w => .ok (off, w))
  | none =>
    match ftag.findtext "bitRange" with
    | some br =>
      let inner := String.mk ((br.toList.drop 1).take (br.toList.length - 2))
      (match pySplitChar inner ':' with
       | [msb, lsb] =>
         (match pyInt0 (some lsb) with
          | .error e => .error e
          | .ok off =>
            match pyInt0 (some msb) with
            | .error e => .error e
            | .ok m => .ok (off, m - off + 1))
       | _ => .error .valueError)
    | none =>
      match ftag.findtext "lsb" with
      | some lt =>
        (match pyInt0 (some lt) with
         | .error e => .error e
         | .ok _ =>
           match pyInt0 (ftag.findtext "msb") with
           | .error e => .error e
           | .ok _ => .error .nameError)
      | none => .error .nameError

/-- Register.size: the first size child along the element and its ancestor
chain (innermost first); 32 when none carries one. -/
def regSize (anc : List XElem) (rtag : XElem) : Except PErr Int :=
  match (rtag :: anc).find? (fun e => (e.find "size").isSome) with
  | some e => pyInt0 (e.findtext "size")
  | none => .ok 32

/-- Python right shift on non-negative ints; negative count raises. -/
def pyShiftR (a b : Int) : Except PErr Int :=
  if b < 0 then .error .valueError else .ok (a / (2 ^ b.toNat))

/-- Python left shift; negative count raises. -/
def pyShiftL (a b : Int) : Except PErr Int :=
  if b < 0 then .error .valueError else .ok (a * 2 ^ b.toNat)

/-- matchname against a spec that may fail to be a string (Python raises
when startswith is called on a non-string). -/
def matchnameOptY (name : Option String) (spec : Yaml) : Except PErr Bool :=
  match asStrA spec with
  | .error e => .error e
  | .ok sp => matchnameOpt name sp

/-- filterMatched with a YAML spec, reading names the way the generators do. -/
def filterMatchedY (spec : Yaml) : List XElem → Except PErr (List XElem)
  | [] => .ok []
  | e :: rest =>
    match e.find "name" with
    | none => .error .attrError
    | some n =>
      match matchnameOptY n.text spec with
      | .error er => .error er
      | .ok b =>
        match filterMatchedY spec rest with
        | .error er => .error er
        | .ok r => .ok (if b then e :: r else r)

def matchedElemsY (t : String) (spec : Yaml) (root : XElem) : Except PErr (List XElem) :=
  filterMatchedY spec (iterTag t root)

/-- Register.iter_fields: fields of the fields container matching the spec;
no fields container yields nothing. -/
def iterFieldsY (rtag : XElem) (fspec : Yaml) : Except PErr (List XElem) :=
  match rtag.find "fields" with
  | none => .ok []
  | some fs => matchedElemsY "field" fspec fs

/-- Register.get_bitmask: OR together ((full_mask >> (size - width)) << offset)
over all fields. -/
def maskFold (size full_mask : Int) : List XElem → Int → Except PErr Int
  | [], m => .ok m
  | f :: rest, m =>
    match get_field_offset_width f with
    | .error e => .error e
    | .ok (foff, fw) =>
      match pyShiftR full_mask (size - fw) with
      | .error e => .error e
      | .ok t1 =>
        match pyShiftL t1 foff with
        | .error e => .error e
        | .ok t2 => maskFold size full_mask rest (Int.ofNat (m.toNat ||| t2.toNat))

def get_bitmask (anc : List XElem) (rtag : XElem) : Except PErr Int :=
  match regSize anc rtag with
  | .error e => .error e
  | .ok size =>
    if size < 0 then .error .valueError
    else
      let full_mask : Int := 2 ^ size.toNat - 1
      match iterFieldsY rtag (Yaml.ystr "*") with
      | .error e => .error e
      | .ok fields => maskFold size full_mask fields 0

mutual

/-- Ancestor chain of the first occurrence of a subtree, innermost first. -/
def findChain (x : XElem) : XElem → Option (List XElem)
  | .mk tg a tx ch =>
    if ch.any (· = x) then some [XElem.mk tg a tx ch]
    else
      match findChainL x ch with
      | some l => some (l ++ [XElem.mk tg a tx ch])
      | none => none

def findChainL (x : XElem) : List XElem → Option (List XElem)
  | [] => none
  | c :: rest =>
    match findChain x c with
    | some l => some l
    | none => findChainL x rest

end

/-! ## Field modification (Register.modify_field) -/

/-- Update the first direct child with the given tag. -/
def updateFirstTag (l : List XElem) (k : String) (f : XElem → XElem) : List XElem :=
  match l with
  | [] => []
  | c :: rest => if c.tag == XTag.nm k then f c :: rest else c :: updateFirstTag rest k f

/-- Remove the first direct child with the given tag. -/
def removeFirstTag (l : List XElem) (k : String) : List XElem :=
  match l with
  | [] => []
  | c :: rest => if c.tag == XTag.nm k then rest else c :: removeFirstTag rest k

/-- One (key, value) entry of modify_field applied to one field: rename
_write_constraint to writeConstraint, create the child when absent, then
either handle the write-constraint forms or just set the text. -/
def applyFModEntry (ftag : XElem) (key0 : String) (v : Yaml) : Except (PErr × XElem) XElem :=
  let key := if key0 = "_write_constraint" then "writeConstraint" else key0
  let ft1 :=
    if (ftag.find key).isSome then ftag
    else ftag.setChildren (ftag.children ++ [XElem.mk (XTag.nm key) [] none []])
  if key = "writeConstraint" then
    let ft2 := ft1.setChildren (updateFirstTag ft1.children key (fun t => t.setChildren []))
    match v with
    | .ystr "none" => .ok (ft2.setChildren (removeFirstTag ft2.children key))
    | .ystr "enum" =>
      .ok (ft2.setChildren (updateFirstTag ft2.children key
        (fun t => t.setChildren (t.children ++ [mkTextElem "useEnumeratedValues" "true"]))))
    | .ylist l =>
      (match l with
       | lo :: hi :: _ =>
         .ok (ft2.setChildren (updateFirstTag ft2.children key
           (fun t => t.setChildren (t.children ++
             [XElem.mk (XTag.nm "range") [] none
               [mkTextElem "minimum" (pyStr lo), mkTextElem "maximum" (pyStr hi)]]))))
       | _ => .error (.valueError, ft2))
    | _ => .error (.svdError, ft2)
  else
    .ok (ft1.setChildren (updateFirstTag ft1.children key (fun t => t.setText (some (pyStr v)))))

def applyFMod : List (String × Yaml) → XElem → Except (PErr × XElem) XElem
  | [], f => .ok f
  | (k, v) :: rest, f =>
    match applyFModEntry f k v with
    | .error ef => .error ef
    | .ok f' => applyFMod rest f'

/-- Per-node action of modify_field over the fields subtree. -/
def actFieldModify (fspec : Yaml) (fmod : Yaml) (e : XElem) : Except (PErr × XElem) XElem :=
  if e.tag = XTag.nm "field" then
    match e.find "name" with
    | none => .error (.attrError, e)
    | some n =>
      match matchnameOptY n.text fspec with
      | .error er => .error (er, e)
      | .ok b =>
        if b then
          match asMapA fmod with
          | .error er => .error (er, e)
          | .ok entries => applyFMod entries e
        else .ok e
  else .ok e

/-- Lift a traversal of the fields container to the register element. -/
def onFields (rtag : XElem) (act : XElem → Except (PErr × XElem) XElem) :
    Except (PErr × XElem) XElem :=
  match rtag.find "fields" with
  | none => .ok rtag
  | some fs =>
    match travNode act fs with
    | .error (er, fs') => .error (er, replaceChildTag rtag "fields" fs')
    | .ok fs' => .ok (replaceChildTag rtag "fields" fs')

/-- Register.modify_field. -/
def modify_field (rtag : XElem) (fspec : Yaml) (fmod : Yaml) : Except (PErr × XElem) XElem :=
  onFields rtag (actFieldModify fspec fmod)

/-- Per-node action of clear_field: drop enumeratedValues and
writeConstraint children of every matching field. -/
def actFieldClear (fspec : Yaml) (e : XElem) : Except (PErr × XElem) XElem :=
  if e.tag = XTag.nm "field" then
    match e.find "name" with
    | none => .error (.attrError, e)
    | some n =>
      match matchnameOptY n.text fspec with
      | .error er => .error (er, e)
      | .ok b =>
        if b then
          .ok (e.setChildren (e.children.filter
            (fun c => !(c.tag == XTag.nm "enumeratedValues") && !(c.tag == XTag.nm "writeConstraint"))))
        else .ok e
  else .ok e

/-- Register.clear_field. -/
def clear_field (rtag : XElem) (fspec : Yaml) : Except (PErr × XElem) XElem :=
  onFields rtag (actFieldClear fspec)

def delFieldGo : List XElem → XElem → Except (PErr × XElem) XElem
  | [], r => .ok r
  | f :: rest, r =>
    match r.find "fields" with
    | none => .error (.attrError, r)
    | some fs =>
      match removeFirst fs.children f with
      | none => .error (.valueError, r)
      | some ch => delFieldGo rest (replaceChildTag r "fields" (fs.setChildren ch))

/-- Register.delete_field. -/
def delete_field (rtag : XElem) (fspec : Yaml) : Except (PErr × XElem) XElem :=
  match iterFieldsY rtag fspec with
  | .error e => .error (e, rtag)
  | .ok matched => delFieldGo matched rtag

/-- The duplicate scan of add_field. -/
def fieldDup (fname : Yaml) : List XElem → Except PErr Bool
  | [] => .ok false
  | ft :: rest =>
    match ft.find "name" with
    | none => .error .attrError
    | some n =>
      match fname with
      | .ystr s => if n.text == some s then .ok true else fieldDup fname rest
      | _ => fieldDup fname rest

/-- Register.add_field: create the fields container when missing, refuse
duplicates, then append the new field built from the mapping. -/
def add_field (rtag : XElem) (fname : Yaml) (fadd : Yaml) : Except (PErr × XElem) XElem :=
  let r1 :=
    if (rtag.find "fields").isSome then rtag
    else rtag.setChildren (rtag.children ++ [XElem.mk (XTag.nm "fields") [] none []])
  match r1.find "fields" with
  | none => .error (.attrError, r1)
  | some fs =>
    match fieldDup fname (iterTag "field" fs) with
    | .error e => .error (e, r1)
    | .ok true => .error (.svdError, r1)
    | .ok false =>
      match fname with
      | .ystr s =>
        let base := XElem.mk (XTag.nm "field") [] none [mkTextElem "name" s]
        (match fadd with
         | .ymap entries =>
           let fnew := base.setChildren
             (base.children ++ entries.map (fun kv => mkTextElem kv.1 (pyStr kv.2)))
           .ok (replaceChildTag r1 "fields" (fs.setChildren (fs.children ++ [fnew])))
         | _ =>
           .error (.attrError, replaceChildTag r1 "fields" (fs.setChildren (fs.children ++ [base]))))
      | _ =>
        let base := XElem.mk (XTag.nm "field") [] none [XElem.mk (XTag.nm "name") [] none []]
        .error (.typeError, replaceChildTag r1 "fields" (fs.setChildren (fs.children ++ [base])))

/-! ## Strip (create_regex_from_pattern + re.sub) -/

/-- create_regex_from_pattern + regex.sub("") for the prefix form: the
translated glob is start-anchored with lazy stars, so the shortest prefix
fully matching the glob is removed. -/
def stripStartL (pat : List Char) (s : List Char) : List Char :=
  match (List.range (s.length + 1)).find? (fun k => globMatch pat (s.take k)) with
  | some k => s.drop k
  | none => s

/-- The suffix form keeps the end anchor: the leftmost position from which
the glob matches the entire rest of the string starts the removed span. -/
def stripEndL (pat : List Char) (s : List Char) : List Char :=
  match (List.range (s.length + 1)).find? (fun p => globMatch pat (s.drop p)) with
  | some p => s.take p
  | none => s

def stripSub (pat : String) (stripEnd : Bool) (s : String) : String :=
  if stripEnd then String.mk (stripEndL pat.toList s.toList)
  else String.mk (stripStartL pat.toList s.toList)

/-- Per-node action of Register.strip: rewrite name and displayName of
every field. -/
def actStripField (pat : String) (stripEnd : Bool) (e : XElem) : Except (PErr × XElem) XElem :=
  if e.tag = XTag.nm "field" then
    match e.find "name" with
    | none => .error (.attrError, e)
    | some n =>
      match n.text with
      | none => .error (.typeError, e)
      | some t =>
        let e1 := e.setChildren (setFirstTagText e.children "name" (stripSub pat stripEnd t))
        match e1.find "displayName" with
        | none => .ok e1
        | some dn =>
          match dn.text with
          | none => .error (.typeError, e1)
          | some dt =>
            .ok (e1.setChildren (setFirstTagText e1.children "displayName" (stripSub pat stripEnd dt)))
  else .ok e

/-- Register.strip: the pattern is compiled before the loop, so a
non-string raises with the register untouched. -/
def stripR (rtag : XElem) (substr : Yaml) (stripEnd : Bool) : Except (PErr × XElem) XElem :=
  match asStrA substr with
  | .error e => .error (e, rtag)
  | .ok pat => travNode (actStripField pat stripEnd) rtag

/-! ## Merging, splitting and field arrays -/

def common2 (a b : List Char) : List Char :=
  match a, b with
  | x :: xs, y :: ys => if x = y then x :: common2 xs ys else []
  | _, _ => []

/-- os.path.commonprefix: the longest common prefix; empty list gives "". -/
def osCommonPre : List String → String
  | [] => ""
  | s :: rest => String.mk (rest.foldl (fun acc t => common2 acc t.toList) s.toList)

/-- Names of the given fields (commonprefix over a missing text raises). -/
def fieldNames : List XElem → Except PErr (List String)
  | [] => .ok []
  | f :: rest =>
    match f.find "name" with
    | none => .error .attrError
    | some n =>
      match n.text with
      | none => .error .typeError
      | some t =>
        match fieldNames rest with
        | .error e => .error e
        | .ok ns => .ok (t :: ns)

def sumWidths : List XElem → Except PErr Int
  | [] => .ok 0
  | f :: rest =>
    match get_field_offset_width f with
    | .error e => .error e
    | .ok ow =>
      match sumWidths rest with
      | .error e => .error e
      | .ok s => .ok (ow.2 + s)

def minOffsets : List XElem → Except PErr Int
  | [] => .error .valueError
  | [f] => (get_field_offset_width f).map (·.1)
  | f :: rest =>
    match get_field_offset_width f with
    | .error e => .error e
    | .ok ow =>
      match minOffsets rest with
      | .error e => .error e
      | .ok m => .ok (min ow.1 m)

def mergeCollect : List Yaml → XElem → Except PErr (List XElem)
  | [], _ => .ok []
  | fv :: rest, r =>
    match iterFieldsY r fv with
    | .error e => .error e
    | .ok fs =>
      match mergeCollect rest r with
      | .error e => .error e
      | .ok fs2 => .ok (fs ++ fs2)

/-- The tail of merge_fields once at least one field matched: shared
description, summed width, minimal offset, remove the parts, append the
merged field. -/
def mergeFinish (rtag : XElem) (fields : List XElem) (nameV : Yaml) :
    Except (PErr × XElem) XElem :=
  match fields with
  | [] => .error (.valueError, rtag)
  | f0 :: _ =>
    match f0.find "description" with
    | none => .error (.attrError, rtag)
    | some d =>
      let desc := d.text
      match sumWidths fields with
      | .error e => .error (e, rtag)
      | .ok bw =>
        match minOffsets fields with
        | .error e => .error (e, rtag)
        | .ok bo =>
          match delFieldGo fields rtag with
          | .error ep => .error ep
          | .ok r1 =>
            match r1.find "fields" with
            | none => .error (.attrError, r1)
            | some fs =>
              match nameV with
              | .ystr nm =>
                let fnew := XElem.mk (XTag.nm "field") [] none
                  [mkTextElem "name" nm,
                   XElem.mk (XTag.nm "description") [] desc [],
                   mkTextElem "bitOffset" (toString bo),
                   mkTextElem "bitWidth" (toString bw)]
                .ok (replaceChildTag r1 "fields" (fs.setChildren (fs.children ++ [fnew])))
              | _ =>
                let base := XElem.mk (XTag.nm "field") [] none
                  [XElem.mk (XTag.nm "name") [] none []]
                .error (.typeError,
                  replaceChildTag r1 "fields" (fs.setChildren (fs.children ++ [base])))

/-- The zero-match raise of merge_fields: the message formats the name
fspec, which is bound only when the value was a list (the loop variable
leaks); otherwise Python raises NameError instead of RegisterMergeError. -/
def mergeZero (rtag : XElem) (fields : List XElem) (nameV : Yaml) (leak : Option Yaml) :
    Except (PErr × XElem) XElem :=
  if fields.isEmpty then
    match rtag.find "name" with
    | none => .error (.attrError, rtag)
    | some _ =>
      match leak with
      | some _ => .error (.mergeError, rtag)
      | none => .error (.nameError, rtag)
  else mergeFinish rtag fields nameV

/-- Register.merge_fields. -/
def merge_fields (rtag : XElem) (key : Yaml) (value : Yaml) : Except (PErr × XElem) XElem :=
  match value with
  | .ystr s =>
    (match iterFieldsY rtag (Yaml.ystr s) with
     | .error e => .error (e, rtag)
     | .ok fields => mergeZero rtag fields key none)
  | .ylist l =>
    (match mergeCollect l rtag with
     | .error e => .error (e, rtag)
     | .ok fields => mergeZero rtag fields key l.getLast?)
  | .ynull =>
    (match iterFieldsY rtag key with
     | .error e => .error (e, rtag)
     | .ok fields =>
       match fieldNames fields with
       | .error e => .error (e, rtag)
       | .ok ns => mergeZero rtag fields (Yaml.ystr (osCommonPre ns)) none)
  | _ =>
    match rtag.find "name" with
    | none => .error (.attrError, rtag)
    | some _ => .error (.mergeError, rtag)

/-- Register.split_fields: replace the first matched field by one
single-bit field per bit of the summed width. -/
def split_fields (rtag : XElem) (fspec : Yaml) (fsplit : Yaml) : Except (PErr × XElem) XElem :=
  match iterFieldsY rtag fspec with
  | .error e => .error (e, rtag)
  | .ok fields =>
    match fields with
    | [] =>
      (match rtag.find "name" with
       | none => .error (.attrError, rtag)
       | some _ => .error (.mergeError, rtag))
    | f0 :: _ =>
      let nameE : Except PErr String :=
        match fsplit with
        | .ymap m =>
          (match pyGet m "name" with
           | some nv => (match nv with | .ystr s => .ok s | _ => .error .attrError)
           | none => (fieldNames fields).map (fun ns => osCommonPre ns ++ "%s"))
        | _ => (fieldNames fields).map (fun ns => osCommonPre ns ++ "%s")
      match nameE with
      | .error e => .error (e, rtag)
      | .ok nm =>
        let descE : Except PErr String :=
          match fsplit with
          | .ymap m =>
            (match pyGet m "description" with
             | some dv => (match dv with | .ystr s => .ok s | _ => .error .attrError)
             | none =>
               match f0.find "description" with
               | none => .error .attrError
               | some d => (match d.text with | none => .error .attrError | some t => .ok t))
          | _ =>
            match f0.find "description" with
            | none => .error .attrError
            | some d => (match d.text with | none => .error .attrError | some t => .ok t)
        match descE with
        | .error e => .error (e, rtag)
        | .ok ds =>
          match get_field_offset_width f0 with
          | .error e => .error (e, rtag)
          | .ok ow =>
            match sumWidths fields with
            | .error e => .error (e, rtag)
            | .ok bw =>
              match delFieldGo [f0] rtag with
              | .error ep => .error ep
              | .ok r1 =>
                match r1.find "fields" with
                | none => .error (.attrError, r1)
                | some fs =>
                  let newFields := (List.range bw.toNat).map (fun i =>
                    XElem.mk (XTag.nm "field") [] none
                      [mkTextElem "name" (pyReplace nm "%s" (toString i)),
                       mkTextElem "description" (pyReplace ds "%s" (toString i)),
                       mkTextElem "bitOffset" (toString (ow.1 + (i : Int))),
                       mkTextElem "bitWidth" "1"])
                  .ok (replaceChildTag r1 "fields" (fs.setChildren (fs.children ++ newFields)))

/-! ## Field array collection (Register.collect_fields_in_array) -/

def pySliceOpt (s : String) (li ri : Option Nat) : Except PErr String :=
  match ri with
  | none => .error .typeError
  | some r => .ok (String.mk (pySlice s.toList (li.getD 0) (s.toList.length - r)))

def templateName (sp : String) (li ri : Option Nat) : Except PErr String :=
  match ri with
  | none => .error .typeError
  | some r =>
    .ok (String.mk (sp.toList.take (li.getD sp.toList.length)) ++ "%s" ++
         String.mk (sp.toList.drop (sp.toList.length - r)))

def cfaCands (li ri : Option Nat) : List XElem → Except PErr (List (XElem × String × Int))
  | [] => .ok []
  | f :: rest =>
    match f.findtext "name" with
    | none => .error .typeError
    | some nm =>
      match pySliceOpt nm li ri with
      | .error e => .error e
      | .ok vary =>
        match get_field_offset_width f with
        | .error e => .error e
        | .ok ow =>
          (cfaCands li ri rest).map (fun r => (f, vary, ow.1) :: r)

mutual

/-- Replace the first subtree equal to old by nw (in-place mutation of an
element located by identity, under unique names). -/
def replEq (old nw : XElem) : XElem → Bool × XElem
  | .mk tg a tx ch =>
    if XElem.mk tg a tx ch = old then (true, nw)
    else
      let r := replEqList old nw ch
      (r.1, XElem.mk tg a tx r.2)

def replEqList (old nw : XElem) : List XElem → Bool × List XElem
  | [] => (false, [])
  | c :: rest =>
    let r := replEq old nw c
    if r.1 then (true, r.2 :: rest)
    else
      let r2 := replEqList old nw rest
      (r2.1, c :: r2.2)

end

def replaceEqNode (root old nw : XElem) : XElem :=
  (replEq old nw root).2

/-- The rename/description/dim tail of collect_fields_in_array on the
surviving first candidate. -/
def cfaRename (r1 f0 : XElem) (sp : String) (li ri : Option Nat)
    (fm : List (String × Yaml)) (dimIndex : String) (dim : Nat) (dimIncrement : Int) :
    Except (PErr × XElem) XElem :=
  match (match pyGet fm "name" with
         | some v => Except.ok v
         | none => (templateName sp li ri).map Yaml.ystr) with
  | .error e => .error (e, r1)
  | .ok nameV =>
    let descRes : Except PErr XElem :=
      match pyGet fm "description" with
      | some dv =>
        if dv == Yaml.ystr "_original" then .ok f0
        else
          (match f0.find "description" with
           | none => .error .attrError
           | some _ =>
             match dv with
             | .ystr ds => .ok (f0.setChildren (setFirstTagText f0.children "description" ds))
             | _ => .error .typeError)
      | none =>
        if (dimIndex.toList.headD 'x') = '0' then
          match f0.find "description" with
          | none => .error .attrError
          | some d =>
            match d.text with
            | none => .error .attrError
            | some dt =>
              match f0.find "name" with
              | none => .error .attrError
              | some nt =>
                match nt.text with
                | none => .error .attrError
                | some ntx =>
                  match pySliceOpt ntx li ri with
                  | .error e => .error e
                  | .ok varyN =>
                    .ok (f0.setChildren (setFirstTagText f0.children "description" (pyReplace dt varyN "%s")))
        else .ok f0
    match descRes with
    | .error e => .error (e, r1)
    | .ok f1 =>
      match f1.find "name" with
      | none => .error (.attrError, r1)
      | some _ =>
        match nameV with
        | .ystr nm =>
          let f2 := f1.setChildren (setFirstTagText f1.children "name" nm)
          let f3 := f2.setChildren (f2.children ++
            [mkTextElem "dim" (toString dim),
             mkTextElem "dimIndex" dimIndex,
             mkTextElem "dimIncrement" (pyHex dimIncrement)])
          .ok (replaceEqNode r1 f0 f3)
        | _ => .error (.typeError, r1)

/-- Register.collect_fields_in_array. -/
def collect_fields_in_array (rtag : XElem) (fspec : Yaml) (fmod : Yaml) :
    Except (PErr × XElem) XElem :=
  match asStrA fspec with
  | .error e => .error (e, rtag)
  | .ok sp =>
    let lr := spec_ind sp
    match iterFieldsY rtag (Yaml.ystr sp) with
    | .error e => .error (e, rtag)
    | .ok fl =>
      match cfaCands lr.1 lr.2 fl with
      | .error e => .error (e, rtag)
      | .ok cands =>
        let dim := cands.length
        if dim = 0 then .error (.fieldsNotFound, rtag)
        else
          let sorted := stableSortBy (fun c => c.2.2) cands
          match asMapA fmod with
          | .error e => .error (e, rtag)
          | .ok fm =>
            let dimIndex :=
              if truthy (pyGet fm "_start_from_zero") then
                joinComma ((List.range dim).map toString)
              else
                match sorted with
                | [c] => c.2.1 ++ "-" ++ c.2.1
                | _ => joinComma (sorted.map (·.2.1))
            let offsets := sorted.map (·.2.2)
            let dimIncrement : Int :=
              if dim > 1 then (offsets.getD 1 0) - (offsets.getD 0 0) else 0
            if !(check_offsets offsets dimIncrement) then .error (.fieldsShape, rtag)
            else
              match delFieldGo ((sorted.drop 1).map (·.1)) rtag with
              | .error ep => .error ep
              | .ok r1 =>
                match sorted with
                | [] => .ok r1
                | (f0, _, _) :: _ =>
                  cfaRename r1 f0 sp lr.1 lr.2 fm dimIndex dim dimIncrement

/-! ## Enumerated values (make_enumerated_values / process_field_enum) -/

/-- First item of a YAML value (Python v[0]). -/
def yFirst : Yaml → Except PErr Yaml
  | .ylist (v :: _) => .ok v
  | .ylist [] => .error .valueError
  | .ystr s =>
    (match s.toList with
     | c :: _ => .ok (Yaml.ystr (String.mk [c]))
     | [] => .error .valueError)
  | .ymap _ => .error .keyError
  | _ => .error .typeError

/-- Two-element unpacking (Python a, b = v; a dict unpacks its keys). -/
def yUnpack2 : Yaml → Except PErr (Yaml × Yaml)
  | .ylist [a, b] => .ok (a, b)
  | .ylist _ => .error .valueError
  | .ystr s =>
    (match s.toList with
     | [a, b] => .ok (Yaml.ystr (String.mk [a]), Yaml.ystr (String.mk [b]))
     | _ => .error .valueError)
  | .ymap [(k1, _), (k2, _)] => .ok (Yaml.ystr k1, Yaml.ystr k2)
  | .ymap _ => .error .valueError
  | _ => .error .typeError

def strContains (hay needle : String) : Bool :=
  (List.range (hay.toList.length + 1)).any
    (fun i => needle.toList.isPrefixOf (hay.toList.drop i))

/-- Python `key in value`. -/
def yContains (v : Yaml) (k : String) : Except PErr Bool :=
  match v with
  | .ymap m => .ok (pyGet m k).isSome
  | .ylist l => .ok (l.contains (Yaml.ystr k))
  | .ystr s => .ok (strContains s k)
  | _ => .error .typeError

def mevEntries : List (String × Yaml) → Except PErr (List XElem)
  | [] => .ok []
  | (vname, v) :: rest =>
    if pyStartsWith vname "_" then mevEntries rest
    else
      match vname.toList with
      | [] => .error .valueError
      | c0 :: _ =>
        if c0.isDigit then .error .valueError
        else
          match yUnpack2 v with
          | .error e => .error e
          | .ok (value, description) =>
            if !(truthy (some description)) then .error .valueError
            else
              match description with
              | .ystr ds =>
                (mevEntries rest).map (fun r =>
                  XElem.mk (XTag.nm "enumeratedValue") [] none
                    [mkTextElem "name" vname, mkTextElem "description" ds,
                     mkTextElem "value" (pyStr value)] :: r)
              | _ => .error .typeError

/-- patch.py make_enumerated_values: refuse duplicate numeric values,
digit-leading names and empty descriptions. -/
def make_enumerated_values (name : Option String) (values : Yaml) (usage : String) :
    Except PErr XElem :=
  let usagekey := if usage = "read" then "R" else if usage = "write" then "W" else ""
  match name with
  | none => .error .typeError
  | some nm =>
    match values with
    | .ymap entries =>
      (match (entries.map (·.2)).mapM yFirst with
       | .error e => .error e
       | .ok firsts =>
         if firsts.dedup.length ≠ entries.length then .error .valueError
         else
           match nm.toList with
           | [] => .error .valueError
           | c0 :: _ =>
             if c0.isDigit then .error .valueError
             else
               match mevEntries entries with
               | .error e => .error e
               | .ok evs =>
                 .ok (XElem.mk (XTag.nm "enumeratedValues") [] none
                   ([mkTextElem "name" (nm ++ usagekey), mkTextElem "usage" usage] ++ evs)))
    | _ => .error .attrError

/-- patch.py make_derived_enumerated_values. -/
def make_derived_enumerated_values (d : String) : XElem :=
  XElem.mk (XTag.nm "enumeratedValues") [("derivedFrom", d)] none []

/-- rtag.findall("./fields/field/enumeratedValues/[name='X']"). -/
def findDerivedEnums (rtag : XElem) (dname : String) : List XElem :=
  (rtag.children.filter (fun c => c.tag == XTag.nm "fields")).flatMap (fun fs =>
    (fs.children.filter (fun f => f.tag == XTag.nm "field")).flatMap (fun f =>
      f.children.filter (fun ev =>
        ev.tag == XTag.nm "enumeratedValues" &&
        (((ev.find "name").map (fun n => n.text == some dname)).getD false))))

/-- patch.py sorted_fields: stable sort by field offset, keys first. -/
def sorted_fields (l : List XElem) : Except PErr (List XElem) :=
  (l.mapM (fun f => (get_field_offset_width f).map (fun ow => (f, ow.1)))).map
    (fun ps => (stableSortBy (fun p => p.2) ps).map (·.1))

mutual

/-- Apply a stateful action to the first descendant with the given tag
whose name text equals nm (locating by name models locating by identity,
names being stable across these operations). -/
def updNamedNode {σ : Type} (tg nm : String)
    (f : XElem → Except (PErr × XElem) (σ × XElem)) :
    XElem → Except (PErr × XElem) (Option σ × XElem)
  | .mk t a tx ch =>
    if t == XTag.nm tg &&
       ((((XElem.mk t a tx ch).find "name").map XElem.text) == some (some nm)) then
      match f (XElem.mk t a tx ch) with
      | .error ep => .error ep
      | .ok (s, e') => .ok (some s, e')
    else
      match updNamedChildren tg nm f ch with
      | .error (er, ch') => .error (er, XElem.mk t a tx ch')
      | .ok (s, ch') => .ok (s, XElem.mk t a tx ch')

def updNamedChildren {σ : Type} (tg nm : String)
    (f : XElem → Except (PErr × XElem) (σ × XElem)) :
    List XElem → Except (PErr × List XElem) (Option σ × List XElem)
  | [] => .ok (none, [])
  | c :: rest =>
    match updNamedNode tg nm f c with
    | .error (er, c') => .error (er, c' :: rest)
    | .ok (some s, c') => .ok (some s, c' :: rest)
    | .ok (none, c') =>
      match updNamedChildren tg nm f rest with
      | .error (er, rest') => .error (er, c' :: rest')
      | .ok (s, rest') => .ok (s, c' :: rest')

end

abbrev PfeState := Option Yaml × Option (XElem × String × String)

/-- The enumeratedValues usage-conflict loop over one field: existing
enumerations whose usage overlaps are removed under _replace_enum and are
an error otherwise; an empty (derived) enumeration is resolved against
the register to find its usage. -/
def pfeEvLoop (rtag : XElem) (enumUsage : String) (replaceF : Bool) :
    List XElem → XElem → Except (PErr × XElem) XElem
  | [], ft => .ok ft
  | ev :: rest, ft =>
    let evUsageE : Except PErr (Option String) :=
      if ev.children.length > 0 then
        .ok (match ev.find "usage" with
             | some t => t.text
             | none => some "read-write")
      else
        match ev.attrib.find? (fun a => a.1 == "derivedFrom") with
        | none => .error .keyError
        | some kv =>
          match findDerivedEnums rtag kv.2 with
          | [] => .error .svdError
          | [de] =>
            (match de.find "usage" with
             | none => .error .attrError
             | some u => .ok u.text)
          | _ => .error .svdError
    match evUsageE with
    | .error e => .error (e, ft)
    | .ok evU =>
      if evU == some enumUsage || evU == some "read-write" then
        if replaceF then
          match removeFirst ft.children ev with
          | none => .error (.valueError, ft)
          | some ch => pfeEvLoop rtag enumUsage replaceF rest (ft.setChildren ch)
        else .error (.svdError, ft)
      else pfeEvLoop rtag enumUsage replaceF rest ft

/-- One iteration of the process_field_enum field loop: build or reuse the
enumeration, check conflicts and attach, or attach a derived reference. -/
def pfeBody (fieldY : Yaml) (usage : String) (replaceF : Bool) (rtag : XElem)
    (st : PfeState) (ftag : XElem) : Except (PErr × XElem) (PfeState × XElem) :=
  match yContains fieldY "_derivedFrom" with
  | .error e => .error (e, ftag)
  | .ok hasDF =>
    match (if hasDF then (yIndex fieldY (Yaml.ystr "_derivedFrom")).map some
           else Except.ok st.1) with
    | .error e => .error (e, ftag)
    | .ok derived =>
      match (if hasDF then Except.ok none
             else
               match ftag.find "name" with
               | none => Except.error PErr.attrError
               | some n => Except.ok (some n.text)) with
      | .error e => .error (e, ftag)
      | .ok nameRead =>
        match derived with
        | none =>
          let cacheE : Except PErr (XElem × String × String) :=
            match st.2 with
            | some c => .ok c
            | none =>
              match make_enumerated_values (nameRead.getD none) fieldY usage with
              | .error e => .error e
              | .ok enum =>
                .ok (enum, (((enum.find "name").map XElem.text).getD none).getD "",
                     (((enum.find "usage").map XElem.text).getD none).getD "")
          match cacheE with
          | .error e => .error (e, ftag)
          | .ok cache =>
            match pfeEvLoop rtag cache.2.2 replaceF (iterTag "enumeratedValues" ftag) ftag with
            | .error ep => .error ep
            | .ok ft1 =>
              .ok ((some (Yaml.ystr cache.2.1), some cache),
                   ft1.setChildren (ft1.children ++ [cache.1]))
        | some d =>
          match d with
          | .ystr ds =>
            .ok ((derived, st.2),
                 ftag.setChildren (ftag.children ++ [make_derived_enumerated_values ds]))
          | _ => .error (.typeError, ftag)

def pfeStepR (fieldY : Yaml) (usage : String) (replaceF : Bool) (st : PfeState)
    (nm : String) (r : XElem) : Except (PErr × XElem) (PfeState × XElem) :=
  match r.find "fields" with
  | none => .ok (st, r)
  | some fs =>
    match updNamedNode "field" nm (pfeBody fieldY usage replaceF r st) fs with
    | .error (er, fs') => .error (er, replaceChildTag r "fields" fs')
    | .ok (sOpt, fs') => .ok (sOpt.getD st, replaceChildTag r "fields" fs')

def pfeFold (fieldY : Yaml) (usage : String) (replaceF : Bool) :
    List String → PfeState → XElem → Except (PErr × XElem) (PfeState × XElem)
  | [], st, r => .ok (st, r)
  | nm :: rest, st, r =>
    match pfeStepR fieldY usage replaceF st nm r with
    | .error ep => .error ep
    | .ok (st', r') => pfeFold fieldY usage replaceF rest st' r'

/-- Register.process_field_enum (the peripheral name only feeds messages
and is dropped). -/
def process_field_enum (rtag : XElem) (fspec : Yaml) (fieldY0 : Yaml) (usage : String) :
    Except (PErr × XElem) XElem :=
  match yContains fieldY0 "_replace_enum" with
  | .error e => .error (e, rtag)
  | .ok hasRep =>
    match (if hasRep then yIndex fieldY0 (Yaml.ystr "_replace_enum") else .ok fieldY0) with
    | .error e => .error (e, rtag)
    | .ok fieldY =>
      match (match iterFieldsY rtag fspec with
             | .error e => Except.error e
             | .ok fl => sorted_fields fl) with
      | .error e => .error (e, rtag)
      | .ok sortedF =>
        match fieldNames sortedF with
        | .error e => .error (e, rtag)
        | .ok names =>
          match pfeFold fieldY usage hasRep names (none, none) rtag with
          | .error ep => .error ep
          | .ok (st, r') =>
            match st.1 with
            | some _ => .ok r'
            | none =>
              match r'.find "name" with
              | none => .error (.attrError, r')
              | some _ => .error (.missingField, r')

/-- patch.py make_write_constraint. -/
def make_write_constraint (lo hi : Yaml) : XElem :=
  XElem.mk (XTag.nm "writeConstraint") [] none
    [XElem.mk (XTag.nm "range") [] none
      [mkTextElem "minimum" (pyStr lo), mkTextElem "maximum" (pyStr hi)]]

def actFieldAppendWC (fspec : Yaml) (lo hi : Yaml) (e : XElem) : Except (PErr × XElem) XElem :=
  if e.tag = XTag.nm "field" then
    match e.find "name" with
    | none => .error (.attrError, e)
    | some n =>
      match matchnameOptY n.text fspec with
      | .error er => .error (er, e)
      | .ok b =>
        if b then .ok (e.setChildren (e.children ++ [make_write_constraint lo hi]))
        else .ok e
  else .ok e

/-- Register.process_field_range. -/
def process_field_range (rtag : XElem) (fspec : Yaml) (lo hi : Yaml) :
    Except (PErr × XElem) XElem :=
  match iterFieldsY rtag fspec with
  | .error e => .error (e, rtag)
  | .ok matched =>
    if matched.isEmpty then
      match rtag.find "name" with
      | none => .error (.attrError, rtag)
      | some _ => .error (.missingField, rtag)
    else onFields rtag (actFieldAppendWC fspec lo hi)

/-- Register.process_field: mapping bodies attach enumerations (split per
_read/_write when present), two-element lists attach a write constraint. -/
def process_field (rtag : XElem) (fspec : Yaml) (field : Yaml) : Except (PErr × XElem) XElem :=
  match field with
  | .ymap m =>
    let hasRead := (pyGet m "_read").isSome
    let hasWrite := (pyGet m "_write").isSome
    (match (if !hasRead && !hasWrite then process_field_enum rtag fspec field "read-write"
            else .ok rtag) with
     | .error ep => .error ep
     | .ok r1 =>
       match (match pyGet m "_read" with
              | some v => process_field_enum r1 fspec v "read"
              | none => Except.ok r1) with
       | .error ep => .error ep
       | .ok r2 =>
         match pyGet m "_write" with
         | some v => process_field_enum r2 fspec v "write"
         | none => .ok r2)
  | .ylist l =>
    (match l with
     | [lo, hi] => process_field_range rtag fspec lo hi
     | _ => .ok rtag)
  | _ => .ok rtag

/-! ## Register processing (Peripheral.process_register) -/

def liftE {α : Type} (x : Except PErr α) (s : XElem) : Except (PErr × XElem) α :=
  match x with
  | .error e => .error (e, s)
  | .ok a => .ok a

def foldYSpecs (op : Yaml → XElem → Except (PErr × XElem) XElem) :
    List Yaml → XElem → Except (PErr × XElem) XElem
  | [], r => .ok r
  | v :: rest, r =>
    match op v r with
    | .error ep => .error ep
    | .ok r' => foldYSpecs op rest r'

def foldKeyVals (op : String → Yaml → XElem → Except (PErr × XElem) XElem) :
    List (String × Yaml) → XElem → Except (PErr × XElem) XElem
  | [], r => .ok r
  | (k, v) :: rest, r =>
    if pyStartsWith k "_" then foldKeyVals op rest r
    else
      match op k v r with
      | .error ep => .error ep
      | .ok r' => foldKeyVals op rest r'

/-- The body of process_register for one matched register: deletions,
clears, modifications, additions, merges, splits, strips, field bodies,
field arrays, in source order. -/
def regOps (register : List (String × Yaml)) (updateFields : Bool) (rtag : XElem) :
    Except (PErr × XElem) XElem := do
  let dels ← liftE (yIterElems (pyGetD register "_delete" (Yaml.ylist []))) rtag
  let r1 ← foldYSpecs (fun v r => delete_field r v) dels rtag
  let clrs ← liftE (yIterElems (pyGetD register "_clear" (Yaml.ylist []))) r1
  let r2 ← foldYSpecs (fun v r => clear_field r v) clrs r1
  let mval := pyGetD register "_modify" (Yaml.ylist [])
  let mods ← liftE (yIterElems mval) r2
  let r3 ← foldYSpecs (fun v r => do
      let fmod ← liftE (yIndex mval v) r
      modify_field r v fmod) mods r2
  let aval := pyGetD register "_add" (Yaml.ylist [])
  let adds ← liftE (yIterElems aval) r3
  let r4 ← foldYSpecs (fun v r => do
      let fadd ← liftE (yIndex aval v) r
      add_field r v fadd) adds r3
  let gval := pyGetD register "_merge" (Yaml.ylist [])
  let mrgs ← liftE (yIterElems gval) r4
  let r5 ← foldYSpecs (fun v r =>
      match gval with
      | .ymap _ => do
          let fm ← liftE (yIndex gval v) r
          merge_fields r v fm
      | _ => merge_fields r v Yaml.ynull) mrgs r4
  let sval := pyGetD register "_split" (Yaml.ylist [])
  let spls ← liftE (yIterElems sval) r5
  let r6 ← foldYSpecs (fun v r =>
      match sval with
      | .ymap _ => do
          let fs ← liftE (yIndex sval v) r
          split_fields r v fs
      | _ => split_fields r v (Yaml.ymap [])) spls r5
  let strips ← liftE (yIterElems (pyGetD register "_strip" (Yaml.ylist []))) r6
  let r7 ← foldYSpecs (fun v r => stripR r v false) strips r6
  let stripsE ← liftE (yIterElems (pyGetD register "_strip_end" (Yaml.ylist []))) r7
  let r8 ← foldYSpecs (fun v r => stripR r v true) stripsE r7
  let r9 ←
    if updateFields then
      foldKeyVals (fun k v r => process_field r (Yaml.ystr k) v) register r8
    else pure r8
  let av := pyGetD register "_array" (Yaml.ymap [])
  let ars ← liftE (yIterElems av) r9
  foldYSpecs (fun v r => do
      let fmod ← liftE (yIndex av v) r
      collect_fields_in_array r v fmod) ars r9

/-- Matched register names (matched elements always carry a name text). -/
def matchedNamesOf (t : String) (spec : Yaml) (root : XElem) : Except PErr (List String) :=
  match matchedElemsY t spec root with
  | .error e => .error e
  | .ok l => .ok (l.filterMap (fun e => ((e.find "name").map XElem.text).getD none))

def prFold (register : List (String × Yaml)) (updateFields : Bool) :
    List String → XElem → Except (PErr × XElem) XElem
  | [], p => .ok p
  | nm :: rest, p =>
    match updNamedNode "register" nm
        (fun r => (regOps register updateFields r).map (fun r' => ((), r'))) p with
    | .error ep => .error ep
    | .ok (_, p') => prFold register updateFields rest p'

/-- Peripheral.process_register for one peripheral element: run the
register patch on every matched register, raising MissingRegister when
none matched. -/
def process_register (ptag : XElem) (rspec : Yaml) (register : List (String × Yaml))
    (updateFields : Bool) : Except (PErr × XElem) XElem :=
  match ptag.find "name" with
  | none => .error (.attrError, ptag)
  | some _ =>
    match matchedNamesOf "register" rspec ptag with
    | .error e => .error (e, ptag)
    | .ok names =>
      match prFold register updateFields names ptag with
      | .error ep => .error ep
      | .ok p' =>
        if names.isEmpty then .error (.missingRegister, p') else .ok p'

/-! ## Register array collection (Peripheral.collect_in_array) -/

/-- Errors of collect_in_array: the register-array shape error (offsets
not equally spaced or bitmasks not identical), or anything raised by the
surrounding code.  The shape raise is the only site that produces
regsShape, which is what lets the gate condition be characterised. -/
inductive CErr where
  | regsShape : CErr
  | inner : PErr → CErr
deriving DecidableEq, Repr

def candLoop (li ri : Option Nat) : List XElem → Except PErr (List (XElem × String × Int))
  | [] => .ok []
  | r :: rest =>
    match r.findtext "name" with
    | none => .error .typeError
    | some nm =>
      match pySliceOpt nm li ri with
      | .error e => .error e
      | .ok vary =>
        match pyInt0 (r.findtext "addressOffset") with
        | .error e => .error e
        | .ok off => (candLoop li ri rest).map (fun l => (r, vary, off) :: l)

/-- The candidate scan of collect_in_array: matched registers with their
varying name slice and parsed addressOffset. -/
def arrayCandidates (ptag : XElem) (rspec : String) :
    Except PErr (List (XElem × String × Int)) :=
  let lr := spec_ind rspec
  match matchedElems "register" rspec ptag with
  | .error e => .error e
  | .ok regs => candLoop lr.1 lr.2 regs

/-- Bitmasks of the candidates, honouring the size lookup through each
candidate's ancestor chain. -/
def candidateMasks (anc : List XElem) (ptag : XElem)
    (cands : List (XElem × String × Int)) : Except PErr (List Int) :=
  cands.mapM (fun c => get_bitmask (((findChain c.1 ptag).getD []) ++ anc) c.1)

/-- The tail of collect_in_array after the shape check: remove the later
candidates, rename and re-describe the survivor, recursively process it
as a register patch, then append dim, dimIncrement, dimIndex. -/
def ciaAfter (ptag : XElem) (rspec : String) (rmod : List (String × Yaml))
    (sorted : List (XElem × String × Int)) (dim : Nat) (dimIndex : String)
    (dimIncrement : Int) : Except (PErr × XElem) XElem :=
  match delRegisterGo ((sorted.drop 1).map (·.1)) ptag with
  | .error ep => .error ep
  | .ok p1 =>
    match sorted with
    | [] => .ok p1
    | (rtag0, _, _) :: _ =>
      let lr := spec_ind rspec
      match (match pyGet rmod "name" with
             | some v => Except.ok v
             | none => (templateName rspec lr.1 lr.2).map Yaml.ystr) with
      | .error e => .error (e, p1)
      | .ok nameV =>
        let descRes : Except PErr XElem :=
          match pyGet rmod "description" with
          | some dv =>
            if dv == Yaml.ystr "_original" then .ok rtag0
            else
              (match rtag0.find "description" with
               | none => .error .attrError
               | some _ =>
                 match dv with
                 | .ystr ds =>
                   .ok (rtag0.setChildren (setFirstTagText rtag0.children "description" ds))
                 | _ => .error .typeError)
          | none =>
            if (dimIndex.toList.headD 'x') = '0' then
              match rtag0.find "description" with
              | none => .error .attrError
              | some d =>
                match d.text with
                | none => .error .attrError
                | some dt =>
                  match rtag0.find "name" with
                  | none => .error .attrError
                  | some nt =>
                    match nt.text with
                    | none => .error .attrError
                    | some ntx =>
                      match pySliceOpt ntx lr.1 lr.2 with
                      | .error e => .error e
                      | .ok varyN =>
                        .ok (rtag0.setChildren
                          (setFirstTagText rtag0.children "description" (pyReplace dt varyN "%s")))
            else .ok rtag0
        match descRes with
        | .error e => .error (e, p1)
        | .ok rt1 =>
          match rt1.find "name" with
          | none => .error (.attrError, p1)
          | some _ =>
            match nameV with
            | .ystr nm =>
              let rt2 := rt1.setChildren (setFirstTagText rt1.children "name" nm)
              let p2 := replaceEqNode p1 rtag0 rt2
              match process_register p2 (Yaml.ystr nm) rmod true with
              | .error ep => .error ep
              | .ok p3 =>
                match updNamedNode "register" nm (fun r =>
                    Except.ok ((), r.setChildren (r.children ++
                      [mkTextElem "dim" (toString dim),
                       mkTextElem "dimIncrement" (pyHex dimIncrement),
                       mkTextElem "dimIndex" dimIndex]))) p3 with
                | .error ep => .error ep
                | .ok (_, p4) => .ok p4
            | _ => .error (.typeError, p1)

/-- Peripheral.collect_in_array. -/
def collect_in_array (anc : List XElem) (ptag : XElem) (rspec : String)
    (rmod : List (String × Yaml)) : Except (CErr × XElem) XElem :=
  match arrayCandidates ptag rspec with
  | .error e => .error (.inner e, ptag)
  | .ok cands =>
    let dim := cands.length
    if dim = 0 then .error (.inner .regsNotFound, ptag)
    else
      let sorted := stableSortBy (fun c => c.2.2) cands
      let dimIndex :=
        if truthy (pyGet rmod "_start_from_zero") then
          joinComma ((List.range dim).map toString)
        else
          match sorted with
          | [c] => c.2.1 ++ "-" ++ c.2.1
          | _ => joinComma (sorted.map (·.2.1))
      let offsets := sorted.map (·.2.2)
      match candidateMasks anc ptag sorted with
      | .error e => .error (.inner e, ptag)
      | .ok bitmasks =>
        let dimIncrement : Int :=
          if dim > 1 then (offsets.getD 1 0) - (offsets.getD 0 0) else 0
        if !(check_offsets offsets dimIncrement &&
             check_bitmasks bitmasks (bitmasks.headD 0)) then
          .error (.regsShape, ptag)
        else
          match ciaAfter ptag rspec rmod sorted dim dimIndex dimIncrement with
          | .error ep => .error (.inner ep.1, ep.2)
          | .ok p => .ok p

/-! ## Schema order normaliser (patch.py sort_element) -/

/-- An entry of the orders table.  Most entries are tuples of child tags,
but a parenthesised single string is a plain string in Python, and the
membership and index operations on it are substring operations. -/
inductive OrderEntry where
  | tup : List String → OrderEntry
  | strE : String → OrderEntry
deriving DecidableEq, Repr

def ordersArr : List String := ["dim", "dimIncrement", "dimIndex", "dimName", "dimArrayIndex"]

def ordersAcc : List String := ["size", "access", "protection", "resetValue", "resetMask"]

/-- The orders table of sort_element, transcribed entry for entry. -/
def ordersLookup : String → Option OrderEntry
  | "enumeratedValue" => some (.tup ["name", "description", "value", "isDefault"])
  | "enumeratedValues" => some (.tup ["name", "headerEnumName", "usage", "enumeratedValue"])
  | "field" => some (.tup (ordersArr ++
      ["name", "description", "bitOffset", "bitWidth", "lsb", "msb", "bitRange",
       "access", "modifiedWriteValues", "writeConstraint", "readAction", "enumeratedValues"]))
  | "fields" => some (.strE "field")
  | "writeConstraint" => some (.tup ["writeAsRead", "useEnumeratedValues", "range"])
  | "range" => some (.tup ["minimum", "maximum"])
  | "register" => some (.tup (ordersArr ++
      ["name", "displayName", "description", "alternateGroup", "alternateRegister",
       "addressOffset"] ++ ordersAcc ++
      ["dataType", "modifiedWriteValues", "writeConstraint", "readAction", "fields"]))
  | "cluster" => some (.tup (ordersArr ++
      ["name", "description", "alternateCluster", "headerStructName", "addressOffset"] ++
      ordersAcc ++ ["register", "cluster"]))
  | "registers" => some (.tup ["cluster", "register"])
  | "interrupt" => some (.tup ["name", "description", "value"])
  | "addressBlock" => some (.tup ["offset", "size", "usage", "protection"])
  | "peripheral" => some (.tup (ordersArr ++
      ["name", "version", "description", "alternatePeripheral", "groupName",
       "prependToName", "appendToName", "headerStructName", "disableCondition",
       "baseAddress"] ++ ordersAcc ++ ["addressBlock", "interrupt", "registers"]))
  | "peripherals" => some (.strE "peripheral")
  | "cpu" => some (.tup ["name", "revision", "endian", "mpuPresent", "fpuPresent",
      "fpuDP", "dspPresent", "icachePresent", "dcachePresent", "itcmPresent",
      "dtcmPresent", "vtorPresent", "nvicPrioBits", "vendorSystickConfig",
      "deviceNumInterrupts", "sauNumRegions", "sauRegionsConfig"])
  | "sauRegionsConfig" => some (.strE "region")
  | "region" => some (.tup ["base", "limit", "access"])
  | "device" => some (.tup (["vendor", "vendorID", "name", "series", "version",
      "description", "licenseText", "cpu", "headerSystemFilename",
      "headerDefinitionsPrefix", "addressUnitBits", "width"] ++ ordersAcc ++
      ["peripherals", "vendorExtensions"]))
  | _ => none

/-- Python `child.tag not in orders[tag.tag]`: element membership for a
tuple entry, substring containment for a string entry. -/
def orderHas (o : OrderEntry) (t : String) : Bool :=
  match o with
  | .tup l => l.contains t
  | .strE s => strContains s t

def strIndexOf (hay needle : String) : Nat :=
  ((List.range (hay.toList.length + 1)).find?
    (fun i => needle.toList.isPrefixOf (hay.toList.drop i))).getD 0

/-- Python orders[tag.tag].index(e.tag): list index for a tuple entry,
substring index for a string entry. -/
def orderIdx (o : OrderEntry) (t : String) : Nat :=
  match o with
  | .tup l => l.indexOf t
  | .strE s => strIndexOf s t

/-- patch.py sort_element: skip vendorExtensions; an element whose tag has
no table entry raises when it has children; a non-comment child whose tag
is not in the entry raises; comments are dropped and the rest sorted
stably by table position. -/
def sort_element (tag : XElem) : Except PErr XElem :=
  if tag.tag = XTag.nm "vendorExtensions" then .ok tag
  else
    let entryO :=
      match tag.tag with
      | XTag.nm s => ordersLookup s
      | XTag.comment => none
    match entryO with
    | none =>
      if tag.children.length > 0 then .error .unknownTag else .ok tag
    | some entry =>
      if tag.children.any (fun c =>
           match c.tag with
           | XTag.comment => false
           | XTag.nm ct => !(orderHas entry ct)) then
        .error .unknownTag
      else
        let noC := tag.children.filter (fun c => !(c.tag == XTag.comment))
        .ok (tag.setChildren (stableSortBy
          (fun c =>
            match c.tag with
            | XTag.nm ct => (orderIdx entry ct : Int)
            | XTag.comment => 0) noC))

/-! ## Include resolver (patch.py update_dict / yaml_includes) -/

/-- dict assignment: replace in place, or append preserving insertion
order. -/
def setKey (m : List (String × Yaml)) (k : String) (v : Yaml) : List (String × Yaml) :=
  match m with
  | [] => [(k, v)]
  | (k', v') :: rest => if k' = k then (k, v) :: rest else (k', v') :: setKey rest k v

mutual

/-- patch.py update_dict: merge child into parent, parent overriding;
_path and _include are skipped; lists concatenate, mappings merge
recursively, existing scalars win silently. -/
def updateDict (parent : List (String × Yaml)) (child : Yaml) :
    Except PErr (List (String × Yaml)) :=
  match child with
  | .ymap entries => updEntries parent entries
  | .ystr s => updStr parent s.toList
  | .ylist l => updList parent l
  | .yint _ => .error .typeError
  | .ynull => .error .typeError

def updEntries (parent : List (String × Yaml)) :
    List (String × Yaml) → Except PErr (List (String × Yaml))
  | [] => .ok parent
  | (k, v) :: rest =>
    if k = "_path" ∨ k = "_include" then updEntries parent rest
    else
      match pyGet parent k with
      | some (Yaml.ylist pl) =>
        (match yIterElems v with
         | .error e => .error e
         | .ok items => updEntries (setKey parent k (Yaml.ylist (pl ++ items))) rest)
      | some (Yaml.ymap pm) =>
        (match updateDict pm v with
         | .error e => .error e
         | .ok pm' => updEntries (setKey parent k (Yaml.ymap pm')) rest)
      | some _ => updEntries parent rest
      | none => updEntries (parent ++ [(k, v)]) rest

/-- update_dict iterating a string child: chars become keys; an existing
scalar entry skips silently, everything else raises on child[key]. -/
def updStr (parent : List (String × Yaml)) : List Char → Except PErr (List (String × Yaml))
  | [] => .ok parent
  | c :: rest =>
    match pyGet parent (String.mk [c]) with
    | some (Yaml.ylist _) => .error .typeError
    | some (Yaml.ymap _) => .error .typeError
    | some _ => updStr parent rest
    | none => .error .typeError

/-- update_dict iterating a list child: elements become keys; string keys
behave like the string case, others raise. -/
def updList (parent : List (String × Yaml)) : List Yaml → Except PErr (List (String × Yaml))
  | [] => .ok parent
  | (Yaml.ystr k) :: rest =>
    if k = "_path" ∨ k = "_include" then updList parent rest
    else
      (match pyGet parent k with
       | some (Yaml.ylist _) => .error .typeError
       | some (Yaml.ymap _) => .error .typeError
       | some _ => updList parent rest
       | none => .error .typeError)
  | _ :: _ => .error .typeError

end

mutual

/-- patch.py yaml_includes over a pure filesystem map and a pure path
resolver standing in for abspath.  Fuel bounds the recursion (cyclic
includes recurse without bound in the source, modelled as an error on
exhausted fuel) and every recursive call consumes one unit, so the
recursion is structural and computes inside the kernel.  Returns the
merged document and the ordered list of transitively included paths. -/
def yamlIncludes (fs : String → Option Yaml) (resolve : String → String → String) :
    Nat → List (String × Yaml) → Except PErr (List (String × Yaml) × List String)
  | 0, _ => .error .nameError
  | fuel + 1, parent =>
    match yIterElems (pyGetD parent "_include" (Yaml.ylist [])) with
    | .error e => .error e
    | .ok rels => yiLoop fs resolve fuel rels parent []

def yiLoop (fs : String → Option Yaml) (resolve : String → String → String) :
    Nat → List Yaml → List (String × Yaml) → List String →
    Except PErr (List (String × Yaml) × List String)
  | _, [], parent, included => .ok (parent, included)
  | 0, _ :: _, _, _ => .error .nameError
  | fuel + 1, rv :: rest, parent, included =>
    match rv with
    | .ystr rel =>
      (match pyGet parent "_path" with
       | none => .error .keyError
       | some (Yaml.ystr ppath) =>
         let path := resolve ppath rel
         if included.contains path then yiLoop fs resolve fuel rest parent included
         else
           (match fs path with
            | none => .error .valueError
            | some (Yaml.ymap child0) =>
              let child1 := setKey child0 "_path" (Yaml.ystr path)
              (match yiPeriphLoop fs resolve fuel path (child1.map (·.1)) child1 (included ++ [path]) with
               | .error e => .error e
               | .ok (child2, included2) =>
                 match yamlIncludes fs resolve fuel child2 with
                 | .error e => .error e
                 | .ok (child3, inc3) =>
                   match updateDict parent (Yaml.ymap child3) with
                   | .error e => .error e
                   | .ok parent2 => yiLoop fs resolve fuel rest parent2 (included2 ++ inc3))
            | some _ => .error .typeError)
       | some _ => .error .typeError)
    | _ => .error .typeError

def yiPeriphLoop (fs : String → Option Yaml) (resolve : String → String → String) :
    Nat → String → List String → List (String × Yaml) → List String →
    Except PErr (List (String × Yaml) × List String)
  | _, _, [], child, inc => .ok (child, inc)
  | 0, _, _ :: _, _, _ => .error .nameError
  | fuel + 1, path, k :: rest, child, inc =>
    if pyStartsWith k "_" then yiPeriphLoop fs resolve fuel path rest child inc
    else
      match pyGet child k with
      | none => yiPeriphLoop fs resolve fuel path rest child inc
      | some v =>
        match yContains v "_include" with
        | .error e => .error e
        | .ok true =>
          (match v with
           | .ymap pm =>
             let pm1 := setKey pm "_path" (Yaml.ystr path)
             (match yamlIncludes fs resolve fuel pm1 with
              | .error e => .error e
              | .ok (pm2, inc2) =>
                yiPeriphLoop fs resolve fuel path rest (setKey child k (Yaml.ymap pm2)) (inc ++ inc2))
           | _ => .error .typeError)
        | .ok false => yiPeriphLoop fs resolve fuel path rest child inc

end

/-! ## Concrete fixtures -/

/-- A register with name, addressOffset and description children. -/
def mkReg (nm off desc : String) : XElem :=
  XElem.mk (XTag.nm "register") [] none
    [mkTextElem "name" nm, mkTextElem "addressOffset" off, mkTextElem "description" desc]

/-- A field with name, bitOffset and unit bitWidth. -/
def mkFld (nm off : String) : XElem :=
  XElem.mk (XTag.nm "field") [] none
    [mkTextElem "name" nm, mkTextElem "bitOffset" off, mkTextElem "bitWidth" "1"]

/-! ## C3: the name matcher -/

/-- The expansions the claim speaks of: brace expansions when the spec
contains an opening brace, comma-separated pieces otherwise. -/
def specExpansions (spec : String) : List String :=
  if spec.toList.contains '{' then braceexpand spec else pySplitChar spec ','

/-- C3 counterexample: the claim says a name whose first character is an
underscore never matches any spec, but the underscore test in matchname is
on the spec, not the name: the name "_X" matches the spec "*". -/
theorem c3_counterexample :
    pyStartsWith "_X" "_" = true ∧ matchname "_X" "*" = true := by
  constructor
  · decide
  · decide

/-- C3 (amended): a spec whose first character is an underscore matches no
name; for any other spec the match test returns true exactly when at
least one brace expansion (when the spec contains an opening brace) or
comma-separated piece (otherwise) glob-matches the name.  (The original
claim put the underscore condition on the name.) -/
theorem c3_matchname_amended (name spec : String) :
    (pyStartsWith spec "_" = true → matchname name spec = false) ∧
    (pyStartsWith spec "_" = false →
      (matchname name spec = true ↔
        ∃ sub ∈ specExpansions spec, fnmatchcase name sub = true)) := by
  constructor
  · intro h
    simp [matchname, h]
  · intro h
    unfold matchname specExpansions
    rw [h]
    simp only [Bool.false_eq_true, if_false, List.any_eq_true]
    by_cases hb : '{' ∈ spec.data <;> simp [hb]

/-- C3 witness: the amended theorem evaluated at concrete specs. -/
theorem c3_matchname_amended_witness :
    matchname "CH0" "_reg" = false ∧
    (matchname "CH0" "CH?" = true ↔
      ∃ sub ∈ specExpansions "CH?", fnmatchcase "CH0" sub = true) :=
  ⟨(c3_matchname_amended "CH0" "_reg").1 (by decide),
   (c3_matchname_amended "CH0" "CH?").2 (by decide)⟩

/-! ## C7: the spec index finder -/

/-- The index of the leftmost occurrence of any of the three characters:
what the claim says spec_ind returns. -/
def claimLeftAny (l : List Char) (c1 c2 c3 : Char) : Option Nat :=
  l.findIdx? (fun c => c == c1 || c == c2 || c == c3)

/-- What spec_ind actually computes on one side: the first index of the
first present character, in priority order. -/
def priorityIdx (l : List Char) (c1 c2 c3 : Char) : Option Nat :=
  match l.findIdx? (· == c1) with
  | some i => some i
  | none =>
    match l.findIdx? (· == c2) with
    | some i => some i
    | none => l.findIdx? (· == c3)

/-- C7 counterexample: on the spec "?*" the leftmost wildcard is the
question mark at index 0, but spec_ind prefers the star and returns 1. -/
theorem c7_counterexample :
    (spec_ind "?*").1 = some 1 ∧
    claimLeftAny "?*".toList '*' '?' '[' = some 0 ∧
    (spec_ind "?*").1 ≠ claimLeftAny "?*".toList '*' '?' '[' := by
  refine ⟨rfl, rfl, by decide⟩

theorem priorityIdx_eq (l : List Char) (c1 c2 c3 : Char) :
    (if pyFindChar l c1 > -1 then some (pyFindChar l c1).toNat
     else if pyFindChar l c2 > -1 then some (pyFindChar l c2).toNat
     else if pyFindChar l c3 > -1 then some (pyFindChar l c3).toNat
     else none) = priorityIdx l c1 c2 c3 := by
  have hpos : ∀ n : Nat, ((n : Int) > -1) := fun n => by omega
  have hneg : ¬((-1 : Int) > -1) := by omega
  unfold pyFindChar priorityIdx
  rcases h1 : l.findIdx? (· == c1) with _ | i1 <;>
    rcases h2 : l.findIdx? (· == c2) with _ | i2 <;>
      rcases h3 : l.findIdx? (· == c3) with _ | i3 <;>
        simp [hpos, hneg]

/-- C7 (amended): spec_ind does not return the leftmost wildcard of any
kind; each side prefers the characters in a fixed order: the first star
when one occurs, otherwise the first question mark, otherwise the first
opening (resp. closing, scanning the reversed spec) bracket, and none
when none of the three occurs. -/
theorem c7_spec_ind_amended (spec : String) :
    spec_ind spec =
      (priorityIdx spec.toList '*' '?' '[',
       priorityIdx spec.toList.reverse '*' '?' ']') := by
  unfold spec_ind
  rw [← priorityIdx_eq spec.toList '*' '?' '[',
      ← priorityIdx_eq spec.toList.reverse '*' '?' ']']

/-! ## C8: the schema order normaliser -/

/-- C8: the fields entry of the orders table is the string "field", not a
one-element tuple, so the membership test for a child tag is a substring
test: a child tagged el (an infix of field) is accepted and sorted
without error, while the claim (and the schema) require an UnknownTag
error for any child tag other than field. -/
theorem c8_sort_element_substring_child :
    ordersLookup "fields" = some (.strE "field") ∧
    ("el" : String) ≠ "field" ∧
    sort_element (XElem.mk (XTag.nm "fields") [] none
        [XElem.mk (XTag.nm "el") [] none []]) =
      .ok (XElem.mk (XTag.nm "fields") [] none
        [XElem.mk (XTag.nm "el") [] none []]) ∧
    sort_element (XElem.mk (XTag.nm "fields") [] none
        [XElem.mk (XTag.nm "foo") [] none []]) = .error .unknownTag := by
  refine ⟨rfl, by decide, rfl, rfl⟩

/-! ## C9: merging with zero matching fields -/

/-- A register with one field FOO, for the merge scenarios. -/
def mrgReg : XElem :=
  XElem.mk (XTag.nm "register") [] none
    [mkTextElem "name" "R",
     XElem.mk (XTag.nm "fields") [] none [mkFld "FOO" "0"]]

/-- C9: merging with a spec that matches no field leaves the register
unchanged but raises NameError, not RegisterMergeError: the raise
formats the name fspec, which is unbound unless the merge value was a
list (whose loop variable leaks and yields the intended error). -/
theorem c9_merge_zero_match :
    merge_fields mrgReg (Yaml.ystr "NOPE") Yaml.ynull = .error (.nameError, mrgReg) ∧
    merge_fields mrgReg (Yaml.ystr "NOPE") (Yaml.ystr "NOPE2") = .error (.nameError, mrgReg) ∧
    merge_fields mrgReg (Yaml.ystr "N") (Yaml.ylist [Yaml.ystr "NOPE"]) =
      .error (.mergeError, mrgReg) := by
  refine ⟨rfl, rfl, rfl⟩

/-! ## C10: deletion with zero matches is a silent no-op -/

/-- C10: when a spec matches nothing, delete_register, delete_interrupt
and delete_peripheral return without error and leave the tree unchanged
(processing, by contrast, raises Missing errors on zero matches). -/
theorem c10_delete_noop (ptag dev : XElem) (rspec ispec pspec : String)
    (hr : matchedElems "register" rspec ptag = .ok [])
    (hi : matchedElems "interrupt" ispec ptag = .ok [])
    (hp : matchedElems "peripheral" pspec dev = .ok []) :
    delete_register ptag rspec = .ok ptag ∧
    delete_interrupt ptag ispec = .ok ptag ∧
    delete_peripheral dev pspec = .ok dev := by
  refine ⟨?_, ?_, ?_⟩
  · unfold delete_register
    rw [hr]
    rfl
  · unfold delete_interrupt
    rw [hi]
    rfl
  · unfold delete_peripheral
    rw [hp]
    rfl

/-- A small peripheral and device for the C10 witness. -/
def w10Ptag : XElem :=
  XElem.mk (XTag.nm "peripheral") [] none
    [mkTextElem "name" "GPIO",
     XElem.mk (XTag.nm "interrupt") [] none [mkTextElem "name" "GPIO_IRQ"],
     XElem.mk (XTag.nm "registers") [] none [mkReg "MODER" "0x0" "Mode register"]]

def w10Dev : XElem :=
  XElem.mk (XTag.nm "device") [] none
    [XElem.mk (XTag.nm "peripherals") [] none [w10Ptag]]

/-- C10 witness: the no-op theorem applied to a concrete peripheral and
device with specs that match nothing. -/
theorem c10_delete_noop_witness :
    delete_register w10Ptag "NOPE" = .ok w10Ptag ∧
    delete_interrupt w10Ptag "NOIRQ" = .ok w10Ptag ∧
    delete_peripheral w10Dev "NOPER" = .ok w10Dev :=
  c10_delete_noop w10Ptag w10Dev "NOPE" "NOIRQ" "NOPER" rfl rfl rfl

/-! ## C6: the literal array-collection scenario -/

/-- Three registers CH0_CFG, CH1_CFG, CH2_CFG at offsets 0x00, 0x10,
0x20 with identical (empty) bitmasks. -/
def chPeriph : XElem :=
  XElem.mk (XTag.nm "peripheral") [] none
    [mkTextElem "name" "TIMER",
     XElem.mk (XTag.nm "registers") [] none
       [mkReg "CH0_CFG" "0x00" "Channel 0 config",
        mkReg "CH1_CFG" "0x10" "Channel 1 config",
        mkReg "CH2_CFG" "0x20" "Channel 2 config"]]

/-- The surviving collected register. -/
def chArrReg : XElem :=
  XElem.mk (XTag.nm "register") [] none
    [mkTextElem "name" "CH%s_CFG",
     mkTextElem "addressOffset" "0x00",
     mkTextElem "description" "Channel %s config",
     mkTextElem "dim" "3",
     mkTextElem "dimIncrement" "0x10",
     mkTextElem "dimIndex" "0,1,2"]

/-- The registers container of a peripheral. -/
def registersOf (p : XElem) : List XElem :=
  match p.find "registers" with
  | some rs => rs.children.filter (fun c => c.tag == XTag.nm "register")
  | none => []

/-- C6: collecting with spec CH?_CFG and empty options leaves a single
register named CH%s_CFG carrying dim 3, dimIncrement 0x10 and dimIndex
0,1,2; the other two registers are removed. -/
theorem c6_array_collection :
    collect_in_array [] chPeriph "CH?_CFG" [] =
      .ok (XElem.mk (XTag.nm "peripheral") [] none
        [mkTextElem "name" "TIMER",
         XElem.mk (XTag.nm "registers") [] none [chArrReg]]) ∧
    registersOf (XElem.mk (XTag.nm "peripheral") [] none
        [mkTextElem "name" "TIMER",
         XElem.mk (XTag.nm "registers") [] none [chArrReg]]) = [chArrReg] ∧
    chArrReg.findtext "name" = some "CH%s_CFG" ∧
    chArrReg.findtext "dim" = some "3" ∧
    chArrReg.findtext "dimIncrement" = some "0x10" ∧
    chArrReg.findtext "dimIndex" = some "0,1,2" := by
  refine ⟨rfl, rfl, rfl, rfl, rfl, rfl⟩

/-! ## C2: the array-collection shape check -/

/-- Register CHA with fields at bit offsets 0, 3 and 7 (gaps 3 and 4), for
the C2 counterexample. -/
def cexReg : XElem :=
  XElem.mk (XTag.nm "register") [] none
    [mkTextElem "name" "CHA", mkTextElem "addressOffset" "0x0",
     mkTextElem "description" "chan A",
     XElem.mk (XTag.nm "fields") [] none [mkFld "F0" "0", mkFld "F1" "3", mkFld "F2" "7"]]

def cexPeriph : XElem :=
  XElem.mk (XTag.nm "peripheral") [] none
    [mkTextElem "name" "P",
     XElem.mk (XTag.nm "registers") [] none [cexReg]]

/-- An array patch that keeps the name and carries a nested field-array
directive whose stride check fails. -/
def cexRmod : List (String × Yaml) :=
  [("name", Yaml.ystr "CHA"), ("_array", Yaml.ymap [("F?", Yaml.ymap [])])]

/-- C2 counterexample: one matched register, so the offsets are trivially
equally spaced and the bitmasks trivially identical, yet collect_in_array
raises (the nested _array directive fails on the fields) and the
peripheral is exactly as before; the claim's "raises an error ... if and
only if" is false at this input. -/
theorem c2_counterexample :
    arrayCandidates cexPeriph "CH?" = .ok [(cexReg, "A", 0)] ∧
    candidateMasks [] cexPeriph
      (stableSortBy (fun c => c.2.2) [((cexReg : XElem), ("A" : String), (0 : Int))]) =
      .ok [137] ∧
    check_offsets
      ((stableSortBy (fun c => c.2.2)
        [((cexReg : XElem), ("A" : String), (0 : Int))]).map (·.2.2)) 0 = true ∧
    check_bitmasks [(137 : Int)] 137 = true ∧
    collect_in_array [] cexPeriph "CH?" cexRmod = .error (.inner .fieldsShape, cexPeriph) := by
  refine ⟨rfl, rfl, rfl, rfl, rfl⟩

theorem collectShapeAux (chk : Bool) (after : Except (PErr × XElem) XElem) (p : XElem) :
    ((if !chk then Except.error (CErr.regsShape, p)
      else
        match after with
        | .error ep => .error (.inner ep.1, ep.2)
        | .ok q => .ok q) = Except.error (CErr.regsShape, p)) ↔ chk = false := by
  cases chk
  · simp
  · simp only [Bool.not_true, Bool.false_eq_true, if_false]
    cases after with
    | error e => simp
    | ok q => simp

theorem bool_and_false_iff (a b : Bool) : (a && b) = false ↔ ¬(a = true ∧ b = true) := by
  cases a <;> cases b <;> simp

/-- C2 (amended): with a non-empty candidate set and computable bitmasks,
collect_in_array raises the register-array shape error with the
peripheral untouched exactly when the sorted offsets are not all spaced
by the gap between the first two or some bitmask differs from the first;
other raises of the routine (candidate scanning, or anything after the
check, which runs only once the siblings were removed and renamed) are
distinct error values. -/
theorem c2_collect_in_array_shape (anc : List XElem) (ptag : XElem) (rspec : String)
    (rmod : List (String × Yaml)) (cands : List (XElem × String × Int)) (masks : List Int)
    (hc : arrayCandidates ptag rspec = .ok cands)
    (hne : cands ≠ [])
    (hm : candidateMasks anc ptag (stableSortBy (fun c => c.2.2) cands) = .ok masks) :
    collect_in_array anc ptag rspec rmod = .error (.regsShape, ptag) ↔
      ¬(check_offsets ((stableSortBy (fun c => c.2.2) cands).map (·.2.2))
          (if cands.length > 1 then
             ((stableSortBy (fun c => c.2.2) cands).map (·.2.2)).getD 1 0 -
               ((stableSortBy (fun c => c.2.2) cands).map (·.2.2)).getD 0 0
           else 0) = true ∧
        check_bitmasks masks (masks.headD 0) = true) := by
  have hd : ¬(cands.length = 0) := by
    simpa [List.length_eq_zero] using hne
  unfold collect_in_array
  rw [hc]
  simp only [hd, if_false, hm]
  exact (collectShapeAux _ _ _).trans (bool_and_false_iff _ _)

/-- The literal rejection scenario: offsets 0x00, 0x10, 0x24. -/
def chPeriphBad : XElem :=
  XElem.mk (XTag.nm "peripheral") [] none
    [mkTextElem "name" "TIMER",
     XElem.mk (XTag.nm "registers") [] none
       [mkReg "CH0_CFG" "0x00" "Channel 0 config",
        mkReg "CH1_CFG" "0x10" "Channel 1 config",
        mkReg "CH2_CFG" "0x24" "Channel 2 config"]]

def c2wCands : List (XElem × String × Int) :=
  [(mkReg "CH0_CFG" "0x00" "Channel 0 config", "0", 0),
   (mkReg "CH1_CFG" "0x10" "Channel 1 config", "1", 16),
   (mkReg "CH2_CFG" "0x24" "Channel 2 config", "2", 36)]

/-- C2 witness: the amended theorem at offsets 0x00, 0x10, 0x24 with
identical bitmasks yields the register-array shape error with the
peripheral untouched. -/
theorem c2_collect_in_array_shape_witness :
    collect_in_array [] chPeriphBad "CH?_CFG" [] = .error (.regsShape, chPeriphBad) :=
  (c2_collect_in_array_shape [] chPeriphBad "CH?_CFG" [] c2wCands [0, 0, 0] rfl
      (by decide) rfl).mpr (by decide)

/-! ## C4: modify_field and the empty value -/

theorem children_setChildren (e : XElem) (l : List XElem) :
    (e.setChildren l).children = l := by
  cases e
  rfl

theorem setChildren_setChildren (e : XElem) (l1 l2 : List XElem) :
    (e.setChildren l1).setChildren l2 = e.setChildren l2 := by
  cases e
  rfl

theorem updateFirstTag_append_of_none (l : List XElem) (k : String)
    (f : XElem → XElem) (x : XElem)
    (h : ∀ c ∈ l, (c.tag == XTag.nm k) = false) (hx : (x.tag == XTag.nm k) = true) :
    updateFirstTag (l ++ [x]) k f = l ++ [f x] := by
  induction l with
  | nil => simp [updateFirstTag, hx]
  | cons c rest ih =>
    have hc := h c (by simp)
    rw [List.cons_append, updateFirstTag, hc]
    simp only [Bool.false_eq_true, if_false]
    exact congrArg (List.cons c) (ih (fun d hd => h d (by simp [hd])))

/-- A field carrying a description child, for the C4 scenarios. -/
def c4Field : XElem :=
  XElem.mk (XTag.nm "field") [] none
    [mkTextElem "name" "FOO", mkTextElem "description" "x"]

/-- A register holding that field. -/
def c4Reg : XElem :=
  XElem.mk (XTag.nm "register") [] none
    [mkTextElem "name" "R", XElem.mk (XTag.nm "fields") [] none [c4Field]]

/-- C4 counterexample: modifying the description of a matched field with
the empty string does not remove the child, as the claim says; the child
survives with empty text, at the entry level and through modify_field. -/
theorem c4_counterexample :
    applyFMod [("description", Yaml.ystr "")] c4Field =
      .ok (XElem.mk (XTag.nm "field") [] none
        [mkTextElem "name" "FOO", mkTextElem "description" ""]) ∧
    ((XElem.mk (XTag.nm "field") [] none
        [mkTextElem "name" "FOO", mkTextElem "description" ""]).find "description").isSome
      = true ∧
    modify_field c4Reg (Yaml.ystr "FOO") (Yaml.ymap [("description", Yaml.ystr "")]) =
      .ok (XElem.mk (XTag.nm "register") [] none
        [mkTextElem "name" "R",
         XElem.mk (XTag.nm "fields") [] none
           [XElem.mk (XTag.nm "field") [] none
             [mkTextElem "name" "FOO", mkTextElem "description" ""]]]) := by
  refine ⟨rfl, rfl, rfl⟩

/-- C4 (amended): for every entry whose key is neither _write_constraint
nor writeConstraint, modify of a field never removes anything: the child
is created when absent and its text is set to the stringified value, the
empty string included. -/
theorem c4_modify_field_amended (ftag : XElem) (key : String) (v : Yaml)
    (h1 : key ≠ "_write_constraint") (h2 : key ≠ "writeConstraint") :
    applyFModEntry ftag key v = .ok
      (if (ftag.find key).isSome then
         ftag.setChildren
           (updateFirstTag ftag.children key (fun t => t.setText (some (pyStr v))))
       else ftag.setChildren (ftag.children ++ [mkTextElem key (pyStr v)])) := by
  unfold applyFModEntry
  simp only [h1, if_false, h2]
  by_cases hf : (ftag.find key).isSome
  · simp [hf]
  · simp only [hf, Bool.false_eq_true, if_false]
    have hnone : ∀ c ∈ ftag.children, (c.tag == XTag.nm key) = false := by
      intro c hc
      have hfn : ftag.children.find? (fun d => d.tag == XTag.nm key) = none := by
        rcases hfind : ftag.children.find? (fun d => d.tag == XTag.nm key) with _ | d
        · exact hfind
        · exact absurd (by unfold XElem.find; rw [hfind]; rfl) hf
      rw [List.find?_eq_none] at hfn
      have hcf := hfn c hc
      cases hcc : (c.tag == XTag.nm key)
      · rfl
      · exact absurd hcc hcf
    rw [children_setChildren, updateFirstTag_append_of_none _ _ _ _ hnone (by simp [XElem.tag]),
        setChildren_setChildren]
    rfl

/-- C4 witness: the amended theorem at the concrete field with an empty
value: the description child is kept and its text emptied. -/
theorem c4_modify_field_amended_witness :
    applyFModEntry c4Field "description" (Yaml.ystr "") = .ok
      (if (c4Field.find "description").isSome then
         c4Field.setChildren
           (updateFirstTag c4Field.children "description"
             (fun t => t.setText (some (pyStr (Yaml.ystr "")))))
       else c4Field.setChildren (c4Field.children ++ [mkTextElem "description" (pyStr (Yaml.ystr ""))])) :=
  c4_modify_field_amended c4Field "description" (Yaml.ystr "") (by decide) (by decide)

/-! ## C1: derived peripherals only touch interrupts -/

mutual

/-- No interrupt-tagged element occurs in this subtree (the element
itself included). -/
def subtreeNoInterrupt : XElem → Bool
  | .mk tg _ _ ch => !(tg == XTag.nm "interrupt") && subtreesNoInterrupt ch

def subtreesNoInterrupt : List XElem → Bool
  | [] => true
  | c :: rest => subtreeNoInterrupt c && subtreesNoInterrupt rest

end

/-- Well-formed placement of interrupts: every interrupt element of the
peripheral is a direct child (no interrupt is nested below a child). -/
def wfInterrupts (p : XElem) : Bool :=
  p.children.all (fun c => subtreesNoInterrupt c.children)

/-- The non-interrupt children: what the claim says stays unchanged. -/
def filterNonInt (l : List XElem) : List XElem :=
  l.filter (fun c => !(c.tag == XTag.nm "interrupt"))

theorem subtreesNoInterrupt_iff (l : List XElem) :
    subtreesNoInterrupt l = true ↔ ∀ c ∈ l, subtreeNoInterrupt c = true := by
  induction l with
  | nil => simp [subtreesNoInterrupt]
  | cons c rest ih =>
    rw [subtreesNoInterrupt, Bool.and_eq_true, ih]
    simp

theorem tag_setChildren (e : XElem) (l : List XElem) : (e.setChildren l).tag = e.tag := by
  cases e
  rfl

theorem tag_setText (e : XElem) (tx : Option String) : (e.setText tx).tag = e.tag := by
  cases e
  rfl

theorem subtreeNoInterrupt_setText (e : XElem) (tx : Option String) :
    subtreeNoInterrupt (e.setText tx) = subtreeNoInterrupt e := by
  cases e
  rfl

theorem removeFirst_mem (l : List XElem) (x : XElem) (l' : List XElem)
    (h : removeFirst l x = some l') : ∀ y ∈ l', y ∈ l := by
  induction l generalizing l' with
  | nil => cases h
  | cons z rest ih =>
    rw [removeFirst] at h
    by_cases hz : z = x
    · rw [if_pos hz] at h
      cases h
      intro y hy
      exact List.mem_cons_of_mem z hy
    · rw [if_neg hz] at h
      rcases hrec : removeFirst rest x with _ | r
      · rw [hrec] at h
        cases h
      · rw [hrec] at h
        cases h
        intro y hy
        rcases List.mem_cons.mp hy with h1 | h2
        · exact h1 ▸ List.mem_cons_self z rest
        · exact List.mem_cons_of_mem z (ih r hrec y h2)

theorem removeFirst_filterNonInt (l : List XElem) (x : XElem) (l' : List XElem)
    (hx : x.tag = XTag.nm "interrupt") (h : removeFirst l x = some l') :
    filterNonInt l' = filterNonInt l := by
  induction l generalizing l' with
  | nil => cases h
  | cons z rest ih =>
    rw [removeFirst] at h
    by_cases hz : z = x
    · rw [if_pos hz] at h
      cases h
      have : (z.tag == XTag.nm "interrupt") = true := by
        rw [hz, hx]
        simp
      simp [filterNonInt, this]
    · rw [if_neg hz] at h
      rcases hrec : removeFirst rest x with _ | r
      · rw [hrec] at h
        cases h
      · rw [hrec] at h
        cases h
        by_cases hzi : (z.tag == XTag.nm "interrupt") = true
        · simp [filterNonInt, hzi] at ih ⊢
          exact ih r hrec
        · simp only [Bool.not_eq_true] at hzi
          simp [filterNonInt, hzi] at ih ⊢
          exact ih r hrec

mutual

theorem iterTag_tag (t : String) : ∀ (e : XElem), ∀ x ∈ iterTag t e, x.tag = XTag.nm t
  | .mk tg a tx ch => by
    intro x hx
    rw [iterTag] at hx
    rcases List.mem_append.mp hx with h1 | h2
    · by_cases hg : tg = XTag.nm t
      · rw [if_pos hg] at h1
        rcases List.mem_singleton.mp h1 with rfl
        exact hg
      · rw [if_neg hg] at h1
        cases h1
    · exact iterTagL_tag t ch x h2

theorem iterTagL_tag (t : String) : ∀ (l : List XElem), ∀ x ∈ iterTagL t l, x.tag = XTag.nm t
  | [] => by
    intro x hx
    cases hx
  | c :: rest => by
    intro x hx
    rw [iterTagL] at hx
    rcases List.mem_append.mp hx with h1 | h2
    · exact iterTag_tag t c x h1
    · exact iterTagL_tag t rest x h2

end

theorem filterMatched_subset (s : String) (l r : List XElem)
    (h : filterMatched s l = .ok r) : ∀ x ∈ r, x ∈ l := by
  induction l generalizing r with
  | nil =>
    rw [filterMatched] at h
    cases h
    intro x hx
    cases hx
  | cons e rest ih =>
    rw [filterMatched] at h
    rcases h1 : e.find "name" with _ | n
    · rw [h1] at h
      cases h
    · rw [h1] at h
      dsimp only [] at h
      rcases h2 : matchnameOpt n.text s with er | b
      · rw [h2] at h
        cases h
      · rw [h2] at h
        rcases h3 : filterMatched s rest with er | r2
        · rw [h3] at h
          cases h
        · rw [h3] at h
          cases h
          intro x hx
          cases b
          · simp only [Bool.false_eq_true, if_false] at hx
            exact List.mem_cons_of_mem e (ih r2 h3 x hx)
          · simp only [if_true] at hx
            rcases List.mem_cons.mp hx with h4 | h4
            · exact h4 ▸ List.mem_cons_self e rest
            · exact List.mem_cons_of_mem e (ih r2 h3 x h4)

theorem setFirstTagText_subtrees (l : List XElem) (k txt : String) :
    subtreesNoInterrupt (setFirstTagText l k txt) = subtreesNoInterrupt l := by
  induction l with
  | nil => rfl
  | cons c rest ih =>
    rw [setFirstTagText]
    by_cases hc : (c.tag == XTag.nm k) = true
    · rw [if_pos hc]
      rw [subtreesNoInterrupt, subtreesNoInterrupt, subtreeNoInterrupt_setText]
    · rw [if_neg hc]
      rw [subtreesNoInterrupt, subtreesNoInterrupt, ih]

theorem subtrees_of_sublist (l l' : List XElem)
    (hsub : ∀ y ∈ l', y ∈ l) (h : subtreesNoInterrupt l = true) :
    subtreesNoInterrupt l' = true := by
  rw [subtreesNoInterrupt_iff] at h ⊢
  exact fun c hc => h c (hsub c hc)

theorem applyIMod_ok (entries : List (String × Yaml)) (it it' : XElem)
    (h : applyIMod entries it = .ok it') :
    it'.tag = it.tag ∧
    (subtreesNoInterrupt it.children = true → subtreesNoInterrupt it'.children = true) := by
  induction entries generalizing it with
  | nil =>
    rw [applyIMod] at h
    cases h
    exact ⟨rfl, fun h => h⟩
  | cons kv rest ih =>
    rcases kv with ⟨k, v⟩
    rw [applyIMod] at h
    rcases h1 : it.find k with _ | tagEl
    · rw [h1] at h
      dsimp only [] at h
      by_cases hv : (v == Yaml.ystr "") = true
      · rw [if_pos hv] at h
        cases h
      · rw [if_neg hv] at h
        cases h
    · rw [h1] at h
      dsimp only [] at h
      by_cases hv : (v == Yaml.ystr "") = true
      · rw [if_pos hv] at h
        rcases h2 : removeFirst it.children tagEl with _ | ch
        · rw [h2] at h
          cases h
        · rw [h2] at h
          have := ih (it.setChildren ch) h
          refine ⟨this.1.trans (tag_setChildren it ch), fun hw => ?_⟩
          refine this.2 ?_
          rw [children_setChildren]
          exact subtrees_of_sublist _ _ (removeFirst_mem _ _ _ h2) hw
      · rw [if_neg hv] at h
        have := ih (it.setChildren (setFirstTagText it.children k (pyStr v))) h
        refine ⟨this.1.trans (tag_setChildren ..), fun hw => ?_⟩
        refine this.2 ?_
        rw [children_setChildren, setFirstTagText_subtrees]
        exact hw

mutual

theorem travNode_noInt (i m : Yaml) : ∀ (e : XElem),
    subtreeNoInterrupt e = true → travNode (actInterrupt i m) e = .ok e
  | .mk tg a tx ch => by
    intro h
    rw [subtreeNoInterrupt, Bool.and_eq_true] at h
    rw [travNode, travChildren_noInt i m ch h.2]
    dsimp only []
    unfold actInterrupt
    have htg : ¬((XElem.mk tg a tx ch).tag = XTag.nm "interrupt") := by
      intro hx
      rw [XElem.tag] at hx
      rw [hx] at h
      simp at h
    rw [if_neg htg]

theorem travChildren_noInt (i m : Yaml) : ∀ (l : List XElem),
    subtreesNoInterrupt l = true → travChildren (actInterrupt i m) l = .ok l
  | [] => by
    intro _
    rfl
  | c :: rest => by
    intro h
    rw [subtreesNoInterrupt, Bool.and_eq_true] at h
    rw [travChildren, travNode_noInt i m c h.1, travChildren_noInt i m rest h.2]

end

theorem filterNonInt_append_int (l : List XElem) (x : XElem)
    (hx : x.tag = XTag.nm "interrupt") :
    filterNonInt (l ++ [x]) = filterNonInt l := by
  rw [filterNonInt, filterNonInt, List.filter_append]
  simp [List.filter, hx]

theorem wf_setChildren_sublist (p : XElem) (ch : List XElem)
    (hsub : ∀ y ∈ ch, y ∈ p.children) (h : wfInterrupts p = true) :
    wfInterrupts (p.setChildren ch) = true := by
  rw [wfInterrupts, children_setChildren, List.all_eq_true]
  rw [wfInterrupts, List.all_eq_true] at h
  exact fun c hc => h c (hsub c hc)

theorem delInterruptGo_ok : ∀ (matched : List XElem) (p q : XElem),
    (∀ x ∈ matched, x.tag = XTag.nm "interrupt") →
    delInterruptGo matched p = .ok q →
    filterNonInt q.children = filterNonInt p.children ∧ q.tag = p.tag ∧
      (wfInterrupts p = true → wfInterrupts q = true)
  | [], p, q, _, h => by
    rw [delInterruptGo] at h
    cases h
    exact ⟨rfl, rfl, fun h => h⟩
  | i :: rest, p, q, hm, h => by
    rw [delInterruptGo] at h
    rcases hr : removeFirst p.children i with _ | ch
    · rw [hr] at h
      cases h
    · rw [hr] at h
      dsimp only [] at h
      have hi : i.tag = XTag.nm "interrupt" := hm i (List.mem_cons_self i rest)
      have ih := delInterruptGo_ok rest (p.setChildren ch) q
        (fun x hx => hm x (List.mem_cons_of_mem i hx)) h
      refine ⟨?_, ih.2.1.trans (tag_setChildren p ch), fun hw => ih.2.2 ?_⟩
      · rw [ih.1, children_setChildren]
        exact removeFirst_filterNonInt p.children i ch hi hr
      · exact wf_setChildren_sublist p ch (removeFirst_mem _ _ _ hr) hw

theorem delete_interrupt_ok (p q : XElem) (ispec : String)
    (h : delete_interrupt p ispec = .ok q) :
    filterNonInt q.children = filterNonInt p.children ∧ q.tag = p.tag ∧
      (wfInterrupts p = true → wfInterrupts q = true) := by
  rw [delete_interrupt] at h
  rcases hm : matchedElems "interrupt" ispec p with e | matched
  · rw [hm] at h
    cases h
  · rw [hm] at h
    dsimp only [] at h
    refine delInterruptGo_ok matched p q ?_ h
    intro x hx
    rw [matchedElems] at hm
    exact iterTag_tag "interrupt" p x (filterMatched_subset _ _ _ hm x hx)

theorem derivedDelSpecs_ok : ∀ (specs : List Yaml) (p q : XElem),
    derivedDelSpecs specs p = .ok q →
    filterNonInt q.children = filterNonInt p.children ∧ q.tag = p.tag ∧
      (wfInterrupts p = true → wfInterrupts q = true)
  | [], p, q, h => by
    rw [derivedDelSpecs] at h
    cases h
    exact ⟨rfl, rfl, fun h => h⟩
  | sv :: rest, p, q, h => by
    rw [derivedDelSpecs] at h
    rcases hs : asStrA sv with e | s
    · rw [hs] at h
      cases h
    · rw [hs] at h
      dsimp only [] at h
      rcases hd : delete_interrupt p s with ep | p1
      · rw [hd] at h
        cases h
      · rw [hd] at h
        dsimp only [] at h
        have h1 := delete_interrupt_ok p p1 s hd
        have ih := derivedDelSpecs_ok rest p1 q h
        exact ⟨ih.1.trans h1.1, ih.2.1.trans h1.2.1, fun hw => ih.2.2 (h1.2.2 hw)⟩

theorem derivedDeleteEntries_ok : ∀ (entries : List (String × Yaml)) (p q : XElem),
    derivedDeleteEntries entries p = .ok q →
    filterNonInt q.children = filterNonInt p.children ∧ q.tag = p.tag ∧
      (wfInterrupts p = true → wfInterrupts q = true)
  | [], p, q, h => by
    rw [derivedDeleteEntries] at h
    cases h
    exact ⟨rfl, rfl, fun h => h⟩
  | (k, dv) :: rest, p, q, h => by
    rw [derivedDeleteEntries] at h
    by_cases hk : k = "_interrupts"
    · rw [if_pos hk] at h
      rcases hi : yIterElems dv with e | specs
      · rw [hi] at h
        cases h
      · rw [hi] at h
        dsimp only [] at h
        rcases hd : derivedDelSpecs specs p with ep | p1
        · rw [hd] at h
          cases h
        · rw [hd] at h
          dsimp only [] at h
          have h1 := derivedDelSpecs_ok specs p p1 hd
          have ih := derivedDeleteEntries_ok rest p1 q h
          exact ⟨ih.1.trans h1.1, ih.2.1.trans h1.2.1, fun hw => ih.2.2 (h1.2.2 hw)⟩
    · rw [if_neg hk] at h
      exact derivedDeleteEntries_ok rest p q h

theorem actInterrupt_ok (i m : Yaml) (c c' : XElem)
    (h : actInterrupt i m c = .ok c') :
    c'.tag = c.tag ∧
      (subtreesNoInterrupt c.children = true → subtreesNoInterrupt c'.children = true) := by
  rw [actInterrupt] at h
  by_cases htg : c.tag = XTag.nm "interrupt"
  · rw [if_pos htg] at h
    rcases hs : asStrA i with e | s
    · rw [hs] at h
      cases h
    · rw [hs] at h
      dsimp only [] at h
      rcases hn : c.find "name" with _ | n
      · rw [hn] at h
        cases h
      · rw [hn] at h
        dsimp only [] at h
        rcases hb : matchnameOpt n.text s with e | b
        · rw [hb] at h
          cases h
        · rw [hb] at h
          dsimp only [] at h
          by_cases hbb : b = true
          · rw [if_pos hbb] at h
            rcases hmm : asMapA m with e | entries
            · rw [hmm] at h
              cases h
            · rw [hmm] at h
              dsimp only [] at h
              exact applyIMod_ok entries c c' h
          · rw [if_neg hbb] at h
            cases h
            exact ⟨rfl, fun h => h⟩
  · rw [if_neg htg] at h
    cases h
    exact ⟨rfl, fun h => h⟩

theorem travNode_top (i m : Yaml) : ∀ (c : XElem),
    subtreesNoInterrupt c.children = true →
    travNode (actInterrupt i m) c = actInterrupt i m c
  | .mk tg a tx ch => by
    intro h
    have h2 : subtreesNoInterrupt ch = true := h
    rw [travNode, travChildren_noInt i m ch h2]

theorem travChildren_frame (i m : Yaml) : ∀ (l l' : List XElem),
    (∀ c ∈ l, subtreesNoInterrupt c.children = true) →
    travChildren (actInterrupt i m) l = .ok l' →
    filterNonInt l' = filterNonInt l ∧
      ∀ c ∈ l', subtreesNoInterrupt c.children = true
  | [], l', _, h => by
    rw [travChildren] at h
    cases h
    exact ⟨rfl, fun c hc => absurd hc (List.not_mem_nil c)⟩
  | c :: rest, l', hwf, h => by
    rw [travChildren] at h
    rw [travNode_top i m c (hwf c (List.mem_cons_self c rest))] at h
    rcases ha : actInterrupt i m c with e | c1
    · rw [ha] at h
      cases h
    · rw [ha] at h
      dsimp only [] at h
      rcases hr : travChildren (actInterrupt i m) rest with e | rest1
      · rw [hr] at h
        cases h
      · rw [hr] at h
        dsimp only [] at h
        cases h
        have hact := actInterrupt_ok i m c c1 ha
        have ih := travChildren_frame i m rest rest1
          (fun x hx => hwf x (List.mem_cons_of_mem c hx)) hr
        have ih1 := ih.1
        rw [filterNonInt, filterNonInt] at ih1
        constructor
        · rw [filterNonInt, List.filter_cons, filterNonInt, List.filter_cons, hact.1]
          by_cases hc : (!(c.tag == XTag.nm "interrupt")) = true
          · have hne : ¬(c.tag = XTag.nm "interrupt") := by
              intro hx
              rw [hx] at hc
              simp at hc
            have hcc : c1 = c := by
              rw [actInterrupt, if_neg hne] at ha
              injection ha with h2
              exact h2.symm
            rw [if_pos hc, if_pos hc, ih1, hcc]
          · rw [if_neg hc, if_neg hc]
            exact ih1
        · intro x hx
          rcases List.mem_cons.mp hx with rfl | hx2
          · exact hact.2 (hwf c (List.mem_cons_self c rest))
          · exact ih.2 x hx2

theorem modify_interrupt_ok (p q : XElem) (i m : Yaml)
    (htg : ¬(p.tag = XTag.nm "interrupt")) (hwf : wfInterrupts p = true)
    (h : modify_interrupt p i m = .ok q) :
    filterNonInt q.children = filterNonInt p.children ∧ q.tag = p.tag ∧
      wfInterrupts q = true := by
  rcases p with ⟨tg, a, tx, ch⟩
  rw [wfInterrupts] at hwf
  dsimp only [XElem.children] at hwf
  rw [List.all_eq_true] at hwf
  rw [modify_interrupt, travNode] at h
  rcases hc : travChildren (actInterrupt i m) ch with e | ch1
  · rw [hc] at h
    cases h
  · rw [hc] at h
    dsimp only [] at h
    have hfr := travChildren_frame i m ch ch1 hwf hc
    rw [actInterrupt] at h
    have htg2 : ¬((XElem.mk tg a tx ch1).tag = XTag.nm "interrupt") := htg
    rw [if_neg htg2] at h
    cases h
    refine ⟨hfr.1, rfl, ?_⟩
    rw [wfInterrupts]
    dsimp only [XElem.children]
    rw [List.all_eq_true]
    exact hfr.2

theorem derivedModIspecs_ok : ∀ (rmod : Yaml) (ispecs : List Yaml) (p q : XElem),
    ¬(p.tag = XTag.nm "interrupt") → wfInterrupts p = true →
    derivedModIspecs rmod ispecs p = .ok q →
    filterNonInt q.children = filterNonInt p.children ∧ q.tag = p.tag ∧
      wfInterrupts q = true
  | _, [], p, q, _, hwf, h => by
    rw [derivedModIspecs] at h
    cases h
    exact ⟨rfl, rfl, hwf⟩
  | rmod, iv :: rest, p, q, htg, hwf, h => by
    rw [derivedModIspecs] at h
    rcases hx : yIndex rmod iv with e | imod
    · rw [hx] at h
      cases h
    · rw [hx] at h
      dsimp only [] at h
      rcases hm : modify_interrupt p iv imod with ep | p1
      · rw [hm] at h
        cases h
      · rw [hm] at h
        dsimp only [] at h
        have h1 := modify_interrupt_ok p p1 iv imod htg hwf hm
        have ih := derivedModIspecs_ok rmod rest p1 q
          (fun hx2 => htg (h1.2.1.symm.trans hx2)) h1.2.2 h
        exact ⟨ih.1.trans h1.1, ih.2.1.trans h1.2.1, ih.2.2⟩

theorem derivedModOne_ok (mval rv : Yaml) (p q : XElem)
    (htg : ¬(p.tag = XTag.nm "interrupt")) (hwf : wfInterrupts p = true)
    (h : derivedModOne mval rv p = .ok q) :
    filterNonInt q.children = filterNonInt p.children ∧ q.tag = p.tag ∧
      wfInterrupts q = true := by
  rw [derivedModOne] at h
  by_cases hr : rv = Yaml.ystr "_interrupts"
  · rw [if_pos hr] at h
    rcases h1 : yIndex mval rv with e | rmod
    · rw [h1] at h
      cases h
    · rw [h1] at h
      dsimp only [] at h
      rcases h2 : yIterElems rmod with e | ispecs
      · rw [h2] at h
        cases h
      · rw [h2] at h
        dsimp only [] at h
        exact derivedModIspecs_ok rmod ispecs p q htg hwf h
  · rw [if_neg hr] at h
    cases h
    exact ⟨rfl, rfl, hwf⟩

theorem derivedModEntries_ok : ∀ (mval : Yaml) (rvs : List Yaml) (p q : XElem),
    ¬(p.tag = XTag.nm "interrupt") → wfInterrupts p = true →
    derivedModEntries mval rvs p = .ok q →
    filterNonInt q.children = filterNonInt p.children ∧ q.tag = p.tag ∧
      wfInterrupts q = true
  | _, [], p, q, _, hwf, h => by
    rw [derivedModEntries] at h
    cases h
    exact ⟨rfl, rfl, hwf⟩
  | mval, rv :: rest, p, q, htg, hwf, h => by
    rw [derivedModEntries] at h
    rcases hm : derivedModOne mval rv p with ep | p1
    · rw [hm] at h
      cases h
    · rw [hm] at h
      dsimp only [] at h
      have h1 := derivedModOne_ok mval rv p p1 htg hwf hm
      have ih := derivedModEntries_ok mval rest p1 q
        (fun hx2 => htg (h1.2.1.symm.trans hx2)) h1.2.2 h
      exact ⟨ih.1.trans h1.1, ih.2.1.trans h1.2.1, ih.2.2⟩

theorem add_interrupt_ok (p q : XElem) (iname iadd : Yaml)
    (h : add_interrupt p iname iadd = .ok q) :
    filterNonInt q.children = filterNonInt p.children ∧ q.tag = p.tag := by
  rw [add_interrupt.eq_def] at h
  split at h
  · cases h
  · cases h
  · split at h
    · split at h
      · cases h
        refine ⟨?_, tag_setChildren _ _⟩
        rw [children_setChildren]
        exact filterNonInt_append_int _ _ (tag_setChildren _ _)
      · cases h
    · cases h

theorem derivedAddInames_ok : ∀ (radd : Yaml) (inames : List Yaml) (p q : XElem),
    derivedAddInames radd inames p = .ok q →
    filterNonInt q.children = filterNonInt p.children ∧ q.tag = p.tag
  | _, [], p, q, h => by
    rw [derivedAddInames] at h
    cases h
    exact ⟨rfl, rfl⟩
  | radd, iv :: rest, p, q, h => by
    rw [derivedAddInames] at h
    rcases hx : yIndex radd iv with e | iadd
    · rw [hx] at h
      cases h
    · rw [hx] at h
      dsimp only [] at h
      rcases ha : add_interrupt p iv iadd with ep | p1
      · rw [ha] at h
        cases h
      · rw [ha] at h
        dsimp only [] at h
        have h1 := add_interrupt_ok p p1 iv iadd ha
        have ih := derivedAddInames_ok radd rest p1 q h
        exact ⟨ih.1.trans h1.1, ih.2.trans h1.2⟩

theorem derivedAddOne_ok (aval rv : Yaml) (p q : XElem)
    (h : derivedAddOne aval rv p = .ok q) :
    filterNonInt q.children = filterNonInt p.children ∧ q.tag = p.tag := by
  rw [derivedAddOne] at h
  by_cases hr : rv = Yaml.ystr "_interrupts"
  · rw [if_pos hr] at h
    rcases h1 : yIndex aval rv with e | radd
    · rw [h1] at h
      cases h
    · rw [h1] at h
      dsimp only [] at h
      rcases h2 : yIterElems radd with e | inames
      · rw [h2] at h
        cases h
      · rw [h2] at h
        dsimp only [] at h
        exact derivedAddInames_ok radd inames p q h
  · rw [if_neg hr] at h
    cases h
    exact ⟨rfl, rfl⟩

theorem derivedAddEntries_ok : ∀ (aval : Yaml) (rvs : List Yaml) (p q : XElem),
    derivedAddEntries aval rvs p = .ok q →
    filterNonInt q.children = filterNonInt p.children ∧ q.tag = p.tag
  | _, [], p, q, h => by
    rw [derivedAddEntries] at h
    cases h
    exact ⟨rfl, rfl⟩
  | aval, rv :: rest, p, q, h => by
    rw [derivedAddEntries] at h
    rcases hm : derivedAddOne aval rv p with ep | p1
    · rw [hm] at h
      cases h
    · rw [hm] at h
      dsimp only [] at h
      have h1 := derivedAddOne_ok aval rv p p1 hm
      have ih := derivedAddEntries_ok aval rest p1 q h
      exact ⟨ih.1.trans h1.1, ih.2.trans h1.2⟩

/-! ## The _interrupts-only restriction of a derived-peripheral patch -/

/-- A directive value reduced to its _interrupts entries (the claim side:
on a derived peripheral only these sub-directives run). -/
def restrictY : Yaml → Yaml
  | .ymap es => .ymap (es.filter (fun kv => kv.1 == "_interrupts"))
  | .ynull => .ynull
  | .ystr s => .ystr s
  | .yint n => .yint n
  | .ylist l => .ylist l

/-- The peripheral patch reduced to the _interrupts sub-directives of
_delete, _modify and _add. -/
def restrictI (peripheral : List (String × Yaml)) : List (String × Yaml) :=
  [("_delete", restrictY (pyGetD peripheral "_delete" (Yaml.ylist []))),
   ("_modify", restrictY (pyGetD peripheral "_modify" (Yaml.ymap []))),
   ("_add", restrictY (pyGetD peripheral "_add" (Yaml.ymap [])))]

theorem derivedDeleteEntries_filter : ∀ (entries : List (String × Yaml)) (p : XElem),
    derivedDeleteEntries (entries.filter (fun kv => kv.1 == "_interrupts")) p =
      derivedDeleteEntries entries p
  | [], _ => rfl
  | (k, dv) :: rest, p => by
    rw [List.filter_cons]
    by_cases hk : k = "_interrupts"
    · have hb : ((k, dv).1 == "_interrupts") = true := by
        simp [hk]
      rw [if_pos hb, derivedDeleteEntries, derivedDeleteEntries, if_pos hk, if_pos hk]
      rcases hi : yIterElems dv with e | specs
      · rfl
      · dsimp only []
        rcases hd : derivedDelSpecs specs p with ep | p1
        · rfl
        · dsimp only []
          exact derivedDeleteEntries_filter rest p1
    · have hb : ¬(((k, dv).1 == "_interrupts") = true) := by
        simp [hk]
      rw [if_neg hb, derivedDeleteEntries, if_neg hk]
      exact derivedDeleteEntries_filter rest p

theorem find_filter_int : ∀ (es : List (String × Yaml)),
    (es.filter (fun kv => kv.1 == "_interrupts")).find? (fun e => e.1 == "_interrupts") =
      es.find? (fun e => e.1 == "_interrupts")
  | [] => rfl
  | kv :: rest => by
    by_cases hk : (kv.1 == "_interrupts") = true
    · rw [List.filter_cons, if_pos hk]
      simp only [List.find?_cons, hk]
    · rw [List.filter_cons, if_neg hk]
      rw [Bool.not_eq_true] at hk
      simp only [List.find?_cons, hk]
      exact find_filter_int rest

theorem yIndex_restrict (es : List (String × Yaml)) :
    yIndex (Yaml.ymap (es.filter (fun kv => kv.1 == "_interrupts")))
        (Yaml.ystr "_interrupts") =
      yIndex (Yaml.ymap es) (Yaml.ystr "_interrupts") := by
  rw [yIndex, yIndex, pyGet, pyGet, find_filter_int]

theorem derivedModEntries_skip : ∀ (mval : Yaml) (rvs : List Yaml) (p : XElem),
    derivedModEntries mval (rvs.filter (fun rv => rv == Yaml.ystr "_interrupts")) p =
      derivedModEntries mval rvs p
  | _, [], _ => rfl
  | mval, rv :: rest, p => by
    rw [List.filter_cons]
    by_cases hr : rv = Yaml.ystr "_interrupts"
    · have hb : (rv == Yaml.ystr "_interrupts") = true :=
        (Yaml.beq_iff rv (Yaml.ystr "_interrupts")).mpr hr
      rw [if_pos hb, derivedModEntries, derivedModEntries]
      rcases hm : derivedModOne mval rv p with ep | p1
      · rfl
      · dsimp only []
        exact derivedModEntries_skip mval rest p1
    · have hb : ¬((rv == Yaml.ystr "_interrupts") = true) :=
        fun hx => hr ((Yaml.beq_iff rv (Yaml.ystr "_interrupts")).mp hx)
      have hone : derivedModOne mval rv p = .ok p := by
        rw [derivedModOne, if_neg hr]
      rw [if_neg hb, derivedModEntries, hone]
      dsimp only []
      exact derivedModEntries_skip mval rest p

theorem derivedModEntries_restrictMap (es : List (String × Yaml)) :
    ∀ (rvs : List Yaml) (p : XElem),
    derivedModEntries (Yaml.ymap (es.filter (fun kv => kv.1 == "_interrupts"))) rvs p =
      derivedModEntries (Yaml.ymap es) rvs p
  | [], _ => rfl
  | rv :: rest, p => by
    have hone : derivedModOne (Yaml.ymap (es.filter (fun kv => kv.1 == "_interrupts"))) rv p =
        derivedModOne (Yaml.ymap es) rv p := by
      by_cases hr : rv = Yaml.ystr "_interrupts"
      · rw [derivedModOne, derivedModOne, if_pos hr, if_pos hr, hr, yIndex_restrict]
      · rw [derivedModOne, derivedModOne, if_neg hr, if_neg hr]
    rw [derivedModEntries, derivedModEntries, hone]
    rcases hm : derivedModOne (Yaml.ymap es) rv p with ep | p1
    · rfl
    · dsimp only []
      exact derivedModEntries_restrictMap es rest p1

theorem derivedAddEntries_skip : ∀ (aval : Yaml) (rvs : List Yaml) (p : XElem),
    derivedAddEntries aval (rvs.filter (fun rv => rv == Yaml.ystr "_interrupts")) p =
      derivedAddEntries aval rvs p
  | _, [], _ => rfl
  | aval, rv :: rest, p => by
    rw [List.filter_cons]
    by_cases hr : rv = Yaml.ystr "_interrupts"
    · have hb : (rv == Yaml.ystr "_interrupts") = true :=
        (Yaml.beq_iff rv (Yaml.ystr "_interrupts")).mpr hr
      rw [if_pos hb, derivedAddEntries, derivedAddEntries]
      rcases hm : derivedAddOne aval rv p with ep | p1
      · rfl
      · dsimp only []
        exact derivedAddEntries_skip aval rest p1
    · have hb : ¬((rv == Yaml.ystr "_interrupts") = true) :=
        fun hx => hr ((Yaml.beq_iff rv (Yaml.ystr "_interrupts")).mp hx)
      have hone : derivedAddOne aval rv p = .ok p := by
        rw [derivedAddOne, if_neg hr]
      rw [if_neg hb, derivedAddEntries, hone]
      dsimp only []
      exact derivedAddEntries_skip aval rest p

theorem derivedAddEntries_restrictMap (es : List (String × Yaml)) :
    ∀ (rvs : List Yaml) (p : XElem),
    derivedAddEntries (Yaml.ymap (es.filter (fun kv => kv.1 == "_interrupts"))) rvs p =
      derivedAddEntries (Yaml.ymap es) rvs p
  | [], _ => rfl
  | rv :: rest, p => by
    have hone : derivedAddOne (Yaml.ymap (es.filter (fun kv => kv.1 == "_interrupts"))) rv p =
        derivedAddOne (Yaml.ymap es) rv p := by
      by_cases hr : rv = Yaml.ystr "_interrupts"
      · rw [derivedAddOne, derivedAddOne, if_pos hr, if_pos hr, hr, yIndex_restrict]
      · rw [derivedAddOne, derivedAddOne, if_neg hr, if_neg hr]
    rw [derivedAddEntries, derivedAddEntries, hone]
    rcases hm : derivedAddOne (Yaml.ymap es) rv p with ep | p1
    · rfl
    · dsimp only []
      exact derivedAddEntries_restrictMap es rest p1

theorem keys_filter_comm : ∀ (es : List (String × Yaml)),
    ((es.filter (fun kv => kv.1 == "_interrupts")).map (fun kv => Yaml.ystr kv.1)) =
      ((es.map (fun kv => Yaml.ystr kv.1)).filter (fun rv => rv == Yaml.ystr "_interrupts"))
  | [] => rfl
  | kv :: rest => by
    rw [List.filter_cons, List.map_cons, List.filter_cons]
    have he : ((Yaml.ystr kv.1 == Yaml.ystr "_interrupts")) = (kv.1 == "_interrupts") := rfl
    rw [he]
    by_cases hk : (kv.1 == "_interrupts") = true
    · rw [if_pos hk, if_pos hk, List.map_cons, keys_filter_comm rest]
    · rw [if_neg hk, if_neg hk, keys_filter_comm rest]

theorem derivedDeletePhase_restrict (peripheral : List (String × Yaml)) (ptag : XElem) :
    derivedDeletePhase (restrictI peripheral) ptag = derivedDeletePhase peripheral ptag := by
  rw [derivedDeletePhase, derivedDeletePhase]
  have hd : pyGetD (restrictI peripheral) "_delete" (Yaml.ylist []) =
      restrictY (pyGetD peripheral "_delete" (Yaml.ylist [])) := rfl
  rw [hd]
  rcases hD : pyGetD peripheral "_delete" (Yaml.ylist []) with _ | s | n | l | es
  · rfl
  · rfl
  · rfl
  · rfl
  · exact derivedDeleteEntries_filter es ptag

theorem derivedModPhase_restrict (peripheral : List (String × Yaml)) (p1 : XElem) :
    derivedModPhase (restrictI peripheral) p1 = derivedModPhase peripheral p1 := by
  rw [derivedModPhase, derivedModPhase]
  have hm : pyGetD (restrictI peripheral) "_modify" (Yaml.ymap []) =
      restrictY (pyGetD peripheral "_modify" (Yaml.ymap [])) := rfl
  rw [hm]
  rcases hM : pyGetD peripheral "_modify" (Yaml.ymap []) with _ | s | n | l | es
  · rfl
  · rfl
  · rfl
  · rfl
  · show derivedModEntries (Yaml.ymap (es.filter (fun kv => kv.1 == "_interrupts")))
        ((es.filter (fun kv => kv.1 == "_interrupts")).map (fun kv => Yaml.ystr kv.1)) p1 =
      derivedModEntries (Yaml.ymap es) (es.map (fun kv => Yaml.ystr kv.1)) p1
    rw [derivedModEntries_restrictMap es, keys_filter_comm es,
      derivedModEntries_skip (Yaml.ymap es) (es.map (fun kv => Yaml.ystr kv.1)) p1]

theorem derivedAddPhase_restrict (peripheral : List (String × Yaml)) (p2 : XElem) :
    derivedAddPhase (restrictI peripheral) p2 = derivedAddPhase peripheral p2 := by
  rw [derivedAddPhase, derivedAddPhase]
  have ha : pyGetD (restrictI peripheral) "_add" (Yaml.ymap []) =
      restrictY (pyGetD peripheral "_add" (Yaml.ymap [])) := rfl
  rw [ha]
  rcases hA : pyGetD peripheral "_add" (Yaml.ymap []) with _ | s | n | l | es
  · rfl
  · rfl
  · rfl
  · rfl
  · show derivedAddEntries (Yaml.ymap (es.filter (fun kv => kv.1 == "_interrupts")))
        ((es.filter (fun kv => kv.1 == "_interrupts")).map (fun kv => Yaml.ystr kv.1)) p2 =
      derivedAddEntries (Yaml.ymap es) (es.map (fun kv => Yaml.ystr kv.1)) p2
    rw [derivedAddEntries_restrictMap es, keys_filter_comm es,
      derivedAddEntries_skip (Yaml.ymap es) (es.map (fun kv => Yaml.ystr kv.1)) p2]

theorem processDerived_restrict (peripheral : List (String × Yaml)) (ptag : XElem) :
    processDerived (restrictI peripheral) ptag = processDerived peripheral ptag := by
  rw [processDerived, processDerived, derivedDeletePhase_restrict]
  rcases h1 : derivedDeletePhase peripheral ptag with ep | p1
  · rfl
  · dsimp only []
    rw [derivedModPhase_restrict]
    rcases h2 : derivedModPhase peripheral p1 with ep | p2
    · rfl
    · dsimp only []
      exact derivedAddPhase_restrict peripheral p2

theorem derivedDeletePhase_ok (peripheral : List (String × Yaml)) (p q : XElem)
    (h : derivedDeletePhase peripheral p = .ok q) :
    filterNonInt q.children = filterNonInt p.children ∧ q.tag = p.tag ∧
      (wfInterrupts p = true → wfInterrupts q = true) := by
  rw [derivedDeletePhase] at h
  rcases hD : pyGetD peripheral "_delete" (Yaml.ylist []) with _ | s | n | l | es
  all_goals rw [hD] at h
  all_goals dsimp only [] at h
  · cases h
    exact ⟨rfl, rfl, fun h => h⟩
  · cases h
    exact ⟨rfl, rfl, fun h => h⟩
  · cases h
    exact ⟨rfl, rfl, fun h => h⟩
  · cases h
    exact ⟨rfl, rfl, fun h => h⟩
  · exact derivedDeleteEntries_ok es p q h

theorem derivedModPhase_ok (peripheral : List (String × Yaml)) (p q : XElem)
    (htg : ¬(p.tag = XTag.nm "interrupt")) (hwf : wfInterrupts p = true)
    (h : derivedModPhase peripheral p = .ok q) :
    filterNonInt q.children = filterNonInt p.children ∧ q.tag = p.tag ∧
      wfInterrupts q = true := by
  rw [derivedModPhase] at h
  rcases hI : yIterElems (pyGetD peripheral "_modify" (Yaml.ymap [])) with e | rvs
  · rw [hI] at h
    cases h
  · rw [hI] at h
    dsimp only [] at h
    exact derivedModEntries_ok _ rvs p q htg hwf h

theorem derivedAddPhase_ok (peripheral : List (String × Yaml)) (p q : XElem)
    (h : derivedAddPhase peripheral p = .ok q) :
    filterNonInt q.children = filterNonInt p.children ∧ q.tag = p.tag := by
  rw [derivedAddPhase] at h
  rcases hI : yIterElems (pyGetD peripheral "_add" (Yaml.ymap [])) with e | avs
  · rw [hI] at h
    cases h
  · rw [hI] at h
    dsimp only [] at h
    exact derivedAddEntries_ok _ avs p q h

/-- A derived peripheral whose interrupt element sits nested inside the
registers subtree (schema-invalid placement, but accepted by lxml). -/
def c1Ptag : XElem :=
  XElem.mk (XTag.nm "peripheral") [("derivedFrom", "TIMER0")] none
    [mkTextElem "name" "TIMER1",
     XElem.mk (XTag.nm "registers") [] none
       [XElem.mk (XTag.nm "interrupt") [] none
         [mkTextElem "name" "I", mkTextElem "description" "old"]]]

/-- A patch that only modifies the interrupt named I. -/
def c1Patch : List (String × Yaml) :=
  [("_modify", Yaml.ymap [("_interrupts", Yaml.ymap
      [("I", Yaml.ymap [("description", Yaml.ystr "new")])])])]

/-- What process_peripheral makes of c1Ptag: the registers subtree is
rewritten, because iter("interrupt") descends into it. -/
def c1Out : XElem :=
  XElem.mk (XTag.nm "peripheral") [("derivedFrom", "TIMER0")] none
    [mkTextElem "name" "TIMER1",
     XElem.mk (XTag.nm "registers") [] none
       [XElem.mk (XTag.nm "interrupt") [] none
         [mkTextElem "name" "I",
          XElem.mk (XTag.nm "description") [] (some "new") []]]]

/-- C1 counterexample to the claim as stated: on a derived peripheral the
run succeeds, yet a non-interrupt child of the peripheral (its registers
subtree) has changed, because modify_interrupt walks ptag.iter("interrupt")
and so rewrites an interrupt element nested below registers.  This input
violates the direct-children placement wfInterrupts that the amended
statement assumes. -/
theorem c1_counterexample :
    c1Ptag.hasAttr "derivedFrom" = true ∧
    processDerived c1Patch c1Ptag = .ok c1Out ∧
    ¬(filterNonInt c1Out.children = filterNonInt c1Ptag.children) ∧
    wfInterrupts c1Ptag = false := by
  refine ⟨rfl, rfl, ?_, rfl⟩
  decide

/-- C1 (amended): for every peripheral element that carries a derivedFrom
attribute and whose interrupt elements are all direct children
(wfInterrupts), a successful run of the derived branch of
process_peripheral leaves the non-interrupt children unchanged (in
particular the registers subtree gains and loses nothing), keeps the tag,
and is reproduced exactly by the patch restricted to the _interrupts
sub-directives of _delete, _modify and _add: nothing else runs and the
skipped directives and register-spec keys raise nothing.  The claim as
stated omits the placement condition: modify_interrupt walks the whole
subtree, so an interrupt element nested below registers is rewritten
there (c1_counterexample). -/
theorem c1_derived_peripheral_amended
    (peripheral : List (String × Yaml)) (ptag out : XElem)
    (hda : ptag.hasAttr "derivedFrom" = true)
    (hper : ptag.tag = XTag.nm "peripheral")
    (hwf : wfInterrupts ptag = true)
    (hok : processDerived peripheral ptag = .ok out) :
    filterNonInt out.children = filterNonInt ptag.children ∧ out.tag = ptag.tag ∧
      processDerived (restrictI peripheral) ptag = .ok out := by
  have hres : processDerived (restrictI peripheral) ptag = .ok out :=
    (processDerived_restrict peripheral ptag).trans hok
  rw [processDerived] at hok
  rcases h1 : derivedDeletePhase peripheral ptag with ep | p1
  · rw [h1] at hok
    cases hok
  · rw [h1] at hok
    dsimp only [] at hok
    have d1 := derivedDeletePhase_ok peripheral ptag p1 h1
    have hne1 : ¬(p1.tag = XTag.nm "interrupt") := by
      rw [d1.2.1, hper]
      simp
    rcases h2 : derivedModPhase peripheral p1 with ep | p2
    · rw [h2] at hok
      cases hok
    · rw [h2] at hok
      dsimp only [] at hok
      have d2 := derivedModPhase_ok peripheral p1 p2 hne1 (d1.2.2 hwf) h2
      have d3 := derivedAddPhase_ok peripheral p2 out hok
      exact ⟨d3.1.trans (d2.1.trans d1.1), (d3.2.trans d2.2.1).trans d1.2.1, hres⟩

/-- A well-placed derived peripheral: the interrupt is a direct child. -/
def c1wPtag : XElem :=
  XElem.mk (XTag.nm "peripheral") [("derivedFrom", "TIMER0")] none
    [mkTextElem "name" "TIMER1",
     XElem.mk (XTag.nm "interrupt") [] none
       [mkTextElem "name" "I", mkTextElem "description" "old"]]

/-- The processed form of c1wPtag under c1Patch. -/
def c1wOut : XElem :=
  XElem.mk (XTag.nm "peripheral") [("derivedFrom", "TIMER0")] none
    [mkTextElem "name" "TIMER1",
     XElem.mk (XTag.nm "interrupt") [] none
       [mkTextElem "name" "I",
        XElem.mk (XTag.nm "description") [] (some "new") []]]

/-- The amended C1 instantiated at a concrete well-formed peripheral. -/
theorem c1_derived_peripheral_amended_witness :
    c1wPtag.hasAttr "derivedFrom" = true ∧ c1wPtag.tag = XTag.nm "peripheral" ∧
    wfInterrupts c1wPtag = true ∧ processDerived c1Patch c1wPtag = .ok c1wOut ∧
    (filterNonInt c1wOut.children = filterNonInt c1wPtag.children ∧
      c1wOut.tag = c1wPtag.tag ∧
      processDerived (restrictI c1Patch) c1wPtag = .ok c1wOut) :=
  ⟨rfl, rfl, rfl, rfl,
    c1_derived_peripheral_amended c1Patch c1wPtag c1wOut rfl rfl rfl rfl⟩

/-! ## C5: merge goodness and absorption -/

mutual

/-- Values the claim must exclude: list-valued keys are re-extended on
every rerun, so goodness bans lists outside the reserved keys and asks
mapping keys to be unique (as parsed YAML mappings are). -/
def goodY : Yaml → Bool
  | .ymap es => goodM es
  | .ylist _ => false
  | .ystr _ => true
  | .yint _ => true
  | .ynull => true

def goodM : List (String × Yaml) → Bool
  | [] => true
  | (k, v) :: rest =>
    (if k = "_path" ∨ k = "_include" then true else goodY v) &&
    !((rest.map Prod.fst).contains k) && goodM rest

end

/-- update_dict iterating a string child succeeds exactly when every
character names an existing scalar entry; the parent is untouched. -/
def strSkips (m : List (String × Yaml)) : List Char → Bool
  | [] => true
  | c :: rest =>
    match pyGet m (String.mk [c]) with
    | some (Yaml.ylist _) => false
    | some (Yaml.ymap _) => false
    | some _ => strSkips m rest
    | none => false

/-- Likewise for a list child: string elements name existing scalars. -/
def listSkips (m : List (String × Yaml)) : List Yaml → Bool
  | [] => true
  | (Yaml.ystr k) :: rest =>
    if k = "_path" ∨ k = "_include" then listSkips m rest
    else
      match pyGet m k with
      | some (Yaml.ylist _) => false
      | some (Yaml.ymap _) => false
      | some _ => listSkips m rest
      | none => false
  | _ :: _ => false

mutual

/-- The merged value w absorbs the child value v: merging v into a parent
holding w changes nothing. -/
def absY : Yaml → Yaml → Bool
  | Yaml.ylist _, _ => false
  | Yaml.ymap wm, v => absInto wm v
  | Yaml.ynull, _ => true
  | Yaml.ystr _, _ => true
  | Yaml.yint _, _ => true
  termination_by _ v => (sizeOf v, 1)

/-- The parent mapping wm absorbs the whole child value v. -/
def absInto (wm : List (String × Yaml)) : Yaml → Bool
  | Yaml.ymap es => absEntries wm es
  | Yaml.ystr s => strSkips wm s.toList
  | Yaml.ylist l => listSkips wm l
  | Yaml.yint _ => false
  | Yaml.ynull => false
  termination_by v => (sizeOf v, 0)

/-- Entry-wise absorption: every unreserved child key is present with an
absorbing value. -/
def absEntries (wm : List (String × Yaml)) : List (String × Yaml) → Bool
  | [] => true
  | (k, v) :: rest =>
    (if k = "_path" ∨ k = "_include" then true
     else
       match pyGet wm k with
       | some w => absY w v
       | none => false) && absEntries wm rest
  termination_by l => (sizeOf l, 0)

end

theorem pyGet_cons (k' : String) (v' : Yaml) (rest : List (String × Yaml)) (k : String) :
    pyGet ((k', v') :: rest) k = if (k' == k) = true then some v' else pyGet rest k := by
  by_cases h : (k' == k) = true
  · rw [if_pos h, pyGet]
    simp [List.find?_cons, h]
  · rw [if_neg h, pyGet, pyGet]
    rw [Bool.not_eq_true] at h
    simp [List.find?_cons, h]

theorem pyGet_setKey_eq : ∀ (m : List (String × Yaml)) (k : String) (v : Yaml),
    pyGet (setKey m k v) k = some v
  | [], k, v => by
    rw [setKey, pyGet_cons]
    simp
  | (k', v') :: rest, k, v => by
    rw [setKey]
    by_cases h : k' = k
    · rw [if_pos h, pyGet_cons]
      simp
    · rw [if_neg h, pyGet_cons]
      have hb : ¬((k' == k) = true) := by
        simp [h]
      rw [if_neg hb]
      exact pyGet_setKey_eq rest k v

theorem pyGet_setKey_ne : ∀ (m : List (String × Yaml)) (k' k : String) (v : Yaml),
    ¬(k' = k) → pyGet (setKey m k' v) k = pyGet m k
  | [], k', k, v, hne => by
    rw [setKey, pyGet_cons]
    have hb : ¬((k' == k) = true) := by
      simp [hne]
    rw [if_neg hb, pyGet]
  | (k1, v1) :: rest, k', k, v, hne => by
    rw [setKey]
    by_cases h : k1 = k'
    · rw [if_pos h, pyGet_cons, pyGet_cons, h]
      have hb : ¬((k' == k) = true) := by
        simp [hne]
      rw [if_neg hb, if_neg hb]
    · rw [if_neg h, pyGet_cons, pyGet_cons]
      by_cases h2 : (k1 == k) = true
      · rw [if_pos h2, if_pos h2]
      · rw [if_neg h2, if_neg h2]
        exact pyGet_setKey_ne rest k' k v hne

theorem pyGet_append_some : ∀ (m l : List (String × Yaml)) (k : String) (w : Yaml),
    pyGet m k = some w → pyGet (m ++ l) k = some w
  | [], l, k, w, h => by
    rw [pyGet] at h
    cases h
  | (k1, v1) :: rest, l, k, w, h => by
    rw [pyGet_cons] at h
    rw [List.cons_append, pyGet_cons]
    by_cases h2 : (k1 == k) = true
    · rw [if_pos h2] at h
      rw [if_pos h2]
      exact h
    · rw [if_neg h2] at h
      rw [if_neg h2]
      exact pyGet_append_some rest l k w h

theorem pyGet_append_ne : ∀ (m : List (String × Yaml)) (k2 k : String) (v2 : Yaml),
    ¬(k2 = k) → pyGet (m ++ [(k2, v2)]) k = pyGet m k
  | [], k2, k, v2, hne => by
    rw [List.nil_append, pyGet_cons]
    have hb : ¬((k2 == k) = true) := by
      simp [hne]
    rw [if_neg hb, pyGet]
  | (k1, v1) :: rest, k2, k, v2, hne => by
    rw [List.cons_append, pyGet_cons, pyGet_cons]
    by_cases h2 : (k1 == k) = true
    · rw [if_pos h2, if_pos h2]
    · rw [if_neg h2, if_neg h2]
      exact pyGet_append_ne rest k2 k v2 hne

theorem pyGet_append_self : ∀ (m : List (String × Yaml)) (k : String) (v : Yaml),
    pyGet m k = none → pyGet (m ++ [(k, v)]) k = some v
  | [], k, v, _ => by
    rw [List.nil_append, pyGet_cons]
    simp
  | (k1, v1) :: rest, k, v, h => by
    rw [pyGet_cons] at h
    rw [List.cons_append, pyGet_cons]
    by_cases h2 : (k1 == k) = true
    · rw [if_pos h2] at h
      cases h
    · rw [if_neg h2] at h
      rw [if_neg h2]
      exact pyGet_append_self rest k v h

theorem setKey_self : ∀ (m : List (String × Yaml)) (k : String) (v : Yaml),
    pyGet m k = some v → setKey m k v = m
  | [], k, v, h => by
    rw [pyGet] at h
    cases h
  | (k1, v1) :: rest, k, v, h => by
    rw [pyGet_cons] at h
    rw [setKey]
    by_cases h2 : (k1 == k) = true
    · rw [if_pos h2] at h
      injection h with h3
      have h4 : k1 = k := beq_iff_eq.mp h2
      rw [if_pos h4, h4, h3]
    · rw [if_neg h2] at h
      have h4 : ¬(k1 = k) := by
        intro hx
        exact h2 (beq_iff_eq.mpr hx)
      rw [if_neg h4, setKey_self rest k v h]

theorem pyGet_none_not_contains : ∀ (m : List (String × Yaml)) (k : String),
    pyGet m k = none → ((m.map Prod.fst).contains k) = false
  | [], k, _ => rfl
  | (k1, v1) :: rest, k, h => by
    rw [pyGet_cons] at h
    by_cases h2 : (k1 == k) = true
    · rw [if_pos h2] at h
      cases h
    · rw [if_neg h2] at h
      rw [List.map_cons, List.contains_cons]
      rw [Bool.not_eq_true] at h2
      have h3 : (k == k1) = false := by
        rcases hb : k == k1
        · rfl
        · have h5 := beq_iff_eq.mp hb
          rw [h5, beq_iff_eq.mpr rfl] at h2
          cases h2
      rw [h3]
      simp only [Bool.false_or]
      exact pyGet_none_not_contains rest k h

theorem pyGet_goodM : ∀ (m : List (String × Yaml)), goodM m = true →
    ∀ (k : String) (v : Yaml), (k, v) ∈ m → pyGet m k = some v
  | [], _, k, v, h => by
    cases h
  | (k1, v1) :: rest, hg, k, v, h => by
    rw [goodM, Bool.and_eq_true, Bool.and_eq_true] at hg
    rcases List.mem_cons.mp h with he | hr
    · injection he with he1 he2
      rw [pyGet_cons, he1]
      simp [he2]
    · rw [pyGet_cons]
      have hcf : ((rest.map Prod.fst).contains k1) = false := by
        simpa using hg.1.2
      have hk : ¬((k1 == k) = true) := by
        intro hx
        have hc : ((rest.map Prod.fst).contains k1) = true :=
          List.contains_iff_exists_mem_beq.mpr
            ⟨k, List.mem_map_of_mem Prod.fst hr, hx⟩
        rw [hc] at hcf
        cases hcf
      rw [if_neg hk]
      exact pyGet_goodM rest hg.2 k v hr

theorem updStr_ok : ∀ (m : List (String × Yaml)) (cs : List Char) (q : List (String × Yaml)),
    updStr m cs = .ok q → q = m ∧ strSkips m cs = true
  | m, [], q, h => by
    rw [updStr] at h
    cases h
    exact ⟨rfl, rfl⟩
  | m, c :: rest, q, h => by
    rw [updStr] at h
    rcases hp : pyGet m (String.mk [c]) with _ | w
    · rw [hp] at h
      cases h
    · rw [hp] at h
      rcases w with _ | s | n | l | es
      · dsimp only [] at h
        have ih := updStr_ok m rest q h
        refine ⟨ih.1, ?_⟩
        rw [strSkips, hp]
        exact ih.2
      · dsimp only [] at h
        have ih := updStr_ok m rest q h
        refine ⟨ih.1, ?_⟩
        rw [strSkips, hp]
        exact ih.2
      · dsimp only [] at h
        have ih := updStr_ok m rest q h
        refine ⟨ih.1, ?_⟩
        rw [strSkips, hp]
        exact ih.2
      · dsimp only [] at h
        cases h
      · dsimp only [] at h
        cases h

theorem strSkips_updStr : ∀ (m : List (String × Yaml)) (cs : List Char),
    strSkips m cs = true → updStr m cs = .ok m
  | _, [], _ => rfl
  | m, c :: rest, h => by
    rw [strSkips] at h
    rw [updStr]
    rcases hp : pyGet m (String.mk [c]) with _ | w
    · rw [hp] at h
      cases h
    · rw [hp] at h
      rcases w with _ | s | n | l | es
      · dsimp only [] at h ⊢
        exact strSkips_updStr m rest h
      · dsimp only [] at h ⊢
        exact strSkips_updStr m rest h
      · dsimp only [] at h ⊢
        exact strSkips_updStr m rest h
      · dsimp only [] at h
        cases h
      · dsimp only [] at h
        cases h

theorem updList_ok : ∀ (m : List (String × Yaml)) (l : List Yaml) (q : List (String × Yaml)),
    updList m l = .ok q → q = m ∧ listSkips m l = true
  | m, [], q, h => by
    rw [updList] at h
    cases h
    exact ⟨rfl, rfl⟩
  | m, (Yaml.ystr k) :: rest, q, h => by
    rw [updList] at h
    by_cases hres : k = "_path" ∨ k = "_include"
    · rw [if_pos hres] at h
      have ih := updList_ok m rest q h
      refine ⟨ih.1, ?_⟩
      rw [listSkips, if_pos hres]
      exact ih.2
    · rw [if_neg hres] at h
      rcases hp : pyGet m k with _ | w
      · rw [hp] at h
        cases h
      · rw [hp] at h
        rcases w with _ | s | n | ll | es
        · dsimp only [] at h
          have ih := updList_ok m rest q h
          refine ⟨ih.1, ?_⟩
          rw [listSkips, if_neg hres, hp]
          exact ih.2
        · dsimp only [] at h
          have ih := updList_ok m rest q h
          refine ⟨ih.1, ?_⟩
          rw [listSkips, if_neg hres, hp]
          exact ih.2
        · dsimp only [] at h
          have ih := updList_ok m rest q h
          refine ⟨ih.1, ?_⟩
          rw [listSkips, if_neg hres, hp]
          exact ih.2
        · dsimp only [] at h
          cases h
        · dsimp only [] at h
          cases h
  | m, Yaml.ynull :: rest, q, h => by
    rw [updList] at h
    · cases h
    · intro k hk
      cases hk
  | m, (Yaml.yint n) :: rest, q, h => by
    rw [updList] at h
    · cases h
    · intro k hk
      cases hk
  | m, (Yaml.ylist l2) :: rest, q, h => by
    rw [updList] at h
    · cases h
    · intro k hk
      cases hk
  | m, (Yaml.ymap es) :: rest, q, h => by
    rw [updList] at h
    · cases h
    · intro k hk
      cases hk

theorem listSkips_updList : ∀ (m : List (String × Yaml)) (l : List Yaml),
    listSkips m l = true → updList m l = .ok m
  | _, [], _ => rfl
  | m, (Yaml.ystr k) :: rest, h => by
    rw [listSkips] at h
    rw [updList]
    by_cases hres : k = "_path" ∨ k = "_include"
    · rw [if_pos hres] at h ⊢
      exact listSkips_updList m rest h
    · rw [if_neg hres] at h ⊢
      rcases hp : pyGet m k with _ | w
      · rw [hp] at h
        cases h
      · rw [hp] at h
        rcases w with _ | s | n | ll | es
        · dsimp only [] at h ⊢
          exact listSkips_updList m rest h
        · dsimp only [] at h ⊢
          exact listSkips_updList m rest h
        · dsimp only [] at h ⊢
          exact listSkips_updList m rest h
        · dsimp only [] at h
          cases h
        · dsimp only [] at h
          cases h
  | m, Yaml.ynull :: rest, h => by
    rw [listSkips] at h
    · cases h
    · intro k hk
      cases hk
  | m, (Yaml.yint n) :: rest, h => by
    rw [listSkips] at h
    · cases h
    · intro k hk
      cases hk
  | m, (Yaml.ylist l2) :: rest, h => by
    rw [listSkips] at h
    · cases h
    · intro k hk
      cases hk
  | m, (Yaml.ymap es) :: rest, h => by
    rw [listSkips] at h
    · cases h
    · intro k hk
      cases hk

theorem goodM_cons_mk (k : String) (v : Yaml) (rest : List (String × Yaml))
    (hv : (k = "_path" ∨ k = "_include") ∨ goodY v = true)
    (hnd : ((rest.map Prod.fst).contains k) = false)
    (hr : goodM rest = true) :
    goodM ((k, v) :: rest) = true := by
  rw [goodM, Bool.and_eq_true, Bool.and_eq_true]
  refine ⟨⟨?_, by rw [hnd]; rfl⟩, hr⟩
  rcases hv with hres | hgood
  · rw [if_pos hres]
  · by_cases hres : k = "_path" ∨ k = "_include"
    · rw [if_pos hres]
    · rw [if_neg hres]
      exact hgood

theorem goodM_cons_val (k : String) (v : Yaml) (rest : List (String × Yaml))
    (h : goodM ((k, v) :: rest) = true) (hres : ¬(k = "_path" ∨ k = "_include")) :
    goodY v = true := by
  rw [goodM, Bool.and_eq_true, Bool.and_eq_true] at h
  have h2 := h.1.1
  rw [if_neg hres] at h2
  exact h2

theorem goodM_cons_nodup (k : String) (v : Yaml) (rest : List (String × Yaml))
    (h : goodM ((k, v) :: rest) = true) :
    ((rest.map Prod.fst).contains k) = false := by
  rw [goodM, Bool.and_eq_true, Bool.and_eq_true] at h
  simpa using h.1.2

theorem goodM_cons_rest (k : String) (v : Yaml) (rest : List (String × Yaml))
    (h : goodM ((k, v) :: rest) = true) : goodM rest = true := by
  rw [goodM, Bool.and_eq_true, Bool.and_eq_true] at h
  exact h.2

theorem contains_keys_setKey : ∀ (m : List (String × Yaml)) (k : String) (v : Yaml)
    (k1 : String),
    (((setKey m k v).map Prod.fst).contains k1) =
      (((m.map Prod.fst).contains k1) || (k1 == k))
  | [], k, v, k1 => by
    rw [setKey, List.map_cons, List.map_nil, List.contains_cons]
    rw [show (([] : List String).contains k1) = false from rfl]
    rw [Bool.or_false, Bool.false_or]
  | (k2, v2) :: rest, k, v, k1 => by
    rw [setKey]
    by_cases h : k2 = k
    · rw [if_pos h, h]
      simp [List.contains_cons, Bool.or_assoc, Bool.or_comm]
    · rw [if_neg h]
      rw [List.map_cons, List.map_cons, List.contains_cons, List.contains_cons,
        contains_keys_setKey rest k v k1]
      rw [Bool.or_assoc]

theorem goodSetKey : ∀ (m : List (String × Yaml)) (k : String) (v : Yaml),
    goodM m = true → ((k = "_path" ∨ k = "_include") ∨ goodY v = true) →
    goodM (setKey m k v) = true
  | [], k, v, _, hv => by
    rw [setKey]
    exact goodM_cons_mk k v [] hv rfl rfl
  | (k1, v1) :: rest, k, v, hg, hv => by
    rw [setKey]
    by_cases h : k1 = k
    · rw [if_pos h]
      refine goodM_cons_mk k v rest hv ?_ (goodM_cons_rest k1 v1 rest hg)
      have := goodM_cons_nodup k1 v1 rest hg
      rw [h] at this
      exact this
    · rw [if_neg h]
      refine goodM_cons_mk k1 v1 (setKey rest k v) ?_ ?_ ?_
      · by_cases hres : k1 = "_path" ∨ k1 = "_include"
        · exact Or.inl hres
        · exact Or.inr (goodM_cons_val k1 v1 rest hg hres)
      · rw [contains_keys_setKey rest k v k1, goodM_cons_nodup k1 v1 rest hg]
        have hb : (k1 == k) = false := by
          rcases hb2 : k1 == k
          · rfl
          · exact absurd (beq_iff_eq.mp hb2) h
        rw [hb, Bool.or_self]
      · exact goodSetKey rest k v (goodM_cons_rest k1 v1 rest hg) hv

theorem contains_append_single : ∀ (l : List String) (a k1 : String),
    ((l ++ [a]).contains k1) = (l.contains k1 || (k1 == a))
  | [], a, k1 => by
    rw [List.nil_append, List.contains_cons]
    rw [show (([] : List String).contains k1) = false from rfl]
    rw [Bool.or_false, Bool.false_or]
  | b :: rest, a, k1 => by
    rw [List.cons_append, List.contains_cons, List.contains_cons,
      contains_append_single rest a k1, Bool.or_assoc]

theorem goodM_append : ∀ (m : List (String × Yaml)) (k : String) (v : Yaml),
    goodM m = true → pyGet m k = none →
    ((k = "_path" ∨ k = "_include") ∨ goodY v = true) →
    goodM (m ++ [(k, v)]) = true
  | [], k, v, _, _, hv => by
    rw [List.nil_append]
    exact goodM_cons_mk k v [] hv rfl rfl
  | (k1, v1) :: rest, k, v, hg, hn, hv => by
    rw [pyGet_cons] at hn
    by_cases h2 : (k1 == k) = true
    · rw [if_pos h2] at hn
      cases hn
    · rw [if_neg h2] at hn
      rw [List.cons_append]
      refine goodM_cons_mk k1 v1 (rest ++ [(k, v)]) ?_ ?_ ?_
      · by_cases hres : k1 = "_path" ∨ k1 = "_include"
        · exact Or.inl hres
        · exact Or.inr (goodM_cons_val k1 v1 rest hg hres)
      · rw [List.map_append]
        simp only [List.map_cons, List.map_nil]
        rw [contains_append_single, goodM_cons_nodup k1 v1 rest hg, Bool.false_or]
        rw [Bool.not_eq_true] at h2
        exact h2
      · exact goodM_append rest k v (goodM_cons_rest k1 v1 rest hg) hn hv

/-- Scalar values (in the update_dict sense: neither list nor dict). -/
def isScalarY : Yaml → Bool
  | .ylist _ => false
  | .ymap _ => false
  | .ynull => true
  | .ystr _ => true
  | .yint _ => true

theorem scalPreserve : ∀ (c : List (String × Yaml)) (q q2 : List (String × Yaml))
    (k : String) (w : Yaml),
    updEntries q c = .ok q2 → pyGet q k = some w → isScalarY w = true →
    pyGet q2 k = some w
  | [], q, q2, k, w, h, hp, _ => by
    rw [updEntries] at h
    cases h
    exact hp
  | (k2, v2) :: rest, q, q2, k, w, h, hp, hs => by
    rw [updEntries] at h
    by_cases hres : k2 = "_path" ∨ k2 = "_include"
    · rw [if_pos hres] at h
      exact scalPreserve rest q q2 k w h hp hs
    · rw [if_neg hres] at h
      rcases hg : pyGet q k2 with _ | w2
      · rw [hg] at h
        dsimp only [] at h
        exact scalPreserve rest (q ++ [(k2, v2)]) q2 k w h
          (pyGet_append_some q [(k2, v2)] k w hp) hs
      · rw [hg] at h
        rcases w2 with _ | s | n | pl | pm
        · dsimp only [] at h
          exact scalPreserve rest q q2 k w h hp hs
        · dsimp only [] at h
          exact scalPreserve rest q q2 k w h hp hs
        · dsimp only [] at h
          exact scalPreserve rest q q2 k w h hp hs
        · dsimp only [] at h
          rcases hi : yIterElems v2 with e | items
          · rw [hi] at h
            cases h
          · rw [hi] at h
            dsimp only [] at h
            have hne : ¬(k2 = k) := by
              intro hx
              rw [hx, hp] at hg
              injection hg with hg2
              rw [hg2] at hs
              cases hs
            refine scalPreserve rest _ q2 k w h ?_ hs
            rw [pyGet_setKey_ne q k2 k _ hne]
            exact hp
        · dsimp only [] at h
          rcases hu : updateDict pm v2 with e | pm2
          · rw [hu] at h
            cases h
          · rw [hu] at h
            dsimp only [] at h
            have hne : ¬(k2 = k) := by
              intro hx
              rw [hx, hp] at hg
              injection hg with hg2
              rw [hg2] at hs
              cases hs
            refine scalPreserve rest _ q2 k w h ?_ hs
            rw [pyGet_setKey_ne q k2 k _ hne]
            exact hp

theorem rsvPreserve : ∀ (c : List (String × Yaml)) (q q2 : List (String × Yaml))
    (r : String),
    updEntries q c = .ok q2 → (r = "_path" ∨ r = "_include") →
    pyGet q2 r = pyGet q r
  | [], q, q2, r, h, _ => by
    rw [updEntries] at h
    cases h
    rfl
  | (k2, v2) :: rest, q, q2, r, h, hr => by
    rw [updEntries] at h
    by_cases hres : k2 = "_path" ∨ k2 = "_include"
    · rw [if_pos hres] at h
      exact rsvPreserve rest q q2 r h hr
    · rw [if_neg hres] at h
      have hne : ¬(k2 = r) := by
        intro hx
        rw [hx] at hres
        exact hres hr
      rcases hg : pyGet q k2 with _ | w2
      · rw [hg] at h
        dsimp only [] at h
        rw [rsvPreserve rest _ q2 r h hr]
        exact pyGet_append_ne q k2 r v2 hne
      · rw [hg] at h
        rcases w2 with _ | s | n | pl | pm
        · dsimp only [] at h
          exact rsvPreserve rest q q2 r h hr
        · dsimp only [] at h
          exact rsvPreserve rest q q2 r h hr
        · dsimp only [] at h
          exact rsvPreserve rest q q2 r h hr
        · dsimp only [] at h
          rcases hi : yIterElems v2 with e | items
          · rw [hi] at h
            cases h
          · rw [hi] at h
            dsimp only [] at h
            rw [rsvPreserve rest _ q2 r h hr]
            exact pyGet_setKey_ne q k2 r _ hne
        · dsimp only [] at h
          rcases hu : updateDict pm v2 with e | pm2
          · rw [hu] at h
            cases h
          · rw [hu] at h
            dsimp only [] at h
            rw [rsvPreserve rest _ q2 r h hr]
            exact pyGet_setKey_ne q k2 r _ hne

theorem persistStr : ∀ (cs : List Char) (m c m2 : List (String × Yaml)),
    strSkips m cs = true → updEntries m c = .ok m2 → strSkips m2 cs = true
  | [], _, _, _, _, _ => rfl
  | ch :: rest, m, c, m2, h, hu => by
    rw [strSkips] at h
    rw [strSkips]
    rcases hp : pyGet m (String.mk [ch]) with _ | w
    · rw [hp] at h
      cases h
    · rw [hp] at h
      rcases w with _ | s | n | pl | pm
      · dsimp only [] at h
        rw [scalPreserve c m m2 (String.mk [ch]) Yaml.ynull hu hp rfl]
        exact persistStr rest m c m2 h hu
      · dsimp only [] at h
        rw [scalPreserve c m m2 (String.mk [ch]) (Yaml.ystr s) hu hp rfl]
        exact persistStr rest m c m2 h hu
      · dsimp only [] at h
        rw [scalPreserve c m m2 (String.mk [ch]) (Yaml.yint n) hu hp rfl]
        exact persistStr rest m c m2 h hu
      · dsimp only [] at h
        cases h
      · dsimp only [] at h
        cases h

theorem persistList : ∀ (l : List Yaml) (m c m2 : List (String × Yaml)),
    listSkips m l = true → updEntries m c = .ok m2 → listSkips m2 l = true
  | [], _, _, _, _, _ => rfl
  | (Yaml.ystr k) :: rest, m, c, m2, h, hu => by
    rw [listSkips] at h
    rw [listSkips]
    by_cases hres : k = "_path" ∨ k = "_include"
    · rw [if_pos hres] at h ⊢
      exact persistList rest m c m2 h hu
    · rw [if_neg hres] at h ⊢
      rcases hp : pyGet m k with _ | w
      · rw [hp] at h
        cases h
      · rw [hp] at h
        rcases w with _ | s | n | pl | pm
        · dsimp only [] at h
          rw [scalPreserve c m m2 k Yaml.ynull hu hp rfl]
          exact persistList rest m c m2 h hu
        · dsimp only [] at h
          rw [scalPreserve c m m2 k (Yaml.ystr s) hu hp rfl]
          exact persistList rest m c m2 h hu
        · dsimp only [] at h
          rw [scalPreserve c m m2 k (Yaml.yint n) hu hp rfl]
          exact persistList rest m c m2 h hu
        · dsimp only [] at h
          cases h
        · dsimp only [] at h
          cases h
  | Yaml.ynull :: rest, m, c, m2, h, hu => by
    rw [listSkips] at h
    · cases h
    · intro k hk
      cases hk
  | (Yaml.yint n) :: rest, m, c, m2, h, hu => by
    rw [listSkips] at h
    · cases h
    · intro k hk
      cases hk
  | (Yaml.ylist l2) :: rest, m, c, m2, h, hu => by
    rw [listSkips] at h
    · cases h
    · intro k hk
      cases hk
  | (Yaml.ymap es) :: rest, m, c, m2, h, hu => by
    rw [listSkips] at h
    · cases h
    · intro k hk
      cases hk

mutual

/-- Absorption at one key persists through merging another child. -/
theorem persistKey : ∀ (v : Yaml) (c2 : List (String × Yaml))
    (q q2 : List (String × Yaml)) (k : String) (w : Yaml),
    pyGet q k = some w → absY w v = true → updEntries q c2 = .ok q2 →
    ∃ w2, pyGet q2 k = some w2 ∧ absY w2 v = true
  | v, [], q, q2, k, w, hp, ha, h => by
    rw [updEntries] at h
    cases h
    exact ⟨w, hp, ha⟩
  | v, (k2, v2) :: rest, q, q2, k, w, hp, ha, h => by
    rw [updEntries] at h
    by_cases hres : k2 = "_path" ∨ k2 = "_include"
    · rw [if_pos hres] at h
      exact persistKey v rest q q2 k w hp ha h
    · rw [if_neg hres] at h
      rcases hg : pyGet q k2 with _ | w2
      · rw [hg] at h
        dsimp only [] at h
        exact persistKey v rest _ q2 k w (pyGet_append_some q [(k2, v2)] k w hp) ha h
      · rw [hg] at h
        rcases w2 with _ | s | n | pl | pm
        · dsimp only [] at h
          exact persistKey v rest q q2 k w hp ha h
        · dsimp only [] at h
          exact persistKey v rest q q2 k w hp ha h
        · dsimp only [] at h
          exact persistKey v rest q q2 k w hp ha h
        · dsimp only [] at h
          rcases hi : yIterElems v2 with e | items
          · rw [hi] at h
            cases h
          · rw [hi] at h
            dsimp only [] at h
            have hne : ¬(k2 = k) := by
              intro hx
              rw [hx, hp] at hg
              injection hg with hg2
              rw [hg2, absY] at ha
              cases ha
            refine persistKey v rest _ q2 k w ?_ ha h
            rw [pyGet_setKey_ne q k2 k _ hne]
            exact hp
        · dsimp only [] at h
          rcases hu : updateDict pm v2 with e | pm2
          · rw [hu] at h
            cases h
          · rw [hu] at h
            dsimp only [] at h
            by_cases hk : k2 = k
            · rw [hk, hp] at hg
              injection hg with hg2
              rw [hg2, absY] at ha
              have hInto : absInto pm2 v = true := persistDictStep v v2 pm pm2 ha hu
              refine persistKey v rest _ q2 k (Yaml.ymap pm2) ?_ ?_ h
              · rw [hk]
                exact pyGet_setKey_eq q k (Yaml.ymap pm2)
              · rw [absY]
                exact hInto
            · refine persistKey v rest _ q2 k w ?_ ha h
              rw [pyGet_setKey_ne q k2 k _ hk]
              exact hp
  termination_by v c2 => (sizeOf v, sizeOf c2)

/-- One update_dict call on an absorbing mapping keeps it absorbing. -/
theorem persistDictStep : ∀ (v v2 : Yaml) (pm pm2 : List (String × Yaml)),
    absInto pm v = true → updateDict pm v2 = .ok pm2 → absInto pm2 v = true
  | _, Yaml.ynull, pm, pm2, _, hu => by
    rw [updateDict] at hu
    cases hu
  | v, Yaml.ystr s2, pm, pm2, ha, hu => by
    rw [updateDict] at hu
    rw [(updStr_ok pm _ pm2 hu).1]
    exact ha
  | _, Yaml.yint n2, pm, pm2, _, hu => by
    rw [updateDict] at hu
    cases hu
  | v, Yaml.ylist l2, pm, pm2, ha, hu => by
    rw [updateDict] at hu
    rw [(updList_ok pm _ pm2 hu).1]
    exact ha
  | v, Yaml.ymap es2, pm, pm2, ha, hu => by
    rw [updateDict] at hu
    exact persistInto v es2 pm pm2 ha hu
  termination_by v v2 => (sizeOf v, sizeOf v2)

/-- A mapping that absorbs v keeps absorbing it after another merge. -/
theorem persistInto : ∀ (v : Yaml) (c2 wm wm2 : List (String × Yaml)),
    absInto wm v = true → updEntries wm c2 = .ok wm2 → absInto wm2 v = true
  | Yaml.ynull, _, _, _, ha, _ => by
    rw [absInto] at ha
    cases ha
  | Yaml.ystr s, c2, wm, wm2, ha, h => by
    rw [absInto] at ha ⊢
    exact persistStr s.toList wm c2 wm2 ha h
  | Yaml.yint n, _, _, _, ha, _ => by
    rw [absInto] at ha
    cases ha
  | Yaml.ylist l, c2, wm, wm2, ha, h => by
    rw [absInto] at ha ⊢
    exact persistList l wm c2 wm2 ha h
  | Yaml.ymap es, c2, wm, wm2, ha, h => by
    rw [absInto] at ha ⊢
    exact persistEntries es c2 wm wm2 ha h
  termination_by v c2 => (sizeOf v, sizeOf c2)

/-- Entry-wise absorption persists through merging another child. -/
theorem persistEntries : ∀ (es : List (String × Yaml)) (c2 : List (String × Yaml))
    (q q2 : List (String × Yaml)),
    absEntries q es = true → updEntries q c2 = .ok q2 → absEntries q2 es = true
  | [], _, _, q2, _, _ => by
    rw [absEntries]
  | (k3, v3) :: rest, c2, q, q2, ha, h => by
    rw [absEntries] at ha ⊢
    rw [Bool.and_eq_true] at ha
    rw [Bool.and_eq_true]
    refine ⟨?_, persistEntries rest c2 q q2 ha.2 h⟩
    by_cases hres : k3 = "_path" ∨ k3 = "_include"
    · rw [if_pos hres]
    · rw [if_neg hres]
      have ha1 := ha.1
      rw [if_neg hres] at ha1
      rcases hg : pyGet q k3 with _ | w
      · rw [hg] at ha1
        cases ha1
      · rw [hg] at ha1
        dsimp only [] at ha1
        obtain ⟨w2, hw2, ha2⟩ := persistKey v3 c2 q q2 k3 w hg ha1 h
        rw [hw2]
        dsimp only []
        exact ha2
  termination_by es c2 => (sizeOf es, sizeOf c2)

end

theorem pyGet_good : ∀ (m : List (String × Yaml)) (k : String) (w : Yaml),
    goodM m = true → pyGet m k = some w → ¬(k = "_path" ∨ k = "_include") →
    goodY w = true
  | [], k, w, _, hp, _ => by
    rw [pyGet] at hp
    cases hp
  | (k1, v1) :: rest, k, w, hg, hp, hres => by
    rw [pyGet_cons] at hp
    by_cases h2 : (k1 == k) = true
    · rw [if_pos h2] at hp
      injection hp with hp2
      have hk : k1 = k := beq_iff_eq.mp h2
      have hres1 : ¬(k1 = "_path" ∨ k1 = "_include") := by
        rw [hk]
        exact hres
      rw [← hp2]
      exact goodM_cons_val k1 v1 rest hg hres1
    · rw [if_neg h2] at hp
      exact pyGet_good rest k w (goodM_cons_rest k1 v1 rest hg) hp hres

mutual

/-- A good value absorbs itself. -/
theorem selfAbsY : ∀ (v : Yaml), goodY v = true → absY v v = true
  | Yaml.ynull, _ => by
    rw [absY]
  | Yaml.ystr s, _ => by
    rw [absY]
  | Yaml.yint n, _ => by
    rw [absY]
  | Yaml.ylist l, hg => by
    rw [goodY] at hg
    cases hg
  | Yaml.ymap es, hg => by
    rw [goodY] at hg
    rw [absY, absInto]
    exact selfAbsM es es hg (fun e he => he) hg
  termination_by v => sizeOf v

/-- A good mapping absorbs any sub-collection of its own entries. -/
theorem selfAbsM : ∀ (es full : List (String × Yaml)), goodM full = true →
    (∀ e ∈ es, e ∈ full) → goodM es = true → absEntries full es = true
  | [], full, _, _, _ => by
    rw [absEntries]
  | (k3, v3) :: rest, full, hgf, hsub, hge => by
    rw [absEntries, Bool.and_eq_true]
    refine ⟨?_, selfAbsM rest full hgf
      (fun e he => hsub e (List.mem_cons_of_mem _ he)) (goodM_cons_rest k3 v3 rest hge)⟩
    by_cases hres : k3 = "_path" ∨ k3 = "_include"
    · rw [if_pos hres]
    · rw [if_neg hres]
      have hp := pyGet_goodM full hgf k3 v3 (hsub _ (List.mem_cons_self _ _))
      rw [hp]
      dsimp only []
      exact selfAbsY v3 (goodM_cons_val k3 v3 rest hge hres)
  termination_by es _ => sizeOf es

end

mutual

/-- Merging a good child into a good parent keeps the parent good. -/
theorem goodPreserveE : ∀ (c : List (String × Yaml)) (q q2 : List (String × Yaml)),
    goodM q = true → goodM c = true → updEntries q c = .ok q2 → goodM q2 = true
  | [], q, q2, hq, _, h => by
    rw [updEntries] at h
    cases h
    exact hq
  | (k2, v2) :: rest, q, q2, hq, hc, h => by
    rw [updEntries] at h
    by_cases hres : k2 = "_path" ∨ k2 = "_include"
    · rw [if_pos hres] at h
      exact goodPreserveE rest q q2 hq (goodM_cons_rest _ _ _ hc) h
    · rw [if_neg hres] at h
      rcases hg : pyGet q k2 with _ | w2
      · rw [hg] at h
        dsimp only [] at h
        refine goodPreserveE rest _ q2 ?_ (goodM_cons_rest _ _ _ hc) h
        exact goodM_append q k2 v2 hq hg (Or.inr (goodM_cons_val _ _ _ hc hres))
      · rw [hg] at h
        rcases w2 with _ | s | n | pl | pm
        · dsimp only [] at h
          exact goodPreserveE rest q q2 hq (goodM_cons_rest _ _ _ hc) h
        · dsimp only [] at h
          exact goodPreserveE rest q q2 hq (goodM_cons_rest _ _ _ hc) h
        · dsimp only [] at h
          exact goodPreserveE rest q q2 hq (goodM_cons_rest _ _ _ hc) h
        · have hb := pyGet_good q k2 (Yaml.ylist pl) hq hg hres
          rw [goodY] at hb
          cases hb
        · dsimp only [] at h
          rcases hu : updateDict pm v2 with e | pm2
          · rw [hu] at h
            cases h
          · rw [hu] at h
            dsimp only [] at h
            have hgpm : goodM pm = true := by
              have hb := pyGet_good q k2 (Yaml.ymap pm) hq hg hres
              rw [goodY] at hb
              exact hb
            refine goodPreserveE rest _ q2 ?_ (goodM_cons_rest _ _ _ hc) h
            refine goodSetKey q k2 (Yaml.ymap pm2) hq (Or.inr ?_)
            rw [goodY]
            exact goodPreserveD v2 pm pm2 hgpm (goodM_cons_val _ _ _ hc hres) hu
  termination_by c => sizeOf c

/-- One update_dict call with a good child value preserves goodness. -/
theorem goodPreserveD : ∀ (v2 : Yaml) (pm pm2 : List (String × Yaml)),
    goodM pm = true → goodY v2 = true → updateDict pm v2 = .ok pm2 → goodM pm2 = true
  | Yaml.ynull, pm, pm2, _, _, hu => by
    rw [updateDict] at hu
    cases hu
  | Yaml.ystr s, pm, pm2, hpm, _, hu => by
    rw [updateDict] at hu
    rw [(updStr_ok pm _ pm2 hu).1]
    exact hpm
  | Yaml.yint n, pm, pm2, _, _, hu => by
    rw [updateDict] at hu
    cases hu
  | Yaml.ylist l, pm, pm2, _, hv, _ => by
    rw [goodY] at hv
    cases hv
  | Yaml.ymap es2, pm, pm2, hpm, hv, hu => by
    rw [updateDict] at hu
    rw [goodY] at hv
    exact goodPreserveE es2 pm pm2 hpm hv hu
  termination_by v2 => sizeOf v2

end

mutual

/-- A successful merge of a good child into a good parent leaves the
parent absorbing the child: the first run establishes absorption. -/
theorem estEntries : ∀ (c : List (String × Yaml)) (q q2 : List (String × Yaml)),
    goodM q = true → goodM c = true → updEntries q c = .ok q2 →
    absEntries q2 c = true
  | [], _, q2, _, _, _ => by
    rw [absEntries]
  | (k2, v2) :: rest, q, q2, hq, hc, h => by
    rw [updEntries] at h
    rw [absEntries, Bool.and_eq_true]
    by_cases hres : k2 = "_path" ∨ k2 = "_include"
    · rw [if_pos hres] at h
      exact ⟨by rw [if_pos hres], estEntries rest q q2 hq (goodM_cons_rest _ _ _ hc) h⟩
    · rw [if_neg hres] at h
      rcases hg : pyGet q k2 with _ | w2
      · rw [hg] at h
        dsimp only [] at h
        have hgv2 : goodY v2 = true := goodM_cons_val _ _ _ hc hres
        have hq2 : goodM (q ++ [(k2, v2)]) = true :=
          goodM_append q k2 v2 hq hg (Or.inr hgv2)
        obtain ⟨w2, hw2, ha2⟩ := persistKey v2 rest _ q2 k2 v2
          (pyGet_append_self q k2 v2 hg) (selfAbsY v2 hgv2) h
        refine ⟨?_, estEntries rest _ q2 hq2 (goodM_cons_rest _ _ _ hc) h⟩
        rw [if_neg hres, hw2]
        dsimp only []
        exact ha2
      · rw [hg] at h
        rcases w2 with _ | s | n | pl | pm
        · dsimp only [] at h
          refine ⟨?_, estEntries rest q q2 hq (goodM_cons_rest _ _ _ hc) h⟩
          rw [if_neg hres, scalPreserve rest q q2 k2 Yaml.ynull h hg rfl]
          dsimp only []
          rw [absY]
        · dsimp only [] at h
          refine ⟨?_, estEntries rest q q2 hq (goodM_cons_rest _ _ _ hc) h⟩
          rw [if_neg hres, scalPreserve rest q q2 k2 (Yaml.ystr s) h hg rfl]
          dsimp only []
          rw [absY]
        · dsimp only [] at h
          refine ⟨?_, estEntries rest q q2 hq (goodM_cons_rest _ _ _ hc) h⟩
          rw [if_neg hres, scalPreserve rest q q2 k2 (Yaml.yint n) h hg rfl]
          dsimp only []
          rw [absY]
        · have hb := pyGet_good q k2 (Yaml.ylist pl) hq hg hres
          rw [goodY] at hb
          cases hb
        · dsimp only [] at h
          rcases hu : updateDict pm v2 with e | pm2
          · rw [hu] at h
            cases h
          · rw [hu] at h
            dsimp only [] at h
            have hgpm : goodM pm = true := by
              have hb := pyGet_good q k2 (Yaml.ymap pm) hq hg hres
              rw [goodY] at hb
              exact hb
            have hgv2 : goodY v2 = true := goodM_cons_val _ _ _ hc hres
            have hq2 : goodM (setKey q k2 (Yaml.ymap pm2)) = true := by
              refine goodSetKey q k2 (Yaml.ymap pm2) hq (Or.inr ?_)
              rw [goodY]
              exact goodPreserveD v2 pm pm2 hgpm hgv2 hu
            have habs0 : absY (Yaml.ymap pm2) v2 = true := by
              rw [absY]
              exact estInto v2 pm pm2 hgpm hgv2 hu
            obtain ⟨w2, hw2, ha2⟩ := persistKey v2 rest _ q2 k2 (Yaml.ymap pm2)
              (pyGet_setKey_eq q k2 (Yaml.ymap pm2)) habs0 h
            refine ⟨?_, estEntries rest _ q2 hq2 (goodM_cons_rest _ _ _ hc) h⟩
            rw [if_neg hres, hw2]
            dsimp only []
            exact ha2
  termination_by c => sizeOf c

/-- One successful update_dict call leaves the result absorbing the
child value. -/
theorem estInto : ∀ (v2 : Yaml) (pm pm2 : List (String × Yaml)),
    goodM pm = true → goodY v2 = true → updateDict pm v2 = .ok pm2 →
    absInto pm2 v2 = true
  | Yaml.ynull, pm, pm2, _, _, hu => by
    rw [updateDict] at hu
    cases hu
  | Yaml.ystr s, pm, pm2, _, _, hu => by
    rw [updateDict] at hu
    have hh := updStr_ok pm _ pm2 hu
    rw [absInto, hh.1]
    exact hh.2
  | Yaml.yint n, pm, pm2, _, _, hu => by
    rw [updateDict] at hu
    cases hu
  | Yaml.ylist l, pm, pm2, _, hv, _ => by
    rw [goodY] at hv
    cases hv
  | Yaml.ymap es2, pm, pm2, hpm, hv, hu => by
    rw [updateDict] at hu
    rw [goodY] at hv
    rw [absInto]
    exact estEntries es2 pm pm2 hpm hv hu
  termination_by v2 => sizeOf v2

end

mutual

/-- Merging an absorbed child is the identity on the parent. -/
theorem absSoundE : ∀ (c : List (String × Yaml)) (q : List (String × Yaml)),
    absEntries q c = true → updEntries q c = .ok q
  | [], q, _ => by
    rw [updEntries]
  | (k2, v2) :: rest, q, ha => by
    rw [absEntries, Bool.and_eq_true] at ha
    rw [updEntries]
    by_cases hres : k2 = "_path" ∨ k2 = "_include"
    · rw [if_pos hres]
      exact absSoundE rest q ha.2
    · rw [if_neg hres]
      have ha1 := ha.1
      rw [if_neg hres] at ha1
      rcases hg : pyGet q k2 with _ | w
      · rw [hg] at ha1
        cases ha1
      · rw [hg] at ha1
        dsimp only [] at ha1
        rcases w with _ | s | n | pl | pm
        · dsimp only []
          exact absSoundE rest q ha.2
        · dsimp only []
          exact absSoundE rest q ha.2
        · dsimp only []
          exact absSoundE rest q ha.2
        · rw [absY] at ha1
          cases ha1
        · rw [absY] at ha1
          dsimp only []
          rw [absSoundD v2 pm ha1]
          dsimp only []
          rw [setKey_self q k2 (Yaml.ymap pm) hg]
          exact absSoundE rest q ha.2
  termination_by c => sizeOf c

/-- update_dict of an absorbed child value is the identity. -/
theorem absSoundD : ∀ (v2 : Yaml) (pm : List (String × Yaml)),
    absInto pm v2 = true → updateDict pm v2 = .ok pm
  | Yaml.ynull, pm, ha => by
    rw [absInto] at ha
    cases ha
  | Yaml.ystr s, pm, ha => by
    rw [absInto] at ha
    rw [updateDict]
    exact strSkips_updStr pm _ ha
  | Yaml.yint n, pm, ha => by
    rw [absInto] at ha
    cases ha
  | Yaml.ylist l, pm, ha => by
    rw [absInto] at ha
    rw [updateDict]
    exact listSkips_updList pm l ha
  | Yaml.ymap es, pm, ha => by
    rw [absInto] at ha
    rw [updateDict]
    exact absSoundE es pm ha
  termination_by v2 => sizeOf v2

end

/-- Inversion of one successful yiLoop step. -/
theorem yiLoop_inv (fs : String → Option Yaml) (resolve : String → String → String)
    (fuel : Nat) (rv : Yaml) (rest : List Yaml) (parent : List (String × Yaml))
    (included : List String) (doc : List (String × Yaml)) (inc : List String)
    (h : yiLoop fs resolve (fuel + 1) (rv :: rest) parent included = .ok (doc, inc)) :
    ∃ rel ppath, rv = Yaml.ystr rel ∧ pyGet parent "_path" = some (Yaml.ystr ppath) ∧
      ((included.contains (resolve ppath rel) = true ∧
        yiLoop fs resolve fuel rest parent included = .ok (doc, inc)) ∨
       (included.contains (resolve ppath rel) = false ∧
        ∃ child0 child2 included2 child3 inc3 parent2,
          fs (resolve ppath rel) = some (Yaml.ymap child0) ∧
          yiPeriphLoop fs resolve fuel (resolve ppath rel)
              ((setKey child0 "_path" (Yaml.ystr (resolve ppath rel))).map (fun e => e.1))
              (setKey child0 "_path" (Yaml.ystr (resolve ppath rel)))
              (included ++ [resolve ppath rel]) = .ok (child2, included2) ∧
          yamlIncludes fs resolve fuel child2 = .ok (child3, inc3) ∧
          updateDict parent (Yaml.ymap child3) = .ok parent2 ∧
          yiLoop fs resolve fuel rest parent2 (included2 ++ inc3) = .ok (doc, inc))) := by
  rcases rv with _ | rel | n | l | es
  · rw [yiLoop] at h
    · cases h
    · intro s hk
      cases hk
  · rw [yiLoop] at h
    dsimp only [] at h
    rcases hpp : pyGet parent "_path" with _ | w
    · rw [hpp] at h
      dsimp only [] at h
      cases h
    · rw [hpp] at h
      rcases w with _ | ppath | n2 | l2 | es2
      · dsimp only [] at h
        cases h
      · dsimp only [] at h
        by_cases hcon : included.contains (resolve ppath rel) = true
        · rw [if_pos hcon] at h
          exact ⟨rel, ppath, rfl, rfl, Or.inl ⟨hcon, h⟩⟩
        · rw [if_neg hcon] at h
          rw [Bool.not_eq_true] at hcon
          rcases hf : fs (resolve ppath rel) with _ | y
          · rw [hf] at h
            cases h
          · rw [hf] at h
            rcases y with _ | s3 | n3 | l3 | child0
            · dsimp only [] at h
              cases h
            · dsimp only [] at h
              cases h
            · dsimp only [] at h
              cases h
            · dsimp only [] at h
              cases h
            · dsimp only [] at h
              rcases hB : yiPeriphLoop fs resolve fuel (resolve ppath rel)
                  ((setKey child0 "_path" (Yaml.ystr (resolve ppath rel))).map (fun e => e.1))
                  (setKey child0 "_path" (Yaml.ystr (resolve ppath rel)))
                  (included ++ [resolve ppath rel]) with e | pr
              · rw [hB] at h
                cases h
              · rw [hB] at h
                dsimp only [] at h
                rcases pr with ⟨child2, included2⟩
                rcases hC : yamlIncludes fs resolve fuel child2 with e | pr2
                · rw [hC] at h
                  cases h
                · rw [hC] at h
                  dsimp only [] at h
                  rcases pr2 with ⟨child3, inc3⟩
                  rcases hD : updateDict parent (Yaml.ymap child3) with e | parent2
                  · rw [hD] at h
                    cases h
                  · rw [hD] at h
                    dsimp only [] at h
                    exact ⟨rel, ppath, rfl, rfl, Or.inr ⟨hcon,
                      child0, child2, included2, child3, inc3, parent2,
                      hf, hB, hC, hD, h⟩⟩
      · dsimp only [] at h
        cases h
      · dsimp only [] at h
        cases h
      · dsimp only [] at h
        cases h
  · rw [yiLoop] at h
    · cases h
    · intro s hk
      cases hk
  · rw [yiLoop] at h
    · cases h
    · intro s hk
      cases hk
  · rw [yiLoop] at h
    · cases h
    · intro s hk
      cases hk

/-- Forward construction of a skipped (already-included) yiLoop step. -/
theorem yiLoop_step_skip (fs : String → Option Yaml) (resolve : String → String → String)
    (fuel : Nat) (rel : String) (rest : List Yaml) (parent : List (String × Yaml))
    (included : List String) (res : List (String × Yaml) × List String) (ppath : String)
    (hpp : pyGet parent "_path" = some (Yaml.ystr ppath))
    (hcon : included.contains (resolve ppath rel) = true)
    (htail : yiLoop fs resolve fuel rest parent included = .ok res) :
    yiLoop fs resolve (fuel + 1) (Yaml.ystr rel :: rest) parent included = .ok res := by
  rw [yiLoop, hpp]
  dsimp only []
  rw [if_pos hcon]
  exact htail

/-- Forward construction of a loading yiLoop step. -/
theorem yiLoop_step_go (fs : String → Option Yaml) (resolve : String → String → String)
    (fuel : Nat) (rel : String) (rest : List Yaml) (parent : List (String × Yaml))
    (included : List String) (res : List (String × Yaml) × List String) (ppath : String)
    (child0 child2 : List (String × Yaml)) (included2 : List String)
    (child3 : List (String × Yaml)) (inc3 : List String) (parent2 : List (String × Yaml))
    (hpp : pyGet parent "_path" = some (Yaml.ystr ppath))
    (hcon : included.contains (resolve ppath rel) = false)
    (hf : fs (resolve ppath rel) = some (Yaml.ymap child0))
    (hB : yiPeriphLoop fs resolve fuel (resolve ppath rel)
        ((setKey child0 "_path" (Yaml.ystr (resolve ppath rel))).map (fun e => e.1))
        (setKey child0 "_path" (Yaml.ystr (resolve ppath rel)))
        (included ++ [resolve ppath rel]) = .ok (child2, included2))
    (hC : yamlIncludes fs resolve fuel child2 = .ok (child3, inc3))
    (hD : updateDict parent (Yaml.ymap child3) = .ok parent2)
    (htail : yiLoop fs resolve fuel rest parent2 (included2 ++ inc3) = .ok res) :
    yiLoop fs resolve (fuel + 1) (Yaml.ystr rel :: rest) parent included = .ok res := by
  have hcon2 : ¬(included.contains (resolve ppath rel) = true) := by
    intro hx
    rw [hcon] at hx
    cases hx
  rw [yiLoop, hpp]
  dsimp only []
  rw [if_neg hcon2, hf]
  dsimp only []
  rw [hB]
  dsimp only []
  rw [hC]
  dsimp only []
  rw [hD]
  dsimp only []
  exact htail

/-- The include loop never changes _path or _include of the document. -/
theorem rsvL (fs : String → Option Yaml) (resolve : String → String → String) :
    ∀ (fuel : Nat) (rels : List Yaml) (parent : List (String × Yaml))
      (included : List String) (doc : List (String × Yaml)) (inc : List String)
      (r : String),
    yiLoop fs resolve fuel rels parent included = .ok (doc, inc) →
    (r = "_path" ∨ r = "_include") → pyGet doc r = pyGet parent r
  | fuel, [], parent, included, doc, inc, r, h, _ => by
    rw [yiLoop] at h
    cases h
    rfl
  | 0, rv :: rest, _, _, _, _, r, h, _ => by
    rw [yiLoop] at h
    cases h
  | fuel + 1, rv :: rest, parent, included, doc, inc, r, h, hr => by
    obtain ⟨rel, ppath, hrv, hpp, hcase⟩ :=
      yiLoop_inv fs resolve fuel rv rest parent included doc inc h
    rcases hcase with ⟨hcon, htail⟩ |
      ⟨hcon, child0, child2, included2, child3, inc3, parent2, hf, hB, hC, hD, htail⟩
    · exact rsvL fs resolve fuel rest parent included doc inc r htail hr
    · rw [rsvL fs resolve fuel rest parent2 (included2 ++ inc3) doc inc r htail hr]
      rw [updateDict] at hD
      exact rsvPreserve child3 parent parent2 r hD hr

/-- Absorption persists through the include loop. -/
theorem pL (fs : String → Option Yaml) (resolve : String → String → String) :
    ∀ (fuel : Nat) (rels : List Yaml) (parent : List (String × Yaml))
      (included : List String) (doc : List (String × Yaml)) (inc : List String)
      (c : List (String × Yaml)),
    yiLoop fs resolve fuel rels parent included = .ok (doc, inc) →
    absEntries parent c = true → absEntries doc c = true
  | fuel, [], parent, included, doc, inc, c, h, ha => by
    rw [yiLoop] at h
    cases h
    exact ha
  | 0, rv :: rest, _, _, _, _, c, h, _ => by
    rw [yiLoop] at h
    cases h
  | fuel + 1, rv :: rest, parent, included, doc, inc, c, h, ha => by
    obtain ⟨rel, ppath, hrv, hpp, hcase⟩ :=
      yiLoop_inv fs resolve fuel rv rest parent included doc inc h
    rcases hcase with ⟨hcon, htail⟩ |
      ⟨hcon, child0, child2, included2, child3, inc3, parent2, hf, hB, hC, hD, htail⟩
    · exact pL fs resolve fuel rest parent included doc inc c htail ha
    · refine pL fs resolve fuel rest parent2 (included2 ++ inc3) doc inc c htail ?_
      rw [updateDict] at hD
      exact persistEntries c child3 parent parent2 ha hD

mutual

/-- yaml_includes keeps the document good when every file is good. -/
theorem gA (fs : String → Option Yaml) (resolve : String → String → String)
    (hfs : ∀ p y, fs p = some y → goodY y = true) :
    ∀ (fuel : Nat) (m m2 : List (String × Yaml)) (inc : List String),
    goodM m = true → yamlIncludes fs resolve fuel m = .ok (m2, inc) → goodM m2 = true
  | 0, m, m2, inc, _, h => by
    rw [yamlIncludes] at h
    cases h
  | fuel + 1, m, m2, inc, hm, h => by
    rw [yamlIncludes] at h
    rcases hIE : yIterElems (pyGetD m "_include" (Yaml.ylist [])) with e | rels
    · rw [hIE] at h
      cases h
    · rw [hIE] at h
      dsimp only [] at h
      exact gL fs resolve hfs fuel rels m [] m2 inc hm h
  termination_by fuel => (fuel, 0)

/-- The include loop keeps the document good. -/
theorem gL (fs : String → Option Yaml) (resolve : String → String → String)
    (hfs : ∀ p y, fs p = some y → goodY y = true) :
    ∀ (fuel : Nat) (rels : List Yaml) (parent : List (String × Yaml))
      (included : List String) (doc : List (String × Yaml)) (inc : List String),
    goodM parent = true → yiLoop fs resolve fuel rels parent included = .ok (doc, inc) →
    goodM doc = true
  | fuel, [], parent, included, doc, inc, hp, h => by
    rw [yiLoop] at h
    cases h
    exact hp
  | 0, rv :: rest, _, _, _, _, _, h => by
    rw [yiLoop] at h
    cases h
  | fuel + 1, rv :: rest, parent, included, doc, inc, hp, h => by
    obtain ⟨rel, ppath, hrv, hpp, hcase⟩ :=
      yiLoop_inv fs resolve fuel rv rest parent included doc inc h
    rcases hcase with ⟨hcon, htail⟩ |
      ⟨hcon, child0, child2, included2, child3, inc3, parent2, hf, hB, hC, hD, htail⟩
    · exact gL fs resolve hfs fuel rest parent included doc inc hp htail
    · have hchild0 : goodM child0 = true := by
        have hb := hfs _ _ hf
        rw [goodY] at hb
        exact hb
      have hchild1 : goodM (setKey child0 "_path" (Yaml.ystr (resolve ppath rel))) = true :=
        goodSetKey child0 "_path" _ hchild0 (Or.inl (Or.inl rfl))
      have hchild2 : goodM child2 = true :=
        gP fs resolve hfs fuel (resolve ppath rel)
          ((setKey child0 "_path" (Yaml.ystr (resolve ppath rel))).map (fun e => e.1))
          (setKey child0 "_path" (Yaml.ystr (resolve ppath rel)))
          (included ++ [resolve ppath rel]) child2 included2 hchild1 hB
      have hchild3 : goodM child3 = true :=
        gA fs resolve hfs fuel child2 child3 inc3 hchild2 hC
      have hparent2 : goodM parent2 = true := by
        rw [updateDict] at hD
        exact goodPreserveE child3 parent parent2 hp hchild3 hD
      exact gL fs resolve hfs fuel rest parent2 (included2 ++ inc3) doc inc hparent2 htail
  termination_by fuel _ => (fuel, 1)

/-- The peripheral-level include pass keeps the child good. -/
theorem gP (fs : String → Option Yaml) (resolve : String → String → String)
    (hfs : ∀ p y, fs p = some y → goodY y = true) :
    ∀ (fuel : Nat) (path : String) (ks : List String) (child : List (String × Yaml))
      (inc : List String) (child2 : List (String × Yaml)) (inc2 : List String),
    goodM child = true → yiPeriphLoop fs resolve fuel path ks child inc = .ok (child2, inc2) →
    goodM child2 = true
  | fuel, path, [], child, inc, child2, inc2, hc, h => by
    rw [yiPeriphLoop] at h
    cases h
    exact hc
  | 0, path, k :: rest, _, _, _, _, _, h => by
    rw [yiPeriphLoop] at h
    cases h
  | fuel + 1, path, k :: rest, child, inc, child2, inc2, hc, h => by
    rw [yiPeriphLoop] at h
    by_cases hsw : pyStartsWith k "_" = true
    · rw [if_pos hsw] at h
      exact gP fs resolve hfs fuel path rest child inc child2 inc2 hc h
    · rw [if_neg hsw] at h
      rcases hgk : pyGet child k with _ | v
      · rw [hgk] at h
        dsimp only [] at h
        exact gP fs resolve hfs fuel path rest child inc child2 inc2 hc h
      · rw [hgk] at h
        dsimp only [] at h
        rcases hyc : yContains v "_include" with e | b
        · rw [hyc] at h
          dsimp only [] at h
          cases h
        · rw [hyc] at h
          cases b
          · dsimp only [] at h
            exact gP fs resolve hfs fuel path rest child inc child2 inc2 hc h
          · dsimp only [] at h
            have hnres : ¬(k = "_path" ∨ k = "_include") := by
              rintro (rfl | rfl)
              · exact hsw rfl
              · exact hsw rfl
            rcases v with _ | s3 | n3 | l3 | pm
            · dsimp only [] at h
              cases h
            · dsimp only [] at h
              cases h
            · dsimp only [] at h
              cases h
            · dsimp only [] at h
              cases h
            · dsimp only [] at h
              have hpm : goodM pm = true := by
                have hb := pyGet_good child k (Yaml.ymap pm) hc hgk hnres
                rw [goodY] at hb
                exact hb
              rcases hA : yamlIncludes fs resolve fuel (setKey pm "_path" (Yaml.ystr path))
                  with e | pr
              · rw [hA] at h
                cases h
              · rw [hA] at h
                dsimp only [] at h
                rcases pr with ⟨pm2, inc2b⟩
                have hpm1 : goodM (setKey pm "_path" (Yaml.ystr path)) = true :=
                  goodSetKey pm "_path" _ hpm (Or.inl (Or.inl rfl))
                have hpm2 : goodM pm2 = true :=
                  gA fs resolve hfs fuel (setKey pm "_path" (Yaml.ystr path)) pm2 inc2b hpm1 hA
                refine gP fs resolve hfs fuel path rest (setKey child k (Yaml.ymap pm2))
                  (inc ++ inc2b) child2 inc2 ?_ h
                refine goodSetKey child k (Yaml.ymap pm2) hc (Or.inr ?_)
                rw [goodY]
                exact hpm2
  termination_by fuel _ _ => (fuel, 0)

end

/-- Re-running the include loop on its own output changes nothing: every
child merged the first time is absorbed by the final document. -/
theorem rL (fs : String → Option Yaml) (resolve : String → String → String)
    (hfs : ∀ p y, fs p = some y → goodY y = true) :
    ∀ (fuel : Nat) (rels : List Yaml) (parent : List (String × Yaml))
      (included : List String) (doc : List (String × Yaml)) (inc : List String),
    goodM parent = true →
    yiLoop fs resolve fuel rels parent included = .ok (doc, inc) →
    yiLoop fs resolve fuel rels doc included = .ok (doc, inc)
  | fuel, [], parent, included, doc, inc, _, h => by
    rw [yiLoop] at h
    cases h
    rw [yiLoop]
  | 0, rv :: rest, _, _, _, _, _, h => by
    rw [yiLoop] at h
    cases h
  | fuel + 1, rv :: rest, parent, included, doc, inc, hp, h => by
    have hpdoc := rsvL fs resolve (fuel + 1) (rv :: rest) parent included doc inc "_path" h
      (Or.inl rfl)
    obtain ⟨rel, ppath, hrv, hpp, hcase⟩ :=
      yiLoop_inv fs resolve fuel rv rest parent included doc inc h
    subst hrv
    rw [hpp] at hpdoc
    rcases hcase with ⟨hcon, htail⟩ |
      ⟨hcon, child0, child2, included2, child3, inc3, parent2, hf, hB, hC, hD, htail⟩
    · exact yiLoop_step_skip fs resolve fuel rel rest doc included (doc, inc) ppath
        hpdoc hcon (rL fs resolve hfs fuel rest parent included doc inc hp htail)
    · have hchild0 : goodM child0 = true := by
        have hb := hfs _ _ hf
        rw [goodY] at hb
        exact hb
      have hchild1 : goodM (setKey child0 "_path" (Yaml.ystr (resolve ppath rel))) = true :=
        goodSetKey child0 "_path" _ hchild0 (Or.inl (Or.inl rfl))
      have hchild2 : goodM child2 = true :=
        gP fs resolve hfs fuel (resolve ppath rel)
          ((setKey child0 "_path" (Yaml.ystr (resolve ppath rel))).map (fun e => e.1))
          (setKey child0 "_path" (Yaml.ystr (resolve ppath rel)))
          (included ++ [resolve ppath rel]) child2 included2 hchild1 hB
      have hchild3 : goodM child3 = true :=
        gA fs resolve hfs fuel child2 child3 inc3 hchild2 hC
      have hDe : updEntries parent child3 = .ok parent2 := by
        rw [updateDict] at hD
        exact hD
      have hparent2 : goodM parent2 = true :=
        goodPreserveE child3 parent parent2 hp hchild3 hDe
      have habs2 : absEntries parent2 child3 = true :=
        estEntries child3 parent parent2 hp hchild3 hDe
      have habs3 : absEntries doc child3 = true :=
        pL fs resolve fuel rest parent2 (included2 ++ inc3) doc inc child3 htail habs2
      have hDdoc : updateDict doc (Yaml.ymap child3) = .ok doc := by
        rw [updateDict]
        exact absSoundE child3 doc habs3
      exact yiLoop_step_go fs resolve fuel rel rest doc included (doc, inc) ppath
        child0 child2 included2 child3 inc3 doc hpdoc hcon hf hB hC hDdoc
        (rL fs resolve hfs fuel rest parent2 (included2 ++ inc3) doc inc hparent2 htail)

/-- Re-running yaml_includes on its own output reproduces it. -/
theorem rA (fs : String → Option Yaml) (resolve : String → String → String)
    (hfs : ∀ p y, fs p = some y → goodY y = true)
    (fuel : Nat) (m m2 : List (String × Yaml)) (inc : List String)
    (hm : goodM m = true)
    (h : yamlIncludes fs resolve fuel m = .ok (m2, inc)) :
    yamlIncludes fs resolve fuel m2 = .ok (m2, inc) := by
  rcases fuel with _ | fuel
  · rw [yamlIncludes] at h
    cases h
  · rw [yamlIncludes] at h
    rcases hIE : yIterElems (pyGetD m "_include" (Yaml.ylist [])) with e | rels
    · rw [hIE] at h
      cases h
    · rw [hIE] at h
      dsimp only [] at h
      have hinc : pyGet m2 "_include" = pyGet m "_include" :=
        rsvL fs resolve fuel rels m [] m2 inc "_include" h (Or.inr rfl)
      have hped : pyGetD m2 "_include" (Yaml.ylist []) =
          pyGetD m "_include" (Yaml.ylist []) := by
        rw [pyGetD, pyGetD, hinc]
      rw [yamlIncludes, hped, hIE]
      dsimp only []
      exact rL fs resolve hfs fuel rels m [] m2 inc hm h

/-- A filesystem with a single include file holding a list-valued key. -/
def c5fs : String → Option Yaml :=
  fun _ => some (Yaml.ymap [("k", Yaml.ylist [Yaml.ystr "x"])])

/-- A path resolver: relative paths stand for themselves. -/
def c5res : String → String → String := fun _ rel => rel

/-- A document including the file A once. -/
def c5parent : List (String × Yaml) :=
  [("_path", Yaml.ystr "ROOT"), ("_include", Yaml.ylist [Yaml.ystr "A"])]

/-- The first run appends k = [x]. -/
def c5doc1 : List (String × Yaml) :=
  [("_path", Yaml.ystr "ROOT"), ("_include", Yaml.ylist [Yaml.ystr "A"]),
   ("k", Yaml.ylist [Yaml.ystr "x"])]

/-- The second run extends the list again: k = [x, x]. -/
def c5doc2 : List (String × Yaml) :=
  [("_path", Yaml.ystr "ROOT"), ("_include", Yaml.ylist [Yaml.ystr "A"]),
   ("k", Yaml.ylist [Yaml.ystr "x", Yaml.ystr "x"])]

/-- C5 counterexample to unconditional idempotence: a list-valued key of
an included file is concatenated onto the merged document again on every
rerun, because update_dict appends to existing list values and the merged
document still carries _path and _include. -/
theorem c5_counterexample :
    yamlIncludes c5fs c5res 5 c5parent = .ok (c5doc1, ["A"]) ∧
    yamlIncludes c5fs c5res 5 c5doc1 = .ok (c5doc2, ["A"]) ∧
    ¬(c5doc2 = c5doc1) := by
  refine ⟨rfl, rfl, ?_⟩
  decide

/-- C5 (amended): include resolution is idempotent on documents whose
unreserved values (in the root document and in every included file,
recursively) contain no lists and whose mappings have unique keys: a
second run of yaml_includes on the merged document returns it unchanged,
with the same included-path list.  Unconditionally the claim fails:
list-valued keys are appended again on every rerun (c5_counterexample). -/
theorem c5_include_idempotent_amended
    (fs : String → Option Yaml) (resolve : String → String → String)
    (fuel : Nat) (parent doc : List (String × Yaml)) (inc : List String)
    (hfs : ∀ p y, fs p = some y → goodY y = true)
    (hp : goodM parent = true)
    (h1 : yamlIncludes fs resolve fuel parent = .ok (doc, inc)) :
    yamlIncludes fs resolve fuel doc = .ok (doc, inc) :=
  rA fs resolve hfs fuel parent doc inc hp h1

/-- A filesystem whose single file is good (scalar value only). -/
def c5wfs : String → Option Yaml :=
  fun _ => some (Yaml.ymap [("k", Yaml.ystr "x")])

/-- The merged document for the good filesystem. -/
def c5wdoc : List (String × Yaml) :=
  [("_path", Yaml.ystr "ROOT"), ("_include", Yaml.ylist [Yaml.ystr "A"]),
   ("k", Yaml.ystr "x")]

/-- The amended C5 instantiated at a concrete good document. -/
theorem c5_include_idempotent_amended_witness :
    (∀ p y, c5wfs p = some y → goodY y = true) ∧ goodM c5parent = true ∧
    yamlIncludes c5wfs c5res 5 c5parent = .ok (c5wdoc, ["A"]) ∧
    yamlIncludes c5wfs c5res 5 c5wdoc = .ok (c5wdoc, ["A"]) :=
  ⟨fun p y h => by cases h; rfl, rfl, rfl,
    c5_include_idempotent_amended c5wfs c5res 5 c5parent c5wdoc ["A"]
      (fun p y h => by cases h; rfl) rfl rfl⟩

end Svdtools
